import Mathlib

/-! Ansible operator plugins: owner tokens, kubeconfig rendering, owner enqueueing and the
run command.

Shallow embedding of

* `internal/ansible/proxy/kubeconfig/kubeconfig.go` (`EncodeOwnerRef`, `Create`),
* `internal/ansible/handler/logging_enqueue_owner.go` (`getOwnersReferences`,
  `getOwnerReconcileRequest`),
* `internal/cmd/ansible-operator/run/cmd.go` (`getAnsibleEventsToLog`, the watch loop of `run`),

together with the parts of the Go standard library and of `k8s.io/apimachinery` these
functions call (`unicode/utf8`, `encoding/base64`, `encoding/json`, `net/url`,
`html/template`, `strings`, `metav1`, `schema`).

Go strings are byte sequences; every library function is modelled on bytes. Loops that
advance by a variable number of bytes carry a fuel argument that is initialised with the
length of the input, which bounds the number of iterations.
-/

/-- A Go byte. -/
abbrev Byte := Fin 256

/-- A Go string: an immutable sequence of bytes, not necessarily valid UTF-8. -/
abbrev GoString := List Byte

/-- The bytes of an ASCII literal. -/
def lit (s : String) : GoString := s.toList.map (fun c => Fin.ofNat c.toNat)

/-! ## Package `unicode/utf8` -/

namespace Utf8

def RuneError : Nat := 0xFFFD

/-- Row of the table `first` for a leading byte, with the accept range of the row:
`(size, lo, hi)`. Size 1 is an ASCII byte (`as`), size 0 an invalid leading byte (`xx`). -/
def first (s0 : Nat) : Nat × Nat × Nat :=
  if s0 < 0x80 then (1, 0, 0)
  else if s0 < 0xC2 then (0, 0, 0)
  else if s0 < 0xE0 then (2, 0x80, 0xBF)
  else if s0 = 0xE0 then (3, 0xA0, 0xBF)
  else if s0 < 0xED then (3, 0x80, 0xBF)
  else if s0 = 0xED then (3, 0x80, 0x9F)
  else if s0 < 0xF0 then (3, 0x80, 0xBF)
  else if s0 = 0xF0 then (4, 0x90, 0xBF)
  else if s0 < 0xF4 then (4, 0x80, 0xBF)
  else if s0 = 0xF4 then (4, 0x80, 0x8F)
  else (0, 0, 0)

/-- Function `utf8.DecodeRune` (and `DecodeRuneInString`): the first rune of `s` and its
width in bytes; `(RuneError, 1)` for an invalid encoding, `(RuneError, 0)` for no input.
Masks and shifts are written as `%` and `*`. -/
def DecodeRune (s : List Byte) : Nat × Nat :=
  let n := s.length
  if n < 1 then (RuneError, 0)
  else
    let s0 := (s.getD 0 0).val
    let x := first s0
    if x.1 = 1 then (s0, 1)
    else if x.1 = 0 then (RuneError, 1)
    else if n < x.1 then (RuneError, 1)
    else
      let s1 := (s.getD 1 0).val
      if s1 < x.2.1 ∨ x.2.2 < s1 then (RuneError, 1)
      else if x.1 ≤ 2 then (s0 % 32 * 64 + s1 % 64, 2)
      else
        let s2 := (s.getD 2 0).val
        if s2 < 0x80 ∨ 0xBF < s2 then (RuneError, 1)
        else if x.1 ≤ 3 then (s0 % 16 * 4096 + s1 % 64 * 64 + s2 % 64, 3)
        else
          let s3 := (s.getD 3 0).val
          if s3 < 0x80 ∨ 0xBF < s3 then (RuneError, 1)
          else (s0 % 8 * 262144 + s1 % 64 * 4096 + s2 % 64 * 64 + s3 % 64, 4)

/-- Three-byte case of `appendRuneNonASCII`. -/
def encodeRune3 (r : Nat) : List Byte :=
  [Fin.ofNat (0xE0 + r / 4096), Fin.ofNat (0x80 + r / 64 % 64), Fin.ofNat (0x80 + r % 64)]

/-- Function `utf8.EncodeRune` / `utf8.AppendRune` for a non-negative rune: surrogates and
values above `MaxRune` are written as `RuneError`. -/
def EncodeRune (r : Nat) : List Byte :=
  if r ≤ 0x7F then [Fin.ofNat r]
  else if r ≤ 0x7FF then [Fin.ofNat (0xC0 + r / 64), Fin.ofNat (0x80 + r % 64)]
  else if 0x10FFFF < r ∨ (0xD800 ≤ r ∧ r ≤ 0xDFFF) then encodeRune3 RuneError
  else if r ≤ 0xFFFF then encodeRune3 r
  else [Fin.ofNat (0xF0 + r / 262144), Fin.ofNat (0x80 + r / 4096 % 64),
        Fin.ofNat (0x80 + r / 64 % 64), Fin.ofNat (0x80 + r % 64)]

/-- Loop of `utf8.ValidString`: every decoding step yields a well-formed rune. -/
def validLoop : Nat → List Byte → Bool
  | 0, s => s.isEmpty
  | fuel + 1, s =>
    if s.isEmpty then true
    else
      let d := DecodeRune s
      if d.1 = RuneError ∧ d.2 = 1 then false
      else validLoop fuel (s.drop d.2)

/-- Function `utf8.ValidString`. -/
def ValidString (s : GoString) : Bool := validLoop s.length s

end Utf8

/-! ## Package `encoding/base64`: `URLEncoding` -/

namespace Base64

/-- Alphabet `encodeURL`. -/
def encodeURL : GoString :=
  lit "ABCDEFGHIJKLMNOPQRSTUVWXYZabcdefghijklmnopqrstuvwxyz0123456789-_"

/-- Constant `StdPadding`, the character `=`. -/
def padChar : Byte := 0x3D

/-- Lookup `enc.encode[v & 0x3F]`. -/
def enc (v : Nat) : Byte := encodeURL.getD (v % 64) 0

/-- Method `(*Encoding).EncodeToString` of `URLEncoding`: three source bytes become four
characters, a final group of one or two bytes is padded with `=`. Shifts are divisions. -/
def EncodeToString : List Byte → GoString
  | b0 :: b1 :: b2 :: rest =>
    let val := b0.val * 65536 + b1.val * 256 + b2.val
    enc (val / 262144) :: enc (val / 4096) :: enc (val / 64) :: enc val :: EncodeToString rest
  | [b0, b1] =>
    let val := b0.val * 65536 + b1.val * 256
    [enc (val / 262144), enc (val / 4096), enc (val / 64), padChar]
  | [b0] =>
    let val := b0.val * 65536
    [enc (val / 262144), enc (val / 4096), padChar, padChar]
  | [] => []

/-- Table `decodeMap`: the index of a character in the alphabet, `0xFF` outside it. -/
def decodeMap (c : Byte) : Nat :=
  let i := encodeURL.indexOf c
  if i < 64 then i else 255

def isNewline (c : Byte) : Bool := c.val = 0x0A || c.val = 0x0D

/-- The 24-bit value of four 6-bit digits. -/
def quantum (d0 d1 d2 d3 : Nat) : Nat := d0 * 262144 + d1 * 4096 + d2 * 64 + d3

/-- Function `decodeQuantum`, repeated over an input without line breaks: groups of four
alphabet characters give three bytes; padding is accepted only in the last group and
nothing may follow it. `none` stands for `CorruptInputError`. -/
def decodeQuanta : GoString → Option (List Byte)
  | [] => some []
  | c0 :: c1 :: c2 :: c3 :: rest =>
    let d0 := decodeMap c0
    let d1 := decodeMap c1
    let d2 := decodeMap c2
    let d3 := decodeMap c3
    if d0 = 255 ∨ d1 = 255 then none
    else if d2 = 255 then
      if c2 = padChar ∧ c3 = padChar ∧ rest = [] then
        some [Fin.ofNat (quantum d0 d1 0 0 / 65536)]
      else none
    else if d3 = 255 then
      if c3 = padChar ∧ rest = [] then
        some [Fin.ofNat (quantum d0 d1 d2 0 / 65536), Fin.ofNat (quantum d0 d1 d2 0 / 256)]
      else none
    else
      match decodeQuanta rest with
      | none => none
      | some out =>
        some (Fin.ofNat (quantum d0 d1 d2 d3 / 65536) :: Fin.ofNat (quantum d0 d1 d2 d3 / 256) ::
          Fin.ofNat (quantum d0 d1 d2 d3) :: out)
  | _ => none

/-- Method `(*Encoding).DecodeString` of `URLEncoding`: `\r` and `\n` are ignored wherever
they stand. -/
def DecodeString (s : GoString) : Option (List Byte) :=
  decodeQuanta (s.filter (fun c => !isNewline c))

end Base64
namespace Utf8

/-- A byte string that is a sequence of ASCII bytes and of multi-byte encodings that
`DecodeRune` reads back as a rune `r` of width `sz`: the shape `ValidString` accepts. -/
inductive WellFormed : List Byte → Prop where
  | nil : WellFormed []
  | ascii (b : Byte) (t : List Byte) : b.val < 0x80 → WellFormed t → WellFormed (b :: t)
  | rune (b0 : Byte) (bs rest : List Byte) (r sz : Nat) :
      0x80 ≤ b0.val → (b0 :: bs).length = sz → EncodeRune r = b0 :: bs → 0x80 ≤ r →
      (∀ more, DecodeRune (b0 :: bs ++ more) = (r, sz)) →
      WellFormed rest → WellFormed (b0 :: bs ++ rest)

end Utf8
/-! ## Package `encoding/json`

The encoder is `appendString` and the struct encoder; the decoder covers the documents whose
top-level value is `null` or an object with string, boolean and `null` member values, which
is every document the encoder below can produce. Numbers, arrays and nested objects are
reported as `unsupported`. -/

namespace Json

/-- Digits `hex` used by `appendString`. -/
def hex : GoString := lit "0123456789abcdef"

def hexDigit (n : Nat) : Byte := hex.getD (n % 16) 0

/-- Table `htmlSafeSet`: the ASCII bytes written without escaping when HTML escaping is on. -/
def htmlSafeSet (b : Byte) : Bool :=
  0x20 ≤ b.val && b.val < 0x80 && b.val != 0x22 && b.val != 0x5C && b.val != 0x26 &&
    b.val != 0x3C && b.val != 0x3E

/-- Escape written by `appendString` for an ASCII byte outside `htmlSafeSet`. -/
def escapeByte (b : Byte) : GoString :=
  if b.val = 0x5C ∨ b.val = 0x22 then [0x5C, b]
  else if b.val = 0x08 then lit "\\b"
  else if b.val = 0x0C then lit "\\f"
  else if b.val = 0x0A then lit "\\n"
  else if b.val = 0x0D then lit "\\r"
  else if b.val = 0x09 then lit "\\t"
  else lit "\\u00" ++ [hexDigit (b.val / 16), hexDigit b.val]

/-- Loop of `appendString` with `escapeHTML = true` (the setting of `json.Marshal`) over
the bytes still to encode: safe ASCII bytes and well-formed multi-byte runes are copied,
the other ASCII bytes are escaped, an invalid byte becomes `\ufffd`, and U+2028 and U+2029
become `\u2028` and `\u2029`. -/
def appendStringLoop : Nat → GoString → GoString
  | 0, _ => []
  | _ + 1, [] => []
  | fuel + 1, b :: rest =>
    if b.val < 0x80 then
      if htmlSafeSet b then b :: appendStringLoop fuel rest
      else escapeByte b ++ appendStringLoop fuel rest
    else
      let d := Utf8.DecodeRune (b :: rest)
      if d.1 = Utf8.RuneError ∧ d.2 = 1 then lit "\\ufffd" ++ appendStringLoop fuel rest
      else if d.1 = 0x2028 ∨ d.1 = 0x2029 then
        lit "\\u202" ++ [hexDigit d.1] ++ appendStringLoop fuel ((b :: rest).drop d.2)
      else (b :: rest).take d.2 ++ appendStringLoop fuel ((b :: rest).drop d.2)

/-- Function `appendString`: the quoted JSON string for `src`. -/
def appendString (src : GoString) : GoString :=
  [0x22] ++ appendStringLoop src.length src ++ [0x22]

/-- The values a field of `NamespacedOwnerReference` can hold. -/
inductive FieldValue where
  | str (s : GoString)
  | ptrBool (b : Option Bool)
  deriving DecidableEq, Repr

/-- Function `isEmptyValue` at these types: only a nil pointer is empty. -/
def isEmptyValue : FieldValue → Bool
  | .ptrBool none => true
  | _ => false

/-- Encoders of the field types: `stringEncoder`, and `ptrEncoder` over `boolEncoder`. -/
def encodeValue : FieldValue → GoString
  | .str s => appendString s
  | .ptrBool (some true) => lit "true"
  | .ptrBool (some false) => lit "false"
  | .ptrBool none => lit "null"

/-- One entry of the encoder's field list: JSON name, `omitempty`, value. -/
structure EncField where
  name : GoString
  omitEmpty : Bool
  value : FieldValue

/-- Field loop of the struct encoder; `next` is the separator to write before the
following member. -/
def structFields (next : Byte) : List EncField → Byte × GoString
  | [] => (next, [])
  | f :: fs =>
    if f.omitEmpty && isEmptyValue f.value then structFields next fs
    else
      let r := structFields 0x2C fs
      (r.1, [next] ++ appendString f.name ++ [0x3A] ++ encodeValue f.value ++ r.2)

/-- Method `structEncoder.encode`: the members in field order, `omitempty` fields with an
empty value left out. -/
def structEncode (fields : List EncField) : GoString :=
  let r := structFields 0x7B fields
  if r.1 = 0x7B then [0x7B, 0x7D] else r.2 ++ [0x7D]

/-- Decoding errors: `invalid` is a `SyntaxError`, `mismatch` an `UnmarshalTypeError`, and
`unsupported` marks a value outside the modelled fragment. -/
inductive Error where
  | invalid
  | mismatch
  | unsupported
  deriving DecidableEq, Repr

/-- Member values of the modelled fragment. -/
inductive Value where
  | str (s : GoString)
  | bool (b : Bool)
  | null
  deriving DecidableEq, Repr

/-- Function `isSpace` of the scanner. -/
def isSpace (c : Byte) : Bool := c.val = 0x20 || c.val = 0x09 || c.val = 0x0D || c.val = 0x0A

def skipSpace (s : List Byte) : List Byte := s.dropWhile isSpace

/-- Value of a hexadecimal digit, as read by `getu4`. -/
def hexVal (c : Byte) : Option Nat :=
  if 0x30 ≤ c.val ∧ c.val ≤ 0x39 then some (c.val - 0x30)
  else if 0x61 ≤ c.val ∧ c.val ≤ 0x66 then some (c.val - 0x61 + 10)
  else if 0x41 ≤ c.val ∧ c.val ≤ 0x46 then some (c.val - 0x41 + 10)
  else none

/-- Function `getu4`: the rune of a leading `\uXXXX`, `none` standing for `-1`. -/
def getu4 : List Byte → Option Nat
  | b :: u :: c0 :: c1 :: c2 :: c3 :: _ =>
    if b.val ≠ 0x5C ∨ u.val ≠ 0x75 then none
    else
      match hexVal c0, hexVal c1, hexVal c2, hexVal c3 with
      | some h0, some h1, some h2, some h3 => some (((h0 * 16 + h1) * 16 + h2) * 16 + h3)
      | _, _, _, _ => none
  | _ => none

/-- Function `utf16.IsSurrogate`. -/
def isSurrogate (r : Nat) : Bool := 0xD800 ≤ r && r < 0xE000

/-- Function `utf16.DecodeRune`; `none` for the second half stands for `-1`. -/
def utf16DecodeRune (r1 : Nat) (r2 : Option Nat) : Nat :=
  match r2 with
  | some r2 =>
    if 0xD800 ≤ r1 ∧ r1 < 0xDC00 ∧ 0xDC00 ≤ r2 ∧ r2 < 0xE000 then
      (r1 - 0xD800) * 1024 + (r2 - 0xDC00) + 0x10000
    else 0xFFFD
  | none => 0xFFFD

/-- The single-character escapes the scanner accepts after a backslash. -/
def simpleEscape (e : Byte) : Option Byte :=
  if e.val = 0x22 ∨ e.val = 0x5C ∨ e.val = 0x2F then some e
  else if e.val = 0x62 then some 0x08
  else if e.val = 0x66 then some 0x0C
  else if e.val = 0x6E then some 0x0A
  else if e.val = 0x72 then some 0x0D
  else if e.val = 0x74 then some 0x09
  else none

/-- Prepends the bytes written in one step to the result of the rest of the loop. -/
def consTo (out : GoString) : Option (GoString × List Byte) → Option (GoString × List Byte)
  | some (t, r) => some (out ++ t, r)
  | none => none

/-- String literal body, the scanner states `stateInString...` and `unquoteBytes` in one
pass: reads from just after the opening quote up to the closing quote and gives the
unquoted string and the input that follows the literal. A continuation byte is never a
quote or a backslash, so decoding a rune on the remaining input reads the same bytes as
decoding it on the literal alone. -/
def unquoteLoop : Nat → List Byte → Option (GoString × List Byte)
  | 0, _ => none
  | _ + 1, [] => none
  | fuel + 1, c :: rest =>
    if c.val = 0x22 then some ([], rest)
    else if c.val = 0x5C then
      match rest with
      | [] => none
      | e :: rest2 =>
        if e.val = 0x75 then
          match getu4 (c :: rest) with
          | none => none
          | some rr =>
            let after := rest2.drop 4
            if isSurrogate rr then
              let dec := utf16DecodeRune rr (getu4 after)
              if dec ≠ 0xFFFD then consTo (Utf8.EncodeRune dec) (unquoteLoop fuel (after.drop 6))
              else consTo (Utf8.EncodeRune 0xFFFD) (unquoteLoop fuel after)
            else consTo (Utf8.EncodeRune rr) (unquoteLoop fuel after)
        else
          match simpleEscape e with
          | some b => consTo [b] (unquoteLoop fuel rest2)
          | none => none
    else if c.val < 0x20 then none
    else if c.val < 0x80 then consTo [c] (unquoteLoop fuel rest)
    else
      let d := Utf8.DecodeRune (c :: rest)
      consTo (Utf8.EncodeRune d.1) (unquoteLoop fuel ((c :: rest).drop d.2))

/-- A string literal whose opening quote has been consumed. -/
def parseString (rest : List Byte) : Option (GoString × List Byte) :=
  unquoteLoop (rest.length + 1) rest

/-- One member value. -/
def parseValue (s : List Byte) : Except Error (Value × List Byte) :=
  match s with
  | [] => .error .invalid
  | c :: rest =>
    if c.val = 0x22 then
      match parseString rest with
      | some (t, r) => .ok (.str t, r)
      | none => .error .invalid
    else if (lit "true").isPrefixOf s then .ok (.bool true, s.drop 4)
    else if (lit "false").isPrefixOf s then .ok (.bool false, s.drop 5)
    else if (lit "null").isPrefixOf s then .ok (.null, s.drop 4)
    else if c.val = 0x7B ∨ c.val = 0x5B ∨ c.val = 0x2D ∨ (0x30 ≤ c.val ∧ c.val ≤ 0x39) then
      .error .unsupported
    else .error .invalid

/-- Members of an object, from the first key up to and including the closing brace. -/
def parseMembers : Nat → List Byte → Except Error (List (GoString × Value) × List Byte)
  | 0, _ => .error .invalid
  | fuel + 1, s =>
    match s with
    | [] => .error .invalid
    | q :: rest =>
      if q.val ≠ 0x22 then .error .invalid
      else
        match parseString rest with
        | none => .error .invalid
        | some (key, r1) =>
          match skipSpace r1 with
          | [] => .error .invalid
          | colon :: r2 =>
            if colon.val ≠ 0x3A then .error .invalid
            else
              match parseValue (skipSpace r2) with
              | .error e => .error e
              | .ok (v, r3) =>
                match skipSpace r3 with
                | [] => .error .invalid
                | d :: r4 =>
                  if d.val = 0x7D then .ok ([(key, v)], r4)
                  else if d.val = 0x2C then
                    match parseMembers fuel (skipSpace r4) with
                    | .error e => .error e
                    | .ok (ms, r5) => .ok ((key, v) :: ms, r5)
                  else .error .invalid

/-- Top-level value of a document read into a struct: `none` for the literal `null`,
the members in input order for an object. -/
def parseDocument (data : List Byte) : Except Error (Option (List (GoString × Value))) :=
  match skipSpace data with
  | [] => .error .invalid
  | c :: rest =>
    if c.val = 0x7B then
      match skipSpace rest with
      | [] => .error .invalid
      | d :: r1 =>
        if d.val = 0x7D then
          if skipSpace r1 = [] then .ok (some []) else .error .invalid
        else
          match parseMembers (d :: r1).length (d :: r1) with
          | .error e => .error e
          | .ok (ms, r2) => if skipSpace r2 = [] then .ok (some ms) else .error .invalid
    else if (lit "null").isPrefixOf (c :: rest) then
      if skipSpace ((c :: rest).drop 4) = [] then .ok none else .error .invalid
    else
      match parseValue (c :: rest) with
      | .error e => .error e
      | .ok _ => .error .mismatch

/-- Loop of `appendFoldedName`: ASCII letters are upper-cased, every other rune goes
through `foldRune`, which stands for the Unicode simple-folding table of the library. -/
def foldNameLoop (foldRune : Nat → Nat) : Nat → List Byte → List Byte
  | 0, _ => []
  | _ + 1, [] => []
  | fuel + 1, c :: rest =>
    if c.val < 0x80 then
      (if 0x61 ≤ c.val ∧ c.val ≤ 0x7A then Fin.ofNat (c.val - 0x20) else c) ::
        foldNameLoop foldRune fuel rest
    else
      let d := Utf8.DecodeRune (c :: rest)
      Utf8.EncodeRune (foldRune d.1) ++ foldNameLoop foldRune fuel ((c :: rest).drop d.2)

/-- Function `foldName`. -/
def foldName (foldRune : Nat → Nat) (s : List Byte) : List Byte :=
  foldNameLoop foldRune s.length s

/-- The decoded form of an encoded field value. -/
def FieldValue.toValue : FieldValue → Value
  | .str s => .str s
  | .ptrBool (some b) => .bool b
  | .ptrBool none => .null

/-- The fields the struct encoder writes: those not left out by `omitempty`. -/
def keptFields (fields : List EncField) : List EncField :=
  fields.filter (fun f => !(f.omitEmpty && isEmptyValue f.value))

/-- The member a written field decodes to. -/
def EncField.member (f : EncField) : GoString × Value := (f.name, f.value.toValue)

/-- Field values the decoder reads back unchanged: strings that are well-formed UTF-8, and
every pointer to a boolean. -/
def valueOK : FieldValue → Prop
  | .str s => Utf8.WellFormed s
  | .ptrBool _ => True

end Json
/-! ## Package `metav1`: owner references -/

namespace Metav1

/-- Type `metav1.OwnerReference`: `UID` is a string type, `Controller` and
`BlockOwnerDeletion` are `*bool`. -/
structure OwnerReference where
  APIVersion : GoString
  Kind : GoString
  Name : GoString
  UID : GoString
  Controller : Option Bool
  BlockOwnerDeletion : Option Bool
  deriving DecidableEq, Repr

end Metav1

/-! ## Package `kubeconfig`: the owner token -/

namespace Kubeconfig

open Metav1

/-- Type `NamespacedOwnerReference`: `metav1.OwnerReference` embedded, and `Namespace`. -/
structure NamespacedOwnerReference extends OwnerReference where
  Namespace : GoString
  deriving DecidableEq, Repr

/-- The JSON fields of `NamespacedOwnerReference` in encoding order: the promoted fields of
the embedded `OwnerReference` under their tag names, then the untagged `Namespace`. -/
inductive Field where
  | apiVersion | kind | name | uid | controller | blockOwnerDeletion | namespace
  deriving DecidableEq, Repr

def Field.all : List Field :=
  [.apiVersion, .kind, .name, .uid, .controller, .blockOwnerDeletion, .namespace]

/-- JSON name of a field: the `json` tag, or the Go field name where there is no tag. -/
def Field.jsonName : Field → GoString
  | .apiVersion => lit "apiVersion"
  | .kind => lit "kind"
  | .name => lit "name"
  | .uid => lit "uid"
  | .controller => lit "controller"
  | .blockOwnerDeletion => lit "blockOwnerDeletion"
  | .namespace => lit "Namespace"

/-- The tag option `omitempty`, set on `controller` and `blockOwnerDeletion`. -/
def Field.omitEmpty : Field → Bool
  | .controller => true
  | .blockOwnerDeletion => true
  | _ => false

def Field.get (v : NamespacedOwnerReference) : Field → Json.FieldValue
  | .apiVersion => .str v.APIVersion
  | .kind => .str v.Kind
  | .name => .str v.Name
  | .uid => .str v.UID
  | .controller => .ptrBool v.Controller
  | .blockOwnerDeletion => .ptrBool v.BlockOwnerDeletion
  | .namespace => .str v.Namespace

/-- Function `json.Marshal` at type `NamespacedOwnerReference`; no value of this type makes
the encoder fail. -/
def Marshal (v : NamespacedOwnerReference) : Except Json.Error (List Byte) :=
  .ok (Json.structEncode (Field.all.map (fun f => ⟨f.jsonName, f.omitEmpty, f.get v⟩)))

/-- Field lookup of the decoder: an exact match of the name, else the first field whose
folded name equals the folded key. -/
def findField (foldRune : Nat → Nat) (key : GoString) : Option Field :=
  match Field.all.find? (fun f => f.jsonName = key) with
  | some f => some f
  | none =>
    Field.all.find? (fun f => Json.foldName foldRune f.jsonName = Json.foldName foldRune key)

/-- Store of a decoded value in a field: `null` leaves a string unchanged and resets a
pointer; a value of the wrong JSON type is an `UnmarshalTypeError`. -/
def setField (v : NamespacedOwnerReference) : Field → Json.Value →
    Except Json.Error NamespacedOwnerReference
  | .apiVersion, .str s => .ok { v with APIVersion := s }
  | .kind, .str s => .ok { v with Kind := s }
  | .name, .str s => .ok { v with Name := s }
  | .uid, .str s => .ok { v with UID := s }
  | .namespace, .str s => .ok { v with Namespace := s }
  | .controller, .bool b => .ok { v with Controller := some b }
  | .blockOwnerDeletion, .bool b => .ok { v with BlockOwnerDeletion := some b }
  | .controller, .null => .ok { v with Controller := none }
  | .blockOwnerDeletion, .null => .ok { v with BlockOwnerDeletion := none }
  | .apiVersion, .null => .ok v
  | .kind, .null => .ok v
  | .name, .null => .ok v
  | .uid, .null => .ok v
  | .namespace, .null => .ok v
  | _, _ => .error .mismatch

/-- Members stored in input order; a key that names no field is skipped. -/
def storeMembers (foldRune : Nat → Nat) (v : NamespacedOwnerReference) :
    List (GoString × Json.Value) → Except Json.Error NamespacedOwnerReference
  | [] => .ok v
  | (key, val) :: ms =>
    match findField foldRune key with
    | none => storeMembers foldRune v ms
    | some f =>
      match setField v f val with
      | .error e => .error e
      | .ok v1 => storeMembers foldRune v1 ms

/-- The zero value of the struct. -/
def NamespacedOwnerReference.zero : NamespacedOwnerReference :=
  { APIVersion := [], Kind := [], Name := [], UID := [], Controller := none,
    BlockOwnerDeletion := none, Namespace := [] }

/-- Function `json.Unmarshal` into a zero `NamespacedOwnerReference`. -/
def Unmarshal (foldRune : Nat → Nat) (data : List Byte) :
    Except Json.Error NamespacedOwnerReference :=
  match Json.parseDocument data with
  | .error e => .error e
  | .ok none => .ok NamespacedOwnerReference.zero
  | .ok (some ms) => storeMembers foldRune NamespacedOwnerReference.zero ms

/-- EncodeOwnerRef takes an ownerReference and a namespace and returns a base64 encoded
string that can be used in the username field of a request to associate the owner with the
request being made. -/
def EncodeOwnerRef (ownerRef : OwnerReference) (namespace_ : GoString) :
    Except Json.Error GoString :=
  let nsOwnerRef : NamespacedOwnerReference := { ownerRef with Namespace := namespace_ }
  match Marshal nsOwnerRef with
  | .error err => .error err
  | .ok ownerRefJSON => .ok (Base64.EncodeToString ownerRefJSON)

/-- Reading a token back: `base64.URLEncoding.DecodeString`, then `json.Unmarshal` into a
`NamespacedOwnerReference`. `none` is a base64 error. -/
def decodeToken (foldRune : Nat → Nat) (token : GoString) :
    Option (Except Json.Error NamespacedOwnerReference) :=
  match Base64.DecodeString token with
  | none => none
  | some data => some (Unmarshal foldRune data)

end Kubeconfig

/-! ### Wire format of the token, as described and as written -/

namespace Base64

/-- The characters of the URL-safe alphabet: `A`-`Z`, `a`-`z`, `0`-`9`, `-` and `_`. -/
def isAlphabetChar (c : Byte) : Bool :=
  (0x41 ≤ c.val && c.val ≤ 0x5A) || (0x61 ≤ c.val && c.val ≤ 0x7A) ||
    (0x30 ≤ c.val && c.val ≤ 0x39) || c.val = 0x2D || c.val = 0x5F

end Base64

namespace Kubeconfig

open Metav1

/-- JSON text of a `*bool`. -/
def boolText : Bool → GoString
  | true => lit "true"
  | false => lit "false"

/-- An optional member: nothing for a nil pointer, else `,"name":value`. -/
def optionalMember (name : String) : Option Bool → GoString
  | none => []
  | some b => lit "," ++ Json.appendString (lit name) ++ lit ":" ++ boolText b

/-- The wire format in the words of the specification: an object with the two members
`ownerReference`, an object of `apiVersion`, `kind`, `name`, `uid`, `controller` and
`blockOwnerDeletion`, and `namespace`, a string. -/
def specTokenJSON (ownerRef : OwnerReference) (namespace_ : GoString) : GoString :=
  lit "\x7b\"ownerReference\":\x7b\"apiVersion\":" ++ Json.appendString ownerRef.APIVersion ++
    lit ",\"kind\":" ++ Json.appendString ownerRef.Kind ++
    lit ",\"name\":" ++ Json.appendString ownerRef.Name ++
    lit ",\"uid\":" ++ Json.appendString ownerRef.UID ++
    optionalMember "controller" ownerRef.Controller ++
    optionalMember "blockOwnerDeletion" ownerRef.BlockOwnerDeletion ++
    lit "\x7d,\"namespace\":" ++ Json.appendString namespace_ ++ lit "\x7d"

/-- The wire format the encoder writes: one flat object with the members `apiVersion`,
`kind`, `name`, `uid`, then `controller` and `blockOwnerDeletion` where the pointer is not
nil, then `Namespace`. -/
def flatTokenJSON (ownerRef : OwnerReference) (namespace_ : GoString) : GoString :=
  lit "\x7b\"apiVersion\":" ++ Json.appendString ownerRef.APIVersion ++
    lit ",\"kind\":" ++ Json.appendString ownerRef.Kind ++
    lit ",\"name\":" ++ Json.appendString ownerRef.Name ++
    lit ",\"uid\":" ++ Json.appendString ownerRef.UID ++
    optionalMember "controller" ownerRef.Controller ++
    optionalMember "blockOwnerDeletion" ownerRef.BlockOwnerDeletion ++
    lit ",\"Namespace\":" ++ Json.appendString namespace_ ++ lit "\x7d"

/-- The strings of an owner reference and the namespace are valid UTF-8. -/
def validStrings (ownerRef : OwnerReference) (namespace_ : GoString) : Bool :=
  Utf8.ValidString ownerRef.APIVersion && Utf8.ValidString ownerRef.Kind &&
    Utf8.ValidString ownerRef.Name && Utf8.ValidString ownerRef.UID &&
    Utf8.ValidString namespace_

/-- Sample owner reference: a `Memcached` custom resource that controls its dependents. -/
def sampleOwnerRef : OwnerReference :=
  { APIVersion := lit "cache.example.com/v1alpha1", Kind := lit "Memcached",
    Name := lit "memcached-sample", UID := lit "9c1a6e3f", Controller := some true,
    BlockOwnerDeletion := none }

end Kubeconfig
/-! ## Package `strings` -/

namespace Strings

/-- Lower-casing of one ASCII byte: `c += 'a' - 'A'` for `'A' <= c <= 'Z'`. -/
def lowerByte (c : Byte) : Byte :=
  if 0x41 ≤ c.val ∧ c.val ≤ 0x5A then Fin.ofNat (c.val + 0x20) else c

/-- Function `strings.ToLower`. A string of ASCII bytes is lower-cased byte by byte (and
returned as is when it has no upper-case letter); any other string goes through
`strings.Map(unicode.ToLower, s)`, for which `mapLower` stands: it depends on the Unicode
tables of the library. -/
def ToLower (mapLower : GoString → GoString) (s : GoString) : GoString :=
  let isASCII := s.all (fun c => c.val < 0x80)
  let hasUpper := s.any (fun c => 0x41 ≤ c.val && c.val ≤ 0x5A)
  if isASCII then
    if !hasUpper then s else s.map lowerByte
  else mapLower s

/-- Function `strings.HasPrefix`, by recursion on the prefix `pre`. -/
def HasPrefix (s pre : GoString) : Bool :=
  match pre with
  | [] => true
  | p :: ps =>
    match s with
    | [] => false
    | c :: cs => c = p && HasPrefix cs ps
termination_by structural pre

/-- A spelling of the lower-case ASCII word `word` in some casing: every byte is the byte of
the word or its upper-case form. -/
def isCasingOf (word s : GoString) : Bool :=
  s.length = word.length &&
    (s.zip word).all (fun p =>
      p.1 = p.2 || (0x61 ≤ p.2.val && p.2.val ≤ 0x7A && p.1.val + 0x20 = p.2.val))

end Strings

/-! ## Package `net/url` (as of Go 1.22) -/

namespace Url

/-- Type `encoding`: the part of a URL a string is escaped for. -/
inductive Encoding where
  | encodePath
  | encodePathSegment
  | encodeHost
  | encodeZone
  | encodeUserPassword
  | encodeQueryComponent
  | encodeFragment
  deriving DecidableEq, Repr

def isLetter (c : Byte) : Bool :=
  (0x61 ≤ c.val && c.val ≤ 0x7A) || (0x41 ≤ c.val && c.val ≤ 0x5A)

def isDigit (c : Byte) : Bool := 0x30 ≤ c.val && c.val ≤ 0x39

/-- Function `shouldEscape`: whether a byte must be written as `%XX` in the given part. -/
def shouldEscape (c : Byte) (mode : Encoding) : Bool :=
  if isLetter c || isDigit c then false
  else if (mode = .encodeHost ∨ mode = .encodeZone) ∧ c ∈ lit "!$&'()*+,;=:[]<>\"" then false
  else if c ∈ lit "-_.~" then false
  else if c ∈ lit "$&+,/:;=?@" ∧ mode = .encodePath then c.val = 0x3F
  else if c ∈ lit "$&+,/:;=?@" ∧ mode = .encodePathSegment then
    c.val = 0x2F || c.val = 0x3B || c.val = 0x2C || c.val = 0x3F
  else if c ∈ lit "$&+,/:;=?@" ∧ mode = .encodeUserPassword then
    c.val = 0x40 || c.val = 0x2F || c.val = 0x3F || c.val = 0x3A
  else if c ∈ lit "$&+,/:;=?@" ∧ mode = .encodeQueryComponent then true
  else if c ∈ lit "$&+,/:;=?@" ∧ mode = .encodeFragment then false
  else if mode = .encodeFragment ∧ c ∈ lit "!()*" then false
  else true

/-- Digits `upperhex`. -/
def upperhex : GoString := lit "0123456789ABCDEF"

def ishex (c : Byte) : Bool :=
  isDigit c || (0x61 ≤ c.val && c.val ≤ 0x66) || (0x41 ≤ c.val && c.val ≤ 0x46)

def unhex (c : Byte) : Nat :=
  if isDigit c then c.val - 0x30
  else if 0x61 ≤ c.val ∧ c.val ≤ 0x66 then c.val - 0x61 + 10
  else if 0x41 ≤ c.val ∧ c.val ≤ 0x46 then c.val - 0x41 + 10
  else 0

/-- What `escape` writes for one byte. -/
def escapeByte (mode : Encoding) (c : Byte) : GoString :=
  if c.val = 0x20 ∧ mode = .encodeQueryComponent then [0x2B]
  else if shouldEscape c mode then
    [0x25, upperhex.getD (c.val / 16) 0, upperhex.getD (c.val % 16) 0]
  else [c]

/-- Function `escape`; a string that needs no escaping is returned as it is, which is what
the byte-wise rewriting gives as well. -/
def escape (s : GoString) (mode : Encoding) : GoString :=
  s.flatMap (escapeByte mode)

/-- Function `unescape`, its checking pass and its rewriting pass in one; `none` is an
`EscapeError` or `InvalidHostError`. -/
def unescape (mode : Encoding) : GoString → Option GoString
  | [] => some []
  | c :: rest =>
    if c.val = 0x25 then
      match rest with
      | a :: b :: rest2 =>
        if !ishex a || !ishex b then none
        else if mode = .encodeHost ∧ unhex a < 8 ∧ [c, a, b] ≠ lit "%25" then none
        else if mode = .encodeZone ∧ [c, a, b] ≠ lit "%25" ∧ unhex a * 16 + unhex b ≠ 0x20 ∧
            shouldEscape (Fin.ofNat (unhex a * 16 + unhex b)) .encodeHost then none
        else
          match unescape mode rest2 with
          | none => none
          | some t => some (Fin.ofNat (unhex a * 16 + unhex b) :: t)
      | _ => none
    else if c.val = 0x2B then
      match unescape mode rest with
      | none => none
      | some t => some ((if mode = .encodeQueryComponent then 0x20 else 0x2B) :: t)
    else if (mode = .encodeHost ∨ mode = .encodeZone) ∧ c.val < 0x80 ∧
        shouldEscape c .encodeHost then none
    else
      match unescape mode rest with
      | none => none
      | some t => some (c :: t)

/-- Function `validEncoded`. -/
def validEncoded (s : GoString) (mode : Encoding) : Bool :=
  s.all (fun c => c ∈ lit "!$&'()*+,;=:@[]%" || !shouldEscape c mode)

/-- Function `validOptionalPort`. -/
def validOptionalPort (port : GoString) : Bool :=
  match port with
  | [] => true
  | c :: digits => c.val = 0x3A && digits.all isDigit

/-- Function `validUserinfo`; a byte outside ASCII starts a rune that is not allowed. -/
def validUserinfo (s : GoString) : Bool :=
  s.all (fun c => isLetter c || isDigit c || c ∈ lit "-._:~!$&'()*+,;=%@")

/-- Function `stringContainsCTLByte`. -/
def stringContainsCTLByte (s : GoString) : Bool :=
  s.any (fun b => b.val < 0x20 || b.val = 0x7F)

/-- Function `strings.Cut` for a one-byte separator: the text before and after its first
occurrence, and whether it occurs. -/
def cut (s : GoString) (sep : Byte) : GoString × GoString × Bool :=
  if sep ∈ s then
    (s.takeWhile (fun c => c ≠ sep), (s.dropWhile (fun c => c ≠ sep)).drop 1, true)
  else (s, [], false)

/-- Function `strings.LastIndex` for a one-byte separator; `none` is `-1`. -/
def lastIndex (s : GoString) (sep : Byte) : Option Nat :=
  if sep ∈ s then some (s.length - 1 - s.reverse.indexOf sep) else none

/-- Function `strings.Index`; `none` is `-1`. -/
def index (sub : GoString) : GoString → Option Nat
  | [] => if sub = [] then some 0 else none
  | c :: rest =>
    if Strings.HasPrefix (c :: rest) sub then some 0
    else
      match index sub rest with
      | none => none
      | some i => some (i + 1)

/-- Type `Userinfo`. -/
structure Userinfo where
  username : GoString
  password : GoString
  passwordSet : Bool
  deriving DecidableEq, Repr

/-- Function `url.User`. -/
def User (username : GoString) : Userinfo :=
  { username := username, password := [], passwordSet := false }

/-- Method `(*Userinfo).String` for a non-nil receiver. -/
def Userinfo.String (u : Userinfo) : GoString :=
  escape u.username .encodeUserPassword ++
    (if u.passwordSet then lit ":" ++ escape u.password .encodeUserPassword else [])

/-- Type `URL`. -/
structure URL where
  Scheme : GoString
  Opaque : GoString
  User : Option Userinfo
  Host : GoString
  Path : GoString
  RawPath : GoString
  OmitHost : Bool
  ForceQuery : Bool
  RawQuery : GoString
  Fragment : GoString
  RawFragment : GoString
  deriving DecidableEq, Repr

/-- The zero `URL`. -/
def URL.zero : URL :=
  { Scheme := [], Opaque := [], User := none, Host := [], Path := [], RawPath := [],
    OmitHost := false, ForceQuery := false, RawQuery := [], Fragment := [], RawFragment := [] }

/-- Loop of `getScheme` at index `i` of `rawURL`; `none` is the error
`missing protocol scheme`. -/
def getSchemeLoop (rawURL : GoString) : Nat → GoString → Option (GoString × GoString)
  | _, [] => some ([], rawURL)
  | i, c :: rest =>
    if isLetter c then getSchemeLoop rawURL (i + 1) rest
    else if isDigit c || c.val = 0x2B || c.val = 0x2D || c.val = 0x2E then
      if i = 0 then some ([], rawURL) else getSchemeLoop rawURL (i + 1) rest
    else if c.val = 0x3A then
      if i = 0 then none else some (rawURL.take i, rawURL.drop (i + 1))
    else some ([], rawURL)

/-- Function `getScheme`: the scheme and what follows its colon. -/
def getScheme (rawURL : GoString) : Option (GoString × GoString) :=
  getSchemeLoop rawURL 0 rawURL

/-- Function `parseHost`; `none` is its error. -/
def parseHost (host : GoString) : Option GoString :=
  if Strings.HasPrefix host (lit "[") then
    match lastIndex host 0x5D with
    | none => none
    | some i =>
      if !validOptionalPort (host.drop (i + 1)) then none
      else
        match index (lit "%25") (host.take i) with
        | some zone =>
          match unescape .encodeHost (host.take zone),
              unescape .encodeZone ((host.take i).drop zone),
              unescape .encodeHost (host.drop i) with
          | some host1, some host2, some host3 => some (host1 ++ host2 ++ host3)
          | _, _, _ => none
        | none => unescape .encodeHost host
  else
    match lastIndex host 0x3A with
    | some i => if !validOptionalPort (host.drop i) then none else unescape .encodeHost host
    | none => unescape .encodeHost host

/-- Function `parseAuthority`; `none` is its error. -/
def parseAuthority (authority : GoString) : Option (Option Userinfo × GoString) :=
  match lastIndex authority 0x40 with
  | none =>
    match parseHost authority with
    | none => none
    | some host => some (none, host)
  | some i =>
    match parseHost (authority.drop (i + 1)) with
    | none => none
    | some host =>
      let userinfo := authority.take i
      if !validUserinfo userinfo then none
      else if !((0x3A : Byte) ∈ userinfo) then
        match unescape .encodeUserPassword userinfo with
        | none => none
        | some name => some (some (User name), host)
      else
        match unescape .encodeUserPassword (cut userinfo 0x3A).1,
            unescape .encodeUserPassword (cut userinfo 0x3A).2.1 with
        | some name, some password =>
          some (some { username := name, password := password, passwordSet := true }, host)
        | _, _ => none

/-- Method `(*URL).setPath`; `none` is its error. -/
def URL.setPath (u : URL) (p : GoString) : Option URL :=
  match unescape .encodePath p with
  | none => none
  | some path =>
    some { u with Path := path, RawPath := if p = escape path .encodePath then [] else p }

/-- Method `(*URL).setFragment`; `none` is its error. -/
def URL.setFragment (u : URL) (f : GoString) : Option URL :=
  match unescape .encodeFragment f with
  | none => none
  | some frag =>
    some { u with Fragment := frag,
                  RawFragment := if f = escape frag .encodeFragment then [] else f }

/-- The scheme of a URL in lower case, the text between scheme and query, and the query:
the first steps of `parse`. `none` is an error. -/
def splitSchemeQuery (rawURL : GoString) : Option (GoString × GoString × Bool × GoString) :=
  match getScheme rawURL with
  | none => none
  | some (scheme, rest) =>
    if rest.getLast? = some 0x3F ∧ rest.count 0x3F = 1 then
      some (scheme.map Strings.lowerByte, rest.dropLast, true, [])
    else
      some (scheme.map Strings.lowerByte, (cut rest 0x3F).1, false, (cut rest 0x3F).2.1)

/-- Function `parse` with `viaRequest = false`; `none` is its error. -/
def parse (rawURL : GoString) : Option URL :=
  if stringContainsCTLByte rawURL then none
  else if rawURL = lit "*" then some { URL.zero with Path := lit "*" }
  else
    match splitSchemeQuery rawURL with
    | none => none
    | some (scheme, rest, forceQuery, rawQuery) =>
      let url : URL :=
        { URL.zero with Scheme := scheme, ForceQuery := forceQuery, RawQuery := rawQuery }
      if !Strings.HasPrefix rest (lit "/") ∧ scheme ≠ [] then some { url with Opaque := rest }
      else if !Strings.HasPrefix rest (lit "/") ∧ (0x3A : Byte) ∈ (cut rest 0x2F).1 then none
      else if (scheme ≠ [] ∨ !Strings.HasPrefix rest (lit "///")) ∧
          Strings.HasPrefix rest (lit "//") then
        let authority := (rest.drop 2).takeWhile (fun c => c.val ≠ 0x2F)
        let rest2 := (rest.drop 2).dropWhile (fun c => c.val ≠ 0x2F)
        match parseAuthority authority with
        | none => none
        | some (user, host) => URL.setPath { url with User := user, Host := host } rest2
      else if scheme ≠ [] ∧ Strings.HasPrefix rest (lit "/") then
        URL.setPath { url with OmitHost := true } rest
      else URL.setPath url rest

/-- Function `url.Parse`: the fragment is cut off and parsed apart; `none` is its error. -/
def Parse (rawURL : GoString) : Option URL :=
  match parse (cut rawURL 0x23).1 with
  | none => none
  | some url =>
    if (cut rawURL 0x23).2.1 = [] then some url
    else URL.setFragment url (cut rawURL 0x23).2.1

/-- Method `(*URL).EscapedPath`. -/
def URL.EscapedPath (u : URL) : GoString :=
  if u.RawPath ≠ [] ∧ validEncoded u.RawPath .encodePath ∧
      unescape .encodePath u.RawPath = some u.Path then u.RawPath
  else if u.Path = lit "*" then lit "*"
  else escape u.Path .encodePath

/-- Method `(*URL).EscapedFragment`. -/
def URL.EscapedFragment (u : URL) : GoString :=
  if u.RawFragment ≠ [] ∧ validEncoded u.RawFragment .encodeFragment ∧
      unescape .encodeFragment u.RawFragment = some u.Fragment then u.RawFragment
  else escape u.Fragment .encodeFragment

/-- The authority written by `String`: `//`, the user information and the host. -/
def URL.authorityString (u : URL) : GoString :=
  if u.Scheme ≠ [] ∨ u.Host ≠ [] ∨ u.User ≠ none then
    if u.OmitHost ∧ u.Host = [] ∧ u.User = none then []
    else
      (if u.Host ≠ [] ∨ u.Path ≠ [] ∨ u.User ≠ none then lit "//" else []) ++
      (match u.User with
        | some ui => ui.String ++ lit "@"
        | none => []) ++
      (if u.Host ≠ [] then escape u.Host .encodeHost else [])
  else []

/-- Method `(*URL).String`. -/
def URL.String (u : URL) : GoString :=
  let buf1 := if u.Scheme ≠ [] then u.Scheme ++ lit ":" else []
  let buf2 :=
    if u.Opaque ≠ [] then buf1 ++ u.Opaque
    else
      let buf := buf1 ++ u.authorityString
      let path := u.EscapedPath
      let buf :=
        if path ≠ [] ∧ path.head? ≠ some 0x2F ∧ u.Host ≠ [] then buf ++ lit "/" else buf
      let buf :=
        if buf.length = 0 ∧ (0x3A : Byte) ∈ (cut path 0x2F).1 then buf ++ lit "./" else buf
      buf ++ path
  let buf3 := if u.ForceQuery ∨ u.RawQuery ≠ [] then buf2 ++ lit "?" ++ u.RawQuery else buf2
  if u.Fragment ≠ [] then buf3 ++ lit "#" ++ u.EscapedFragment else buf3

/-- What `String` writes after the authority of a URL that is not opaque and has user
information: the path, the query and the fragment. -/
def URL.pathQueryFragment (u : URL) : GoString :=
  (if u.EscapedPath ≠ [] ∧ u.EscapedPath.head? ≠ some 0x2F ∧ u.Host ≠ [] then lit "/"
    else []) ++
    u.EscapedPath ++
    (if u.ForceQuery ∨ u.RawQuery ≠ [] then lit "?" ++ u.RawQuery else []) ++
    (if u.Fragment ≠ [] then lit "#" ++ u.EscapedFragment else [])

end Url
/-- A string without a line break. -/
abbrev noNL (s : GoString) : Prop := (0x0A : Byte) ∉ s

/-! ## Package `html/template` -/

namespace HtmlTemplate

/-- Table `htmlReplacementTable`: the replacement of a byte in HTML text, if it has one. -/
def htmlReplacement (b : Byte) : Option GoString :=
  if b.val = 0x00 then some [0xEF, 0xBF, 0xBD]
  else if b.val = 0x22 then some (lit "&#34;")
  else if b.val = 0x26 then some (lit "&amp;")
  else if b.val = 0x27 then some (lit "&#39;")
  else if b.val = 0x2B then some (lit "&#43;")
  else if b.val = 0x3C then some (lit "&lt;")
  else if b.val = 0x3E then some (lit "&gt;")
  else none

/-- Function `htmlEscaper` on a plain string, the escaper of an action in HTML text:
`htmlReplacer` with `htmlReplacementTable` and `badRunes = true`. Only ASCII runes have a
replacement and every other rune, well-formed or not, is copied, so the rewriting is
byte-wise. -/
def htmlEscaper (s : GoString) : GoString :=
  s.flatMap (fun b => (htmlReplacement b).getD [b])

/-- A parsed template: text, and actions `.Field` that print a field of the data. -/
inductive Node where
  | text (s : GoString)
  | field (name : GoString)
  deriving DecidableEq, Repr

/-- Method `(*Template).Execute` for a template whose actions all stand in HTML text: text
is copied, a field is printed through `htmlEscaper`; `none` is the error for a field the
data does not have. -/
def Execute (data : GoString → Option GoString) : List Node → Option GoString
  | [] => some []
  | .text s :: rest =>
    match Execute data rest with
    | none => none
    | some out => some (s ++ out)
  | .field name :: rest =>
    match data name, Execute data rest with
    | some v, some out => some (htmlEscaper v ++ out)
    | _, _ => none

end HtmlTemplate

/-! ## Package `kubeconfig`: rendering the kubeconfig -/

namespace Kubeconfig

open Metav1 HtmlTemplate

/-- The constant `kubeConfigTemplate` as `template.Parse` reads it: the text between the
actions, and the three fields printed. -/
def kubeConfigTemplate : List Node :=
  [ .text (lit ("---\napiVersion: v1\nkind: Config\nclusters:\n- cluster:\n" ++
      "    insecure-skip-tls-verify: true\n    server: ")),
    .field (lit "ProxyURL"),
    .text (lit ("\n  name: proxy-server\ncontexts:\n- context:\n    cluster: proxy-server\n" ++
      "    user: admin/proxy-server\n  name: ")),
    .field (lit "Namespace"),
    .text (lit "/proxy-server\ncurrent-context: "),
    .field (lit "Namespace"),
    .text (lit ("/proxy-server\npreferences: \x7b\x7d\nusers:\n- name: admin/proxy-server\n" ++
      "  user:\n    username: ")),
    .field (lit "Username"),
    .text (lit "\n    password: unused\n") ]

/-- values holds the data used to render the template. -/
structure values where
  Username : GoString
  ProxyURL : GoString
  Namespace : GoString
  deriving DecidableEq, Repr

/-- Field access of the template on `values`. -/
def values.field (v : values) (name : GoString) : Option GoString :=
  if name = lit "Username" then some v.Username
  else if name = lit "ProxyURL" then some v.ProxyURL
  else if name = lit "Namespace" then some v.Namespace
  else none

/-- Failures of `Create` before it touches the file system. -/
inductive CreateError where
  | parse
  | encode (e : Json.Error)
  | execute
  deriving DecidableEq, Repr

/-- Create renders a kubeconfig template and writes it to disk. The result is the text
handed to `file.WriteString`; creating, writing and closing the temporary file are not
modelled. -/
def Create (ownerRef : OwnerReference) (proxyURL : GoString) (namespace_ : GoString) :
    Except CreateError GoString :=
  match Url.Parse proxyURL with
  | none => .error .parse
  | some parsedURL =>
    match EncodeOwnerRef ownerRef namespace_ with
    | .error err => .error (.encode err)
    | .ok username =>
      let parsedURL := { parsedURL with User := some (Url.User username) }
      let v : values :=
        { Username := username, ProxyURL := parsedURL.String, Namespace := namespace_ }
      match Execute v.field kubeConfigTemplate with
      | none => .error .execute
      | some parsed => .ok parsed

/-! ### Reading a kubeconfig text

The claims speak of what the kubeconfig "declares". The text is read line by line, the way
its YAML is laid out: a line that starts in the first column with neither a blank nor a dash
is a top-level key, the lines that follow it up to the next top-level key are its section,
a line that starts with `- ` opens an entry of a list, and a later section of a key replaces
an earlier one. -/

/-- The lines of a text, split at `\n`. -/
def splitLines : GoString → List GoString
  | [] => [[]]
  | c :: cs =>
    if c.val = 0x0A then [] :: splitLines cs
    else
      match splitLines cs with
      | l :: ls => (c :: l) :: ls
      | [] => [[c]]

/-- Lines joined by `\n`. -/
def joinLines : List GoString → GoString
  | [] => []
  | [l] => l
  | l :: ls => l ++ 0x0A :: joinLines ls

/-- A line that holds a top-level key. -/
def isTopLevel (line : GoString) : Bool :=
  match line with
  | [] => false
  | c :: _ => c.val ≠ 0x20 && c.val ≠ 0x2D

/-- The section of a top-level key: the lines after the last line `key:` up to the next
top-level key. -/
def sectionLines (key : GoString) : List GoString → Option (List GoString)
  | [] => none
  | l :: ls =>
    match sectionLines key ls with
    | some r => some r
    | none => if l = key ++ lit ":" then some (ls.takeWhile (fun x => !isTopLevel x)) else none

/-- The number of list entries a section opens. -/
def entryCount (sec : List GoString) : Nat :=
  (sec.filter (fun l => Strings.HasPrefix l (lit "- "))).length

/-- The values of the lines `key: value` of a section, the key given with its
indentation. -/
def valuesOf (key : GoString) (sec : List GoString) : List GoString :=
  sec.filterMap (fun l =>
    if Strings.HasPrefix l (key ++ lit ": ") then some (l.drop (key.length + 2)) else none)

/-- What a kubeconfig text declares about clusters and users. -/
structure Declared where
  clusters : Nat
  insecureSkipTLSVerify : List GoString
  server : List GoString
  users : Nat
  username : List GoString
  password : List GoString
  deriving DecidableEq, Repr

/-- Reading of a kubeconfig text; `none` if it has no `clusters` or no `users` section. -/
def declared (text : GoString) : Option Declared :=
  match sectionLines (lit "clusters") (splitLines text),
      sectionLines (lit "users") (splitLines text) with
  | some cs, some us =>
    some { clusters := entryCount cs,
           insecureSkipTLSVerify := valuesOf (lit "    insecure-skip-tls-verify") cs,
           server := valuesOf (lit "    server") cs,
           users := entryCount us,
           username := valuesOf (lit "    username") us,
           password := valuesOf (lit "    password") us }
  | _, _ => none

/-- The lines of the kubeconfig rendered with a server value, a namespace and a user
name. -/
def kubeconfigLines (server namespace_ username : GoString) : List GoString :=
  [ lit "---", lit "apiVersion: v1", lit "kind: Config", lit "clusters:", lit "- cluster:",
    lit "    insecure-skip-tls-verify: true", lit "    server: " ++ server,
    lit "  name: proxy-server", lit "contexts:", lit "- context:",
    lit "    cluster: proxy-server", lit "    user: admin/proxy-server",
    lit "  name: " ++ namespace_ ++ lit "/proxy-server",
    lit "current-context: " ++ namespace_ ++ lit "/proxy-server",
    lit "preferences: \x7b\x7d", lit "users:", lit "- name: admin/proxy-server", lit "  user:",
    lit "    username: " ++ username, lit "    password: unused", [] ]

/-- The URL `http://localhost:8888` as `url.Parse` returns it. -/
def sampleProxyURL : Url.URL :=
  { Url.URL.zero with Scheme := lit "http", Host := lit "localhost:8888" }

/-- The token of the sample owner reference in namespace `default`. -/
def sampleToken : GoString :=
  lit ("eyJhcGlWZXJzaW9uIjoiY2FjaGUuZXhhbXBsZS5jb20vdjFhbHBoYTEiLCJraW5kIjoiTWVtY2FjaGVkIiwi" ++
    "bmFtZSI6Im1lbWNhY2hlZC1zYW1wbGUiLCJ1aWQiOiI5YzFhNmUzZiIsImNvbnRyb2xsZXIiOnRydWUsIk5hbWVz" ++
    "cGFjZSI6ImRlZmF1bHQifQ==")

/-- A namespace that carries a second `clusters` section with two entries. -/
def injectedNamespace : GoString :=
  lit ("x\nclusters:\n- cluster:\n    server: http://a\n  name: a\n" ++
    "- cluster:\n    server: http://b\n  name: b\nk: ")

end Kubeconfig
/-! ## Package `schema`: group, version, kind -/

namespace Schema

/-- Type `schema.GroupVersion`. -/
structure GroupVersion where
  Group : GoString
  Version : GoString
  deriving DecidableEq, Repr

/-- Type `schema.GroupKind`. -/
structure GroupKind where
  Group : GoString
  Kind : GoString
  deriving DecidableEq, Repr

/-- Type `schema.GroupVersionKind`. -/
structure GroupVersionKind where
  Group : GoString
  Version : GoString
  Kind : GoString
  deriving DecidableEq, Repr

/-- Function `schema.ParseGroupVersion`: the empty string and `/` give the empty group
version, a string without `/` is a version of the core group, a string with one `/` is
`group/version`; `none` is the error for more than one `/`. -/
def ParseGroupVersion (gv : GoString) : Option GroupVersion :=
  if gv.length = 0 ∨ gv = lit "/" then some ⟨[], []⟩
  else
    match gv.count 0x2F with
    | 0 => some ⟨[], gv⟩
    | 1 =>
      let i := gv.indexOf 0x2F
      some ⟨gv.take i, gv.drop (i + 1)⟩
    | _ => none

end Schema

/-! ## Package `handler`: enqueueing the owners of an object -/

namespace Handler

open Metav1 Schema

/-- The part of `metav1.Object` the handler reads: `GetNamespace` and
`GetOwnerReferences`. -/
structure Object where
  Namespace : GoString
  OwnerReferences : List OwnerReference
  deriving DecidableEq, Repr

/-- Type `reconcile.Request`: a `types.NamespacedName`. -/
structure Request where
  Namespace : GoString
  Name : GoString
  deriving DecidableEq, Repr

/-- Constant `meta.RESTScopeNameRoot`. -/
def RESTScopeNameRoot : GoString := lit "root"

/-- Constant `meta.RESTScopeNameNamespace`. -/
def RESTScopeNameNamespace : GoString := lit "namespace"

/-- The part of `meta.RESTMapping` the handler reads: `Scope.Name()`. -/
structure RESTMapping where
  ScopeName : GoString
  deriving DecidableEq, Repr

/-- Interface `meta.RESTMapper`, method `RESTMapping(gk, versions...)`; `none` is its
error. -/
abbrev RESTMapper := GroupKind → List GoString → Option RESTMapping

/-- The part of a `runtime.Object` that identifies it to a scheme and to the handler: its Go
type, as `%T` prints it, and `GetObjectKind().GroupVersionKind()`. -/
structure RuntimeObject where
  goType : GoString
  kind : GroupVersionKind
  deriving DecidableEq, Repr

/-- Type `enqueueRequestForOwner`: the owner type (`none` is the nil interface), the
controller filter, the cached group and kind of the owner type, and the mapper. -/
structure enqueueRequestForOwner where
  ownerType : Option RuntimeObject
  isController : Bool
  groupKind : GroupKind
  mapper : RESTMapper

/-- A `map[reconcile.Request]empty`: a set of requests, kept as a list without
repetition. -/
abbrev RequestSet := List Request

/-- Assignment `result[request] = empty{}`. -/
def RequestSet.store (result : RequestSet) (request : Request) : RequestSet :=
  if request ∈ result then result else result ++ [request]

/-- Function `metav1.GetControllerOfNoCopy`: the first reference whose `Controller` is
set and true. -/
def GetControllerOfNoCopy : List OwnerReference → Option OwnerReference
  | [] => none
  | ref :: refs =>
    if ref.Controller ≠ none ∧ ref.Controller = some true then some ref
    else GetControllerOfNoCopy refs

/-- Function `metav1.GetControllerOf`: a copy of the controller reference, with fresh
pointers to the same flag values. -/
def GetControllerOf (controllee : Object) : Option OwnerReference :=
  match GetControllerOfNoCopy controllee.OwnerReferences with
  | none => none
  | some ref =>
    some { ref with
      Controller := ref.Controller.map id,
      BlockOwnerDeletion := if ref.BlockOwnerDeletion ≠ none then ref.BlockOwnerDeletion.map id
        else ref.BlockOwnerDeletion }

/-- getOwnersReferences returns the OwnerReferences for an object as specified by the
enqueueRequestForOwner: if isController is true, only the Controller OwnerReference (if
found); if isController is false, all OwnerReferences. `none` is the nil object. -/
def getOwnersReferences (e : enqueueRequestForOwner) (object : Option Object) :
    List OwnerReference :=
  match object with
  | none => []
  | some obj =>
    if !e.isController then obj.OwnerReferences
    else
      match GetControllerOf obj with
      | some ownerRef => [ownerRef]
      | none => []

/-- Call `object.GetNamespace()`; the loop below makes it only for a non-nil object, since
a nil object has no references to iterate over. -/
def GetNamespace : Option Object → GoString
  | some obj => obj.Namespace
  | none => []

/-- Loop of `getOwnerReconcileRequest` over the references still to visit. A reference
whose APIVersion does not parse, or a mapping that cannot be retrieved, ends the whole
function with the requests added so far. -/
def ownerLoop (e : enqueueRequestForOwner) (object : Option Object) :
    List OwnerReference → RequestSet → RequestSet
  | [], result => result
  | ref :: refs, result =>
    match ParseGroupVersion ref.APIVersion with
    | none => result
    | some refGV =>
      if ref.Kind = e.groupKind.Kind ∧ refGV.Group = e.groupKind.Group then
        match e.mapper e.groupKind [refGV.Version] with
        | none => result
        | some mapping =>
          let request : Request :=
            { Name := ref.Name,
              Namespace := if mapping.ScopeName ≠ RESTScopeNameRoot then GetNamespace object
                else [] }
          ownerLoop e object refs (result.store request)
      else ownerLoop e object refs result

/-- getOwnerReconcileRequest looks at object and builds a map of reconcile.Request to
reconcile owners of object that match e.OwnerType. -/
def getOwnerReconcileRequest (e : enqueueRequestForOwner) (object : Option Object)
    (result : RequestSet) : RequestSet :=
  ownerLoop e object (getOwnersReferences e object) result

/-! ### The behaviour the handler is described to have -/

/-- The group parsed from a reference's APIVersion, if it parses. -/
def refGroup (ref : OwnerReference) : Option GoString :=
  (ParseGroupVersion ref.APIVersion).map (fun gv => gv.Group)

/-- The version parsed from a reference's APIVersion; empty if it does not parse. -/
def refVersion (ref : OwnerReference) : GoString :=
  match ParseGroupVersion ref.APIVersion with
  | some gv => gv.Version
  | none => []

/-- A reference matches the owner type: its Kind equals the owner type's Kind and the group
of its APIVersion equals the owner type's Group. -/
def matchesOwnerType (e : enqueueRequestForOwner) (ref : OwnerReference) : Bool :=
  ref.Kind = e.groupKind.Kind && refGroup ref = some e.groupKind.Group

/-- The request for a matching reference: the reference's Name, and the object's namespace
unless the mapping of the owner kind has root scope. -/
def requestFor (e : enqueueRequestForOwner) (object : Option Object) (ref : OwnerReference) :
    Request :=
  { Name := ref.Name,
    Namespace :=
      match e.mapper e.groupKind [refVersion ref] with
      | some mapping => if mapping.ScopeName ≠ RESTScopeNameRoot then GetNamespace object else []
      | none => [] }

/-- A reference has a parseable APIVersion and a resolvable REST mapping of the owner kind
at the reference's version. -/
def resolvable (e : enqueueRequestForOwner) (ref : OwnerReference) : Bool :=
  (ParseGroupVersion ref.APIVersion).isSome && (e.mapper e.groupKind [refVersion ref]).isSome

/-- Sample handler for `Memcached` owners: every kind is namespace-scoped. -/
def sampleHandler : enqueueRequestForOwner :=
  { ownerType := some
      { goType := lit "*unstructured.Unstructured",
        kind := ⟨lit "cache.example.com", lit "v1alpha1", lit "Memcached"⟩ },
    isController := true,
    groupKind := { Group := lit "cache.example.com", Kind := lit "Memcached" },
    mapper := fun _ _ => some { ScopeName := RESTScopeNameNamespace } }

/-- Sample dependent object: owned by the sample `Memcached` resource and by a `ReplicaSet`
that is not its controller. -/
def sampleObject : Object :=
  { Namespace := lit "default",
    OwnerReferences :=
      [ { APIVersion := lit "apps/v1", Kind := lit "ReplicaSet", Name := lit "rs-1",
          UID := lit "0001", Controller := none, BlockOwnerDeletion := none },
        Kubeconfig.sampleOwnerRef ] }

end Handler
/-! ## Package `run`: the `run` command of the operator -/

namespace Run

open Schema

/-- Type `events.LogLevel` with its constants. -/
inductive LogLevel where
  | Tasks
  | Everything
  | Nothing
  deriving DecidableEq, Repr

/-- The fields of `flags.Flags` read by the functions below. -/
structure Flags where
  ReconcilePeriod : Int
  AnsibleLogEvents : GoString
  AnsibleArgs : GoString
  deriving DecidableEq, Repr

/-- getAnsibleEventsToLog return the integer value of the log level set in the flag. The
error logged for an unrecognized value has no effect on the result and is not modelled. -/
def getAnsibleEventsToLog (mapLower : GoString → GoString) (f : Flags) : LogLevel :=
  if Strings.ToLower mapLower f.AnsibleLogEvents = lit "everything" then LogLevel.Everything
  else if Strings.ToLower mapLower f.AnsibleLogEvents = lit "nothing" then LogLevel.Nothing
  else LogLevel.Tasks

/-- Function `strconv.ParseBool`; `none` is its error. -/
def ParseBool (str : GoString) : Option Bool :=
  if str = lit "1" ∨ str = lit "t" ∨ str = lit "T" ∨ str = lit "TRUE" ∨ str = lit "true" ∨
      str = lit "True" then some true
  else if str = lit "0" ∨ str = lit "f" ∨ str = lit "F" ∨ str = lit "FALSE" ∨
      str = lit "false" ∨ str = lit "False" then some false
  else none

/-- getAnsibleDebugLog return the value from the ANSIBLE_DEBUG_LOGS it order to print the
full Ansible logs; `lookupEnv` is `os.LookupEnv`. -/
def getAnsibleDebugLog (lookupEnv : GoString → Option GoString) : Bool :=
  match lookupEnv (lit "ANSIBLE_DEBUG_LOGS") with
  | some envVal =>
    match ParseBool envVal with
    | none => false
    | some i => i
  | none => false

/-- The fields of `watches.Watch` read by `run`; `σ` is the type of the label selector and
the periods are `time.Duration` values, in nanoseconds. -/
structure Watch (σ : Type) where
  GroupVersionKind : Schema.GroupVersionKind
  Blacklist : List Schema.GroupVersionKind
  MaxConcurrentReconciles : Int
  ReconcilePeriod : Int
  ManageStatus : Bool
  WatchDependentResources : Bool
  WatchClusterScopedResources : Bool
  WatchAnnotationsChanges : Bool
  Selector : σ

/-- Type `controller.Options`; `ρ` is the type of runners. -/
structure ControllerOptions (ρ σ : Type) where
  GVK : GroupVersionKind
  Runner : ρ
  ManageStatus : Bool
  AnsibleDebugLogs : Bool
  MaxConcurrentReconciles : Int
  ReconcilePeriod : Int
  Selector : σ
  LoggingLevel : LogLevel
  WatchAnnotationsChanges : Bool

/-- Modelled from the spec: type `controllermap.WatchMap`, a mapping from a dependent kind
to its "already registered" flag; the package is not among the sources. -/
abbrev WatchMap := List (GroupVersionKind × Bool)

/-- Modelled from the spec: function `controllermap.NewWatchMap`, a new empty watch
map. -/
def NewWatchMap : WatchMap := []

/-- Modelled from the spec: type `controllermap.Contents`, the entry of one kind: the
controller, the two flags, the two watch maps and the ignore-list, which `Store` sets; `κ`
is the type of controllers. -/
structure Contents (κ : Type) where
  Controller : κ
  WatchDependentResources : Bool
  WatchClusterScopedResources : Bool
  OwnerWatchMap : WatchMap
  AnnotationWatchMap : WatchMap
  Blacklist : List GroupVersionKind

/-- Modelled from the spec: type `controllermap.ControllerMap`, a registry keyed by
kind. -/
abbrev ControllerMap (κ : Type) := List (GroupVersionKind × Contents κ)

/-- Modelled from the spec: method `Store(kind, entry, ignoreList)`, which sets the entry
of the kind with the given ignore-list, replacing an earlier entry of the kind. -/
def ControllerMap.Store {κ : Type} (cMap : ControllerMap κ) (key : GroupVersionKind)
    (value : Contents κ) (blacklist : List GroupVersionKind) : ControllerMap κ :=
  (cMap.filter (fun p => p.1 ≠ key)) ++ [(key, { value with Blacklist := blacklist })]

/-- The collaborators of the watch loop: `runner.New` (`none` is its error),
`controller.Add` on the manager (`none` is the nil controller) and `os.LookupEnv`. -/
structure Deps (ρ κ σ : Type) where
  newRunner : Watch σ → GoString → Option ρ
  addController : ControllerOptions ρ σ → Option κ
  lookupEnv : GoString → Option GoString

/-- What the watch loop has done so far: the options handed to `controller.Add`, each with
the watch it was built for, in call order, and the controller map. -/
structure LoopState (ρ κ σ : Type) where
  added : List (Watch σ × ControllerOptions ρ σ)
  cMap : ControllerMap κ

/-- The loop `for _, w := range watches` of `run`. The result is the state reached and the
exit code of `os.Exit` if the loop ended the process. -/
def watchLoop {ρ κ σ : Type} (mapLower : GoString → GoString) (f : Flags)
    (deps : Deps ρ κ σ) : List (Watch σ) → LoopState ρ κ σ → LoopState ρ κ σ × Option Nat
  | [], st => (st, none)
  | w :: ws, st =>
    let reconcilePeriod :=
      if w.ReconcilePeriod ≠ 0 then w.ReconcilePeriod else f.ReconcilePeriod
    match deps.newRunner w f.AnsibleArgs with
    | none => (st, some 1)
    | some runner =>
      let opts : ControllerOptions ρ σ :=
        { GVK := w.GroupVersionKind,
          Runner := runner,
          ManageStatus := w.ManageStatus,
          AnsibleDebugLogs := getAnsibleDebugLog deps.lookupEnv,
          MaxConcurrentReconciles := w.MaxConcurrentReconciles,
          ReconcilePeriod := reconcilePeriod,
          Selector := w.Selector,
          LoggingLevel := getAnsibleEventsToLog mapLower f,
          WatchAnnotationsChanges := w.WatchAnnotationsChanges }
      match deps.addController opts with
      | none => ({ st with added := st.added ++ [(w, opts)] }, some 1)
      | some ctr =>
        watchLoop mapLower f deps ws
          { added := st.added ++ [(w, opts)],
            cMap := st.cMap.Store w.GroupVersionKind
              { Controller := ctr,
                WatchDependentResources := w.WatchDependentResources,
                WatchClusterScopedResources := w.WatchClusterScopedResources,
                OwnerWatchMap := NewWatchMap,
                AnnotationWatchMap := NewWatchMap,
                Blacklist := [] }
              w.Blacklist }

/-- The state before the loop: no controller added, and `controllermap.NewControllerMap()`. -/
def LoopState.init {ρ κ σ : Type} : LoopState ρ κ σ := { added := [], cMap := [] }

/-- Sample watches: the first sets its own period of 5s, the second leaves it at zero. -/
def sampleWatches : List (Watch Unit) :=
  [ { GroupVersionKind := ⟨lit "cache.example.com", lit "v1alpha1", lit "Memcached"⟩,
      Blacklist := [], MaxConcurrentReconciles := 1, ReconcilePeriod := 5000000000,
      ManageStatus := true, WatchDependentResources := true,
      WatchClusterScopedResources := false, WatchAnnotationsChanges := false, Selector := () },
    { GroupVersionKind := ⟨lit "cache.example.com", lit "v1alpha1", lit "Redis"⟩,
      Blacklist := [], MaxConcurrentReconciles := 1, ReconcilePeriod := 0,
      ManageStatus := true, WatchDependentResources := true,
      WatchClusterScopedResources := false, WatchAnnotationsChanges := false, Selector := () } ]

/-- Sample collaborators that always succeed. -/
def sampleDeps : Deps Unit Unit Unit :=
  { newRunner := fun _ _ => some (), addController := fun _ => some (),
    lookupEnv := fun _ => none }

/-- Sample flags: `--reconcile-period` at 10s. -/
def sampleFlags : Flags :=
  { ReconcilePeriod := 10000000000, AnsibleLogEvents := lit "Everything", AnsibleArgs := [] }

end Run

/-! ## Package `handler`: building the handler -/

namespace Handler

open Schema

/-- The errors of `parseOwnerTypeGroupKind`: the error of `scheme.ObjectKinds`, passed on,
and the error made for a number of kinds other than one, which carries the kinds found. -/
inductive ParseError (ε : Type) where
  | objectKinds (err : ε)
  | notOneKind (kinds : List GroupVersionKind)
  deriving DecidableEq, Repr

/-- The part of `runtime.Scheme` the handler uses, method `ObjectKinds`: the kinds
registered for the type of the object, or the error of the scheme, of type `ε`. -/
abbrev Scheme (ε : Type) := Option RuntimeObject → Except ε (List GroupVersionKind)

/-- parseOwnerTypeGroupKind parses the OwnerType into a Group and Kind and caches the
result. The result is the handler after the call, or the error returned; the log lines
written before an error is returned are not modelled. -/
def parseOwnerTypeGroupKind {ε : Type} (e : enqueueRequestForOwner) (scheme : Scheme ε) :
    Except (ParseError ε) enqueueRequestForOwner :=
  match scheme e.ownerType with
  | .error err => .error (.objectKinds err)
  | .ok kinds =>
    if h : kinds.length ≠ 1 then .error (.notOneKind kinds)
    else
      let k := kinds.get ⟨0, by omega⟩
      .ok { e with groupKind := { Group := k.Group, Kind := k.Kind } }

/-- Type `OwnerOption`: a modification of the handler. -/
abbrev OwnerOption := enqueueRequestForOwner → enqueueRequestForOwner

/-- OnlyControllerOwner if provided will only look at the first OwnerReference with
Controller: true. -/
def OnlyControllerOwner : OwnerOption := fun e => { e with isController := true }

/-- EnqueueRequestForOwnerWithLogging builds the handler for the owner type: the error
of the result is the value the function panics with. -/
def EnqueueRequestForOwnerWithLogging {ε : Type} (scheme : Scheme ε) (mapper : RESTMapper)
    (ownerType : Option RuntimeObject) (opts : List OwnerOption) :
    Except (ParseError ε) enqueueRequestForOwner :=
  let e : enqueueRequestForOwner :=
    { ownerType := ownerType, mapper := mapper, isController := false,
      groupKind := { Group := [], Kind := [] } }
  match parseOwnerTypeGroupKind e scheme with
  | .error err => .error err
  | .ok e => .ok (opts.foldl (fun e opt => opt e) e)

/-- Sample scheme: the unstructured owner of the sample handler has its one declared kind,
a list type has two kinds, and every other type is not registered. -/
def sampleScheme : Scheme GoString := fun obj =>
  match obj with
  | none => .error (lit "nil object")
  | some o =>
    if o.goType = lit "*unstructured.Unstructured" then .ok [o.kind]
    else if o.goType = lit "*metav1.ListOptions" then
      .ok [⟨[], lit "v1", lit "ListOptions"⟩, ⟨lit "apps", lit "v1", lit "ListOptions"⟩]
    else .error (lit "not registered")

end Handler
/-! ## Package `run`: the argument check of the `run` command -/

namespace Run

/-- The part of a `cobra.Command` the argument check reads: `Flag(name)`, which is `none`
for the nil flag of an unknown name and otherwise the text `Value.String()` of the flag. -/
abbrev Command := GoString → Option GoString

/-- Run-time panics of the argument check. -/
inductive Panic where
  | nilPointerDereference
  deriving DecidableEq, Repr

/-- The text of the error of the argument check. -/
def metricsSecureRequired : GoString :=
  lit "--metrics-secure flag is required when --metrics-require-rbac is present"

/-- Field `Args` of the command built by `NewCmd`: the check of the two metrics flags. The
result is the error returned, `none` being the nil error; the second flag is read only if
the first has the text `true`, and reading the value of a nil flag panics. -/
def Args (cmd : Command) (_args : List GoString) : Except Panic (Option GoString) :=
  match cmd (lit "metrics-require-rbac") with
  | none => .error .nilPointerDereference
  | some requireRbac =>
    if requireRbac = lit "true" then
      match cmd (lit "metrics-secure") with
      | none => .error .nilPointerDereference
      | some secure =>
        if secure = lit "false" then .ok (some metricsSecureRequired) else .ok none
    else .ok none

/-- Sample command: both metrics flags are defined, with the given texts. -/
def sampleCommand (requireRbac secure : GoString) : Command := fun name =>
  if name = lit "metrics-require-rbac" then some requireRbac
  else if name = lit "metrics-secure" then some secure
  else none

end Run
/-! ## Package `controllermap` and the dynamic watches of the proxy

The package is not among the sources; `run` is its caller. The operations below follow the
description of the controller map and of the proxy. -/

namespace Run

open Schema

/-- Modelled from the spec: method `Get(kind) -> (entry, found)` of the controller map;
`none` is "not found". -/
def ControllerMap.Get {κ : Type} (cMap : ControllerMap κ) (key : GroupVersionKind) :
    Option (Contents κ) :=
  (cMap.find? (fun p => p.1 = key)).map Prod.snd

/-- Modelled from the spec: method `Delete(kind)` of the controller map. -/
def ControllerMap.Delete {κ : Type} (cMap : ControllerMap κ) (key : GroupVersionKind) :
    ControllerMap κ :=
  cMap.filter (fun p => p.1 ≠ key)

/-- Modelled from the spec: reading a watch map, the "already registered" flag of a
dependent kind; a kind the map does not hold is not registered. -/
def WatchMap.registered (wm : WatchMap) (dependentKind : GroupVersionKind) : Bool :=
  match wm.find? (fun p => p.1 = dependentKind) with
  | some p => p.2
  | none => false

/-- Modelled from the spec: setting the "already registered" flag of a dependent kind in a
watch map. -/
def WatchMap.register (wm : WatchMap) (dependentKind : GroupVersionKind) : WatchMap :=
  wm.filter (fun p => p.1 ≠ dependentKind) ++ [(dependentKind, true)]

/-- Modelled from the spec: the watch map of an entry for a channel, the annotation watch
map if `viaAnnotation` and the owner watch map otherwise. -/
def Contents.watchMap {κ : Type} (entry : Contents κ) ( viaAnnotation : Bool) : WatchMap :=
  if viaAnnotation then entry.AnnotationWatchMap else entry.OwnerWatchMap

/-- Modelled from the spec: an entry with the watch map of a channel replaced. -/
def Contents.setWatchMap {κ : Type} (entry : Contents κ) ( viaAnnotation : Bool)
    (wm : WatchMap) : Contents κ :=
  if viaAnnotation then { entry with AnnotationWatchMap := wm }
  else { entry with OwnerWatchMap := wm }

/-- Modelled from the spec: method `MarkWatched(kind, dependentKind, viaAnnotation) ->
wasAlreadyWatched` of the controller map. On the entry of the kind it reads the watch map of
the channel: a dependent kind already registered gives `true` and no change, another one is
registered and gives `false`. A kind without an entry has no watch map to mark and no
controller to watch with: the map stays as it is and the answer is `true`, the one answer
that asks for no further action. -/
def ControllerMap.MarkWatched {κ : Type} (cMap : ControllerMap κ)
    (kind dependentKind : GroupVersionKind) ( viaAnnotation : Bool) : ControllerMap κ × Bool :=
  match cMap.Get kind with
  | none => (cMap, true)
  | some entry =>
    if WatchMap.registered (entry.watchMap viaAnnotation) dependentKind then (cMap, true)
    else
      let marked :=
        entry.setWatchMap viaAnnotation
          (WatchMap.register (entry.watchMap viaAnnotation) dependentKind)
      (cMap.map (fun p => if p.1 = kind then (p.1, marked) else p), false)

/-- Modelled from the spec: the calls of the proxy that the claims speak of, `MarkWatched`
on the controller map and `RegisterDynamicWatch` on the scheduling collaborator, each with
the owner kind, the dependent kind and the channel. -/
inductive Call where
  | MarkWatched (kind dependentKind : GroupVersionKind) ( viaAnnotation : Bool)
  | RegisterDynamicWatch (kind dependentKind : GroupVersionKind) ( viaAnnotation : Bool)
  deriving DecidableEq, Repr

/-- Modelled from the spec: the controller map as the proxy holds it, and the calls made so
far, in order. -/
structure ProxyState (κ : Type) where
  cMap : ControllerMap κ
  calls : List Call

/-- Modelled from the spec: "call `MarkWatched`; if this returns not already watched,
request that the external watch-scheduling collaborator begin watching that kind". -/
def markAndRegister {κ : Type} (st : ProxyState κ) (kind dependentKind : GroupVersionKind)
    ( viaAnnotation : Bool) : ProxyState κ :=
  let r := st.cMap.MarkWatched kind dependentKind viaAnnotation
  { cMap := r.1,
    calls := st.calls ++ [Call.MarkWatched kind dependentKind viaAnnotation] ++
      (if r.2 then [] else [Call.RegisterDynamicWatch kind dependentKind viaAnnotation]) }

/-- Modelled from the spec: what the proxy does with the kind of a successful response,
for the owner kind of the request: "if it is not in the owner's ignore-list and not yet in
the owner's WatchMap, call `MarkWatched`", and register the watch if it was not watched. An
owner kind without an entry has no ignore-list and no watch map, and nothing is done. -/
def observe {κ : Type} (st : ProxyState κ) (kind dependentKind : GroupVersionKind)
    ( viaAnnotation : Bool) : ProxyState κ :=
  match st.cMap.Get kind with
  | none => st
  | some entry =>
    if dependentKind ∈ entry.Blacklist then st
    else if WatchMap.registered (entry.watchMap viaAnnotation) dependentKind then st
    else markAndRegister st kind dependentKind viaAnnotation

/-- One observation of the proxy: the owner kind of the request, the kind of the object in
the response, and the channel. -/
structure Observation where
  kind : GroupVersionKind
  dependentKind : GroupVersionKind
  viaAnnotation : Bool
  deriving DecidableEq, Repr

/-- The proxy after a sequence of observations. -/
def observeAll {κ : Type} (st : ProxyState κ) (obs : List Observation) : ProxyState κ :=
  obs.foldl (fun st o => observe st o.kind o.dependentKind o.viaAnnotation) st

/-- The options `run` hands to `controller.Add` for a watch and the runner made for it. -/
def optionsFor {ρ κ σ : Type} (mapLower : GoString → GoString) (f : Flags)
    (deps : Deps ρ κ σ) (w : Watch σ) (runner : ρ) : ControllerOptions ρ σ :=
  { GVK := w.GroupVersionKind,
    Runner := runner,
    ManageStatus := w.ManageStatus,
    AnsibleDebugLogs := getAnsibleDebugLog deps.lookupEnv,
    MaxConcurrentReconciles := w.MaxConcurrentReconciles,
    ReconcilePeriod := if w.ReconcilePeriod ≠ 0 then w.ReconcilePeriod else f.ReconcilePeriod,
    Selector := w.Selector,
    LoggingLevel := getAnsibleEventsToLog mapLower f,
    WatchAnnotationsChanges := w.WatchAnnotationsChanges }

/-- The entry `run` is described to store for a watch, with the controller added for it:
the two flags of the watch, an owner watch map and an annotation watch map that are each a
new empty map, and the blacklist of the watch as ignore-list. -/
def entryFor {κ σ : Type} (w : Watch σ) (ctr : κ) : Contents κ :=
  { Controller := ctr,
    WatchDependentResources := w.WatchDependentResources,
    WatchClusterScopedResources := w.WatchClusterScopedResources,
    OwnerWatchMap := NewWatchMap,
    AnnotationWatchMap := NewWatchMap,
    Blacklist := w.Blacklist }

/-- Sample kinds of the scenario: the owner `Memcached` and the dependents `ConfigMap` and
`Secret`. -/
def kindMemcached : GroupVersionKind := ⟨lit "cache.example.com", lit "v1alpha1", lit "Memcached"⟩

def kindConfigMap : GroupVersionKind := ⟨[], lit "v1", lit "ConfigMap"⟩

def kindSecret : GroupVersionKind := ⟨[], lit "v1", lit "Secret"⟩

/-- Sample watch of the scenario: `Memcached` with `Secret` in its ignore-list. -/
def sampleWatch : Watch Unit :=
  { GroupVersionKind := kindMemcached, Blacklist := [kindSecret],
    MaxConcurrentReconciles := 1, ReconcilePeriod := 0, ManageStatus := true,
    WatchDependentResources := true, WatchClusterScopedResources := false,
    WatchAnnotationsChanges := false, Selector := () }

/-- Sample proxy state: the controller map after `run` has loaded the sample watch, and no
call made yet. -/
def sampleProxy : ProxyState Unit :=
  { cMap := (watchLoop id sampleFlags sampleDeps [sampleWatch] LoopState.init).1.cMap,
    calls := [] }

/-- Sample observations of the scenario: the automation writes a `ConfigMap` and a `Secret`
owned by the `Memcached` resource, twice over. -/
def sampleObservations : List Observation :=
  [ ⟨kindMemcached, kindConfigMap, false⟩, ⟨kindMemcached, kindSecret, false⟩,
    ⟨kindMemcached, kindConfigMap, false⟩, ⟨kindMemcached, kindSecret, false⟩ ]

end Run
/-! ## Package `e2e`: helpers of the end-to-end tests -/

namespace E2e

/-- The errors of the file operations below. -/
inductive PathError where
  | notExist
  | permission
  deriving DecidableEq, Repr

/-- A file: its content, and whether the process may read it and write it. -/
structure File where
  data : GoString
  readable : Bool
  writable : Bool
  deriving DecidableEq, Repr

/-- A file system as `os.ReadFile` and `os.WriteFile` see it: the file at each name, `none`
where there is no file, and whether a file may be created at a name. -/
structure FS where
  file : GoString → Option File
  creatable : GoString → Bool

/-- Function `os.ReadFile`: the content of the named file, or the error. -/
def ReadFile (fs : FS) (name : GoString) : Except PathError GoString :=
  match fs.file name with
  | none => .error .notExist
  | some f => if f.readable then .ok f.data else .error .permission

/-- Function `os.WriteFile`: writes the data to the named file, creating it with the
permission bits `perm` if it does not exist and truncating it otherwise. The result is the
error, `none` being the nil error, and the file system after the call; a file that cannot
be opened for writing is left as it is. -/
def WriteFile (fs : FS) (name data : GoString) (perm : Nat) : Option PathError × FS :=
  match fs.file name with
  | some f =>
    if f.writable then
      (none, { fs with
        file := fun n => if n = name then some { f with data := data } else fs.file n })
    else (some .permission, fs)
  | none =>
    if fs.creatable name then
      let created : File :=
        { data := data, readable := perm / 0o400 % 2 = 1, writable := perm / 0o200 % 2 = 1 }
      (none, { fs with file := fun n => if n = name then some created else fs.file n })
    else (some .permission, fs)

/-- The part of the interface `sample.Sample` the helper reads: `Dir()`, the directory the
sample is created in. -/
structure Sample where
  Dir : GoString
  deriving DecidableEq, Repr

/-- Constant `multiGroup` of `AllowProjectBeMultiGroup`. -/
def multiGroup : GoString := lit "multigroup: true\n"

/-- AllowProjectBeMultiGroup will update the PROJECT file with the information to allow we
scaffold apis with different groups. `Join` is `filepath.Join`; the result is the error
returned, `none` being nil, and the file system after the call. -/
def AllowProjectBeMultiGroup (Join : List GoString → GoString) (sample : Sample) (fs : FS) :
    Option PathError × FS :=
  match ReadFile fs (Join [sample.Dir, lit "PROJECT"]) with
  | .error err => (some err, fs)
  | .ok projectBytes =>
    match WriteFile fs (Join [sample.Dir, lit "PROJECT"]) (multiGroup ++ projectBytes) 0o644 with
    | (some err, fs1) => (some err, fs1)
    | (none, fs1) => (none, fs1)

/-- Sample `filepath.Join` for clean, non-empty elements: they are joined with `/`. -/
def sampleJoin (elems : List GoString) : GoString :=
  (elems.intersperse (lit "/")).flatten

/-- Sample file system: a sample project in `/tmp/memcached` with a PROJECT file. -/
def sampleFS : FS :=
  { file := fun n =>
      if n = lit "/tmp/memcached/PROJECT" then
        some { data := lit "domain: example.com\nlayout:\n- ansible\n", readable := true,
               writable := true }
      else none,
    creatable := fun _ => true }

end E2e
/-! ## Runner and event aggregator

The runner and the aggregation of its events are not among the sources. The definitions
below follow the description of the data model, of the status aggregation and of the
states of the reconcile controller. -/

namespace Runner

/-- Modelled from the spec: the outcome of a task event, "ok/changed/failed/skipped". -/
inductive TaskOutcome where
  | ok
  | changed
  | failed
  | skipped
  deriving DecidableEq, Repr

/-- Modelled from the spec: type `TaskEvent`, "verbosity level, task name, outcome,
associated resource identity, free-form result payload"; the resource is given by its
namespace and name. -/
structure TaskEvent where
  verbosity : Nat
  task : GoString
  outcome : TaskOutcome
  resource : GoString × GoString
  payload : GoString
  deriving DecidableEq, Repr

/-- Modelled from the spec: type `ReconcileOutcome`, "one of Successful, Failed,
Requeue(after duration), Fatal". -/
inductive ReconcileOutcome where
  | Successful
  | Failed
  | Requeue (after : Int)
  | Fatal
  deriving DecidableEq, Repr

/-- Modelled from the spec: the state of the status aggregation: "changed" and "failed",
and the detail kept per task, where the last outcome of a task wins. -/
structure RunStatus where
  changed : Bool
  failed : Bool
  tasks : List (GoString × TaskOutcome)
  deriving DecidableEq, Repr

/-- The status before the first event. -/
def RunStatus.init : RunStatus := { changed := false, failed := false, tasks := [] }

/-- Modelled from the spec: aggregation of one event: the state is "changed" if any task
reported a change and "failed" if any task failed, and the outcome of the event replaces
the outcome kept for its task. -/
def aggregateEvent (s : RunStatus) (e : TaskEvent) : RunStatus :=
  { changed := s.changed || e.outcome = TaskOutcome.changed,
    failed := s.failed || e.outcome = TaskOutcome.failed,
    tasks := s.tasks.filter (fun p => p.1 ≠ e.task) ++ [(e.task, e.outcome)] }

/-- Modelled from the spec: status aggregation of the events of one run, in their order. -/
def aggregate (events : List TaskEvent) : RunStatus :=
  events.foldl aggregateEvent RunStatus.init

/-- Modelled from the spec: how the automation process of a run ended: it exits, or it
"cannot be started" or crashes or is killed mid-run, or "the resource was deleted
mid-run". -/
inductive ProcessEnd where
  | exited
  | processError
  | resourceDeleted
  deriving DecidableEq, Repr

/-- Modelled from the spec: the outcome of a run, "derived from the full TaskEvent stream of
one run plus the automation process's exit status": a process error or a resource deleted
mid-run is Fatal; a process that exits with a failed task is Failed; one that exits with no
failed task has succeeded, with a re-reconcile after the reconcile period of the kind if
one is configured. -/
def reconcileOutcome (ending : ProcessEnd) (events : List TaskEvent) (reconcilePeriod : Int) :
    ReconcileOutcome :=
  match ending with
  | .processError => .Fatal
  | .resourceDeleted => .Fatal
  | .exited =>
    if (aggregate events).failed then .Failed
    else if reconcilePeriod ≠ 0 then .Requeue reconcilePeriod
    else .Successful

/-- Sample events of a run: the second task fails and the tasks after it succeed. -/
def sampleEvents : List TaskEvent :=
  [ ⟨0, lit "create configmap", .changed, (lit "default", lit "memcached-sample"), []⟩,
    ⟨0, lit "create secret", .failed, (lit "default", lit "memcached-sample"), []⟩,
    ⟨0, lit "create service", .ok, (lit "default", lit "memcached-sample"), []⟩,
    ⟨0, lit "create secret", .ok, (lit "default", lit "memcached-sample"), []⟩ ]

end Runner

/-! # Theorems -/

namespace Base64

theorem decodeMap_enc : ∀ n : Fin 64, decodeMap (enc n.val) = n.val := by decide

theorem enc_facts : ∀ n : Fin 64,
    enc n.val ≠ padChar ∧ isNewline (enc n.val) = false := by decide

theorem enc_mod (v : Nat) : enc v = enc (v % 64) := by
  simp [enc]

theorem decodeMap_enc_nat (v : Nat) : decodeMap (enc v) = v % 64 := by
  rw [enc_mod]
  exact decodeMap_enc ⟨v % 64, Nat.mod_lt _ (by decide)⟩

theorem decodeMap_pad : decodeMap padChar = 255 := by decide

theorem isNewline_enc (v : Nat) : isNewline (enc v) = false := by
  rw [enc_mod]
  exact (enc_facts ⟨v % 64, Nat.mod_lt _ (by decide)⟩).2

theorem isNewline_pad : isNewline padChar = false := by decide

theorem filter_EncodeToString (src : List Byte) :
    (EncodeToString src).filter (fun c => !isNewline c) = EncodeToString src := by
  induction src using EncodeToString.induct with
  | case1 b0 b1 b2 rest ih =>
    simp only [EncodeToString, List.filter_cons, isNewline_enc, Bool.not_false, if_true, ih]
  | case2 b0 b1 =>
    simp [EncodeToString, List.filter_cons, isNewline_enc, isNewline_pad]
  | case3 b0 =>
    simp [EncodeToString, List.filter_cons, isNewline_enc, isNewline_pad]
  | case4 => rfl

theorem decodeQuanta_EncodeToString (src : List Byte) :
    decodeQuanta (EncodeToString src) = some src := by
  induction src using EncodeToString.induct with
  | case1 b0 b1 b2 rest ih =>
    simp only [EncodeToString, decodeQuanta, decodeMap_enc_nat, ih, quantum]
    have h0 := b0.isLt
    have h1 := b1.isLt
    have h2 := b2.isLt
    rw [if_neg (by omega), if_neg (by omega), if_neg (by omega)]
    simp only [Option.some.injEq, List.cons.injEq, and_true]
    refine ⟨Fin.ext ?_, Fin.ext ?_, Fin.ext ?_⟩ <;> simp [Fin.ofNat] <;> omega
  | case2 b0 b1 =>
    simp only [EncodeToString, decodeQuanta, decodeMap_enc_nat, decodeMap_pad, quantum]
    have h0 := b0.isLt
    have h1 := b1.isLt
    rw [if_neg (by omega), if_neg (by omega)]
    simp only [and_self, if_true, Option.some.injEq, List.cons.injEq, and_true]
    refine ⟨Fin.ext ?_, Fin.ext ?_⟩ <;> simp [Fin.ofNat] <;> omega
  | case3 b0 =>
    simp only [EncodeToString, decodeQuanta, decodeMap_enc_nat, decodeMap_pad, quantum]
    have h0 := b0.isLt
    rw [if_neg (by omega)]
    simp only [and_self, if_true, Option.some.injEq, List.cons.injEq, and_true]
    refine Fin.ext ?_
    simp [Fin.ofNat]
    omega
  | case4 => rfl

theorem DecodeString_EncodeToString (src : List Byte) :
    DecodeString (EncodeToString src) = some src := by
  rw [DecodeString, filter_EncodeToString, decodeQuanta_EncodeToString]

end Base64

namespace Utf8

theorem first_cases (v : Nat) (h : 0x80 ≤ v) :
    (first v).1 = 0 ∨
    (first v = (2, 0x80, 0xBF) ∧ 0xC2 ≤ v ∧ v < 0xE0) ∨
    ((first v).1 = 3 ∧ 0xE0 ≤ v ∧ v < 0xF0 ∧ 0x80 ≤ (first v).2.1 ∧ (first v).2.2 ≤ 0xBF ∧
      (v = 0xE0 → (first v).2.1 = 0xA0) ∧ (v = 0xED → (first v).2.2 = 0x9F)) ∨
    ((first v).1 = 4 ∧ 0xF0 ≤ v ∧ v ≤ 0xF4 ∧ 0x80 ≤ (first v).2.1 ∧ (first v).2.2 ≤ 0xBF ∧
      (v = 0xF0 → (first v).2.1 = 0x90) ∧ (v = 0xF4 → (first v).2.2 = 0x8F)) := by
  unfold first
  rw [if_neg (by omega)]
  split_ifs with h1 h2 h3 h4 h5 h6 h7 h8 h9
  · exact Or.inl rfl
  · exact Or.inr (Or.inl ⟨rfl, by omega, by omega⟩)
  · refine Or.inr (Or.inr (Or.inl ⟨rfl, by omega, by omega, by decide, by decide, fun _ => rfl, by omega⟩))
  · refine Or.inr (Or.inr (Or.inl ⟨rfl, by omega, by omega, by decide, by decide, by omega, by omega⟩))
  · refine Or.inr (Or.inr (Or.inl ⟨rfl, by omega, by omega, by decide, by decide, by omega, fun _ => rfl⟩))
  · refine Or.inr (Or.inr (Or.inl ⟨rfl, by omega, by omega, by decide, by decide, by omega, by omega⟩))
  · refine Or.inr (Or.inr (Or.inr ⟨rfl, by omega, by omega, by decide, by decide, fun _ => rfl, by omega⟩))
  · refine Or.inr (Or.inr (Or.inr ⟨rfl, by omega, by omega, by decide, by decide, by omega, by omega⟩))
  · refine Or.inr (Or.inr (Or.inr ⟨rfl, by omega, by omega, by decide, by decide, by omega, fun _ => rfl⟩))
  · exact Or.inl rfl

theorem fin_ofNat_val (n : Nat) : (Fin.ofNat n : Byte).val = n % 256 := rfl

/-- A well-formed multi-byte rune at the head of `s`: its bytes are the encoding of the
decoded rune, and decoding reads nothing beyond them. -/
theorem decodeRune_wellFormed (b0 : Byte) (t : List Byte) (h0 : 0x80 ≤ b0.val)
    (hd : ¬ ((DecodeRune (b0 :: t)).1 = RuneError ∧ (DecodeRune (b0 :: t)).2 = 1)) :
    ∃ bs rest, t = bs ++ rest ∧ (b0 :: bs).length = (DecodeRune (b0 :: t)).2 ∧
      EncodeRune (DecodeRune (b0 :: t)).1 = b0 :: bs ∧ 0x80 ≤ (DecodeRune (b0 :: t)).1 ∧
      ∀ more, DecodeRune (b0 :: bs ++ more) = DecodeRune (b0 :: t) := by
  have hb0 := b0.isLt
  rcases first_cases b0.val h0 with hx | ⟨hx, h1, h2⟩ | ⟨hx, h1, h2, h3, h4, h5, h6⟩ |
      ⟨hx, h1, h2, h3, h4, h5, h6⟩
  · exfalso
    apply hd
    simp [DecodeRune, hx]
  · match t with
    | [] => exfalso; apply hd; simp [DecodeRune, hx]
    | b1 :: t1 =>
      have hb1 := b1.isLt
      by_cases hr : (b1.val < 0x80 ∨ 0xBF < b1.val)
      · exfalso; apply hd; simp [DecodeRune, hx, hr]
      · have hdec : ∀ more, DecodeRune (b0 :: b1 :: more) = (b0.val % 32 * 64 + b1.val % 64, 2) := by
          intro more
          simp [DecodeRune, hx, hr]
        refine ⟨[b1], t1, rfl, ?_, ?_, ?_, ?_⟩
        · rw [hdec]; rfl
        · rw [hdec]
          simp only [EncodeRune]
          rw [if_neg (by omega), if_pos (by omega)]
          simp only [List.cons.injEq, and_true]
          refine ⟨Fin.ext ?_, Fin.ext ?_⟩ <;> rw [fin_ofNat_val] <;> omega
        · rw [hdec]; simp only; omega
        · intro more
          simp only [List.cons_append, List.nil_append]
          rw [hdec, hdec]
  · match t with
    | [] => exfalso; apply hd; simp [DecodeRune, hx]
    | [b1] =>
      exfalso; apply hd
      by_cases hr : (b1.val < (first b0.val).2.1 ∨ (first b0.val).2.2 < b1.val) <;>
        simp [DecodeRune, hx, hr]
    | b1 :: b2 :: t2 =>
      have hb1 := b1.isLt
      have hb2 := b2.isLt
      by_cases hr : (b1.val < (first b0.val).2.1 ∨ (first b0.val).2.2 < b1.val)
      · exfalso; apply hd; simp [DecodeRune, hx, hr]
      by_cases hr2 : (b2.val < 0x80 ∨ 0xBF < b2.val)
      · exfalso; apply hd; simp [DecodeRune, hx, hr, hr2]
      have hdec : ∀ more, DecodeRune (b0 :: b1 :: b2 :: more) =
          (b0.val % 16 * 4096 + b1.val % 64 * 64 + b2.val % 64, 3) := by
        intro more
        simp [DecodeRune, hx, hr, hr2]
      refine ⟨[b1, b2], t2, rfl, ?_, ?_, ?_, ?_⟩
      · rw [hdec]; rfl
      · rw [hdec]
        simp only [EncodeRune, encodeRune3]
        rw [if_neg (by omega), if_neg (by omega), if_neg (by omega), if_pos (by omega)]
        simp only [List.cons.injEq, and_true]
        refine ⟨Fin.ext ?_, Fin.ext ?_, Fin.ext ?_⟩ <;> rw [fin_ofNat_val] <;> omega
      · rw [hdec]; simp only; omega
      · intro more
        simp only [List.cons_append, List.nil_append]
        rw [hdec, hdec]
  · match t with
    | [] => exfalso; apply hd; simp [DecodeRune, hx]
    | [b1] =>
      exfalso; apply hd
      by_cases hr : (b1.val < (first b0.val).2.1 ∨ (first b0.val).2.2 < b1.val) <;>
        simp [DecodeRune, hx, hr]
    | [b1, b2] =>
      exfalso; apply hd
      by_cases hr : (b1.val < (first b0.val).2.1 ∨ (first b0.val).2.2 < b1.val) <;>
        simp [DecodeRune, hx, hr]
    | b1 :: b2 :: b3 :: t3 =>
      have hb1 := b1.isLt
      have hb2 := b2.isLt
      have hb3 := b3.isLt
      by_cases hr : (b1.val < (first b0.val).2.1 ∨ (first b0.val).2.2 < b1.val)
      · exfalso; apply hd; simp [DecodeRune, hx, hr]
      by_cases hr2 : (b2.val < 0x80 ∨ 0xBF < b2.val)
      · exfalso; apply hd; simp [DecodeRune, hx, hr, hr2]
      by_cases hr3 : (b3.val < 0x80 ∨ 0xBF < b3.val)
      · exfalso; apply hd; simp [DecodeRune, hx, hr, hr2, hr3]
      have hdec : ∀ more, DecodeRune (b0 :: b1 :: b2 :: b3 :: more) =
          (b0.val % 8 * 262144 + b1.val % 64 * 4096 + b2.val % 64 * 64 + b3.val % 64, 4) := by
        intro more
        simp [DecodeRune, hx, hr, hr2, hr3]
      refine ⟨[b1, b2, b3], t3, rfl, ?_, ?_, ?_, ?_⟩
      · rw [hdec]; rfl
      · rw [hdec]
        simp only [EncodeRune, encodeRune3]
        rw [if_neg (by omega), if_neg (by omega), if_neg (by omega), if_neg (by omega)]
        simp only [List.cons.injEq, and_true]
        refine ⟨Fin.ext ?_, Fin.ext ?_, Fin.ext ?_, Fin.ext ?_⟩ <;> rw [fin_ofNat_val] <;> omega
      · rw [hdec]; simp only; omega
      · intro more
        simp only [List.cons_append, List.nil_append]
        rw [hdec, hdec]

theorem decodeRune_ascii (b : Byte) (t : List Byte) (h : b.val < 0x80) :
    DecodeRune (b :: t) = (b.val, 1) := by
  simp [DecodeRune, first, h]

theorem wellFormed_of_validLoop :
    ∀ (n : Nat) (s : List Byte), validLoop n s = true → WellFormed s := by
  intro n
  induction n with
  | zero =>
    intro s h
    cases s with
    | nil => exact WellFormed.nil
    | cons b t => simp [validLoop] at h
  | succ n ih =>
    intro s h
    cases s with
    | nil => exact WellFormed.nil
    | cons b t =>
      by_cases hb : b.val < 0x80
      · have hd := decodeRune_ascii b t hb
        simp only [validLoop, List.isEmpty_cons, hd] at h
        simp at h
        exact WellFormed.ascii b t hb (ih t h.2)
      · simp only [validLoop, List.isEmpty_cons] at h
        simp only [Bool.false_eq_true, if_false] at h
        split at h
        · exact absurd h (by simp)
        · rename_i hd
          obtain ⟨bs, rest, hs, hlen, henc, hr, hmore⟩ :=
            decodeRune_wellFormed b t (by omega) hd
          have hdrop : List.drop (DecodeRune (b :: t)).2 (b :: t) = rest := by
            rw [← hlen, hs]
            simp
          rw [hdrop] at h
          rw [hs]
          exact WellFormed.rune b bs rest _ _ (by omega) hlen henc hr hmore (ih rest h)

theorem wellFormed_of_validString (s : GoString) (h : ValidString s = true) : WellFormed s :=
  wellFormed_of_validLoop s.length s h

end Utf8

namespace Json
open Utf8

set_option maxRecDepth 100000 in
theorem hexVal_hexDigit : ∀ b : Byte,
    hexVal (hexDigit (b.val / 16)) = some (b.val / 16) ∧
    hexVal (hexDigit b.val) = some (b.val % 16) := by decide

theorem encodeRune_ascii (b : Byte) (h : b.val < 0x80) : EncodeRune b.val = [b] := by
  simp only [EncodeRune]
  rw [if_pos (by omega)]
  simp only [List.cons.injEq, and_true]
  apply Fin.ext
  show b.val % 256 = b.val
  omega

/-- Reading back the escape written for an ASCII byte outside `htmlSafeSet`. -/
theorem unquoteLoop_escapeByte (b : Byte) (h : b.val < 0x80) (hs : htmlSafeSet b = false)
    (f : Nat) (tail : List Byte) :
    unquoteLoop (f + 1) (escapeByte b ++ tail) = consTo [b] (unquoteLoop f tail) := by
  unfold escapeByte
  split_ifs with h1 h2 h3 h4 h5 h6
  · rcases h1 with h1 | h1
    · have : b = 0x5C := Fin.ext h1
      subst this
      simp +decide [unquoteLoop, simpleEscape]
    · have : b = 0x22 := Fin.ext h1
      subst this
      simp +decide [unquoteLoop, simpleEscape]
  · have : b = 0x08 := Fin.ext h2
    subst this
    simp +decide [unquoteLoop, simpleEscape, lit]
  · have : b = 0x0C := Fin.ext h3
    subst this
    simp +decide [unquoteLoop, simpleEscape, lit]
  · have : b = 0x0A := Fin.ext h4
    subst this
    simp +decide [unquoteLoop, simpleEscape, lit]
  · have : b = 0x0D := Fin.ext h5
    subst this
    simp +decide [unquoteLoop, simpleEscape, lit]
  · have : b = 0x09 := Fin.ext h6
    subst this
    simp +decide [unquoteLoop, simpleEscape, lit]
  · have hh := hexVal_hexDigit b
    have h30 : hexVal (0x30 : Byte) = some 0 := by decide
    have hsur : isSurrogate b.val = false := by
      simp [isSurrogate]; omega
    have hval : ((0 * 16 + 0) * 16 + b.val / 16) * 16 + b.val % 16 = b.val := by omega
    have hg : getu4 (0x5C :: 0x75 :: 0x30 :: 0x30 :: hexDigit (b.val / 16) :: hexDigit b.val ::
        tail) = some b.val := by
      simp +decide only [getu4, h30, hh.1, hh.2, hval]
      simp
    show unquoteLoop (f + 1) (0x5C :: 0x75 :: 0x30 :: 0x30 :: hexDigit (b.val / 16) ::
      hexDigit b.val :: tail) = _
    rw [unquoteLoop]
    rw [if_neg (by decide), if_pos (by decide)]
    simp only []
    rw [if_pos (by decide), hg]
    simp only [hsur, Bool.false_eq_true, if_false, List.drop, encodeRune_ascii b h]

theorem encodeRune_length (r : Nat) (h : 0x80 ≤ r) : 2 ≤ (EncodeRune r).length := by
  simp only [EncodeRune, encodeRune3]
  split_ifs <;> simp <;> omega

theorem htmlSafeSet_ascii (b : Byte) (h : htmlSafeSet b = true) :
    ¬ b.val = 0x22 ∧ ¬ b.val = 0x5C ∧ ¬ b.val < 0x20 ∧ b.val < 0x80 := by
  simp [htmlSafeSet] at h
  omega

theorem escapeByte_length (b : Byte) : 1 ≤ (escapeByte b).length := by
  unfold escapeByte
  split_ifs <;> simp [lit]

theorem unquoteLoop_u202 (r : Nat) (hr : r = 0x2028 ∨ r = 0x2029) (f : Nat)
    (tail : List Byte) :
    unquoteLoop (f + 1) (lit "\\u202" ++ [hexDigit r] ++ tail) =
      consTo (EncodeRune r) (unquoteLoop f tail) := by
  rcases hr with hr | hr <;> subst hr
  · show unquoteLoop (f + 1) (0x5C :: 0x75 :: 0x32 :: 0x30 :: 0x32 :: 0x38 :: tail) = _
    rw [unquoteLoop]
    rw [if_neg (by decide), if_pos (by decide)]
    simp only []
    rw [if_pos (by decide)]
    have hg : getu4 (0x5C :: 0x75 :: 0x32 :: 0x30 :: 0x32 :: 0x38 :: tail) = some 0x2028 := by
      simp +decide [getu4, hexVal]
    rw [hg]
    simp +decide [isSurrogate]
  · show unquoteLoop (f + 1) (0x5C :: 0x75 :: 0x32 :: 0x30 :: 0x32 :: 0x39 :: tail) = _
    rw [unquoteLoop]
    rw [if_neg (by decide), if_pos (by decide)]
    simp only []
    rw [if_pos (by decide)]
    have hg : getu4 (0x5C :: 0x75 :: 0x32 :: 0x30 :: 0x32 :: 0x39 :: tail) = some 0x2029 := by
      simp +decide [getu4, hexVal]
    rw [hg]
    simp +decide [isSurrogate]

theorem unquoteLoop_quote (f : Nat) (rest : List Byte) :
    unquoteLoop (f + 1) (0x22 :: rest) = some ([], rest) := by
  simp +decide [unquoteLoop]

theorem unquoteLoop_plain (c : Byte) (h1 : ¬ c.val = 0x22) (h2 : ¬ c.val = 0x5C)
    (h3 : ¬ c.val < 0x20) (h4 : c.val < 0x80) (f : Nat) (rest : List Byte) :
    unquoteLoop (f + 1) (c :: rest) = consTo [c] (unquoteLoop f rest) := by
  simp [unquoteLoop, h1, h2, h3, h4]

theorem unquoteLoop_multibyte (c : Byte) (h : 0x80 ≤ c.val) (f : Nat) (rest : List Byte) :
    unquoteLoop (f + 1) (c :: rest) =
      consTo (EncodeRune (DecodeRune (c :: rest)).1)
        (unquoteLoop f ((c :: rest).drop (DecodeRune (c :: rest)).2)) := by
  have h1 : ¬ c.val = 0x22 := by omega
  have h2 : ¬ c.val = 0x5C := by omega
  have h3 : ¬ c.val < 0x20 := by omega
  have h4 : ¬ c.val < 0x80 := by omega
  simp [unquoteLoop, h1, h2, h3, h4]

/-- The decoder reads the body written by `appendString` for a well-formed string back as
that string, and stops behind the closing quote. -/
theorem unquoteLoop_appendStringLoop (s : GoString) (hw : WellFormed s) :
    ∀ f1, s.length ≤ f1 → ∀ f2 rest, (appendStringLoop f1 s).length < f2 →
      unquoteLoop f2 (appendStringLoop f1 s ++ 0x22 :: rest) = some (s, rest) := by
  induction hw with
  | nil =>
    intro f1 _ f2 rest hf2
    have : appendStringLoop f1 [] = [] := by cases f1 <;> rfl
    rw [this]
    cases f2 with
    | zero => omega
    | succ m => exact unquoteLoop_quote m rest
  | ascii b t hb _ ih =>
    intro f1 hf1 f2 rest hf2
    cases f1 with
    | zero => simp at hf1
    | succ k =>
      simp only [List.length_cons, Nat.add_le_add_iff_right] at hf1
      cases f2 with
      | zero => omega
      | succ m =>
        rw [appendStringLoop, if_pos hb] at hf2 ⊢
        by_cases hsafe : htmlSafeSet b = true
        · rw [if_pos hsafe] at hf2 ⊢
          obtain ⟨hq, hbs, hctl, _⟩ := htmlSafeSet_ascii b hsafe
          simp only [List.length_cons, Nat.add_lt_add_iff_right] at hf2
          rw [List.cons_append, unquoteLoop_plain b hq hbs hctl hb, ih k hf1 m rest hf2]
          rfl
        · rw [if_neg hsafe] at hf2 ⊢
          have hl := escapeByte_length b
          simp only [List.length_append] at hf2
          rw [List.append_assoc, unquoteLoop_escapeByte b hb (by simpa using hsafe),
            ih k hf1 m rest (by omega)]
          rfl
  | rune b0 bs rest0 r sz hb0 hlen henc hr hmore _ ih =>
    intro f1 hf1 f2 rest hf2
    have hsz : 2 ≤ sz := by
      have := encodeRune_length r hr
      rw [henc] at this
      omega
    cases f1 with
    | zero => simp at hf1
    | succ k =>
      have hk : rest0.length ≤ k := by
        simp only [List.cons_append, List.length_cons, List.length_append] at hf1
        omega
      have hdrop : List.drop sz (b0 :: (bs ++ rest0)) = rest0 := by
        rw [← List.cons_append, ← hlen]
        simp
      have htake : List.take sz (b0 :: (bs ++ rest0)) = b0 :: bs := by
        rw [← List.cons_append, ← hlen]
        simp
      cases f2 with
      | zero => omega
      | succ m =>
        rw [List.cons_append, appendStringLoop, if_neg (by omega)] at hf2 ⊢
        have hd := hmore rest0
        rw [List.cons_append] at hd
        simp only [hd] at hf2 ⊢
        rw [if_neg (by omega)] at hf2 ⊢
        by_cases h2 : r = 0x2028 ∨ r = 0x2029
        · rw [if_pos h2, hdrop] at hf2 ⊢
          simp only [List.length_append, List.length_cons, List.length_nil] at hf2
          rw [List.append_assoc, unquoteLoop_u202 r h2, ih k hk m rest (by omega), henc]
          rfl
        · rw [if_neg h2, hdrop, htake] at hf2 ⊢
          simp only [List.length_append, List.length_cons] at hf2
          have hd2 := hmore (appendStringLoop k rest0 ++ 0x22 :: rest)
          rw [List.cons_append] at hd2
          have hdrop2 : List.drop sz (b0 :: (bs ++ (appendStringLoop k rest0 ++ 0x22 :: rest))) =
              appendStringLoop k rest0 ++ 0x22 :: rest := by
            rw [← List.cons_append, ← hlen]
            simp
          simp only [List.cons_append, List.append_assoc]
          rw [unquoteLoop_multibyte b0 hb0]
          simp only [hd2, hdrop2, henc]
          rw [ih k hk m rest (by omega)]
          rfl

theorem appendString_append (s : GoString) (rest : List Byte) :
    appendString s ++ rest = 0x22 :: (appendStringLoop s.length s ++ 0x22 :: rest) := by
  simp [appendString]

theorem parseString_appendStringLoop (s : GoString) (hw : WellFormed s) (rest : List Byte) :
    parseString (appendStringLoop s.length s ++ 0x22 :: rest) = some (s, rest) := by
  unfold parseString
  apply unquoteLoop_appendStringLoop s hw s.length (Nat.le_refl _)
  simp
  omega

end Json

namespace Json
open Utf8

theorem skipSpace_cons (c : Byte) (rest : List Byte) (h : isSpace c = false) :
    skipSpace (c :: rest) = c :: rest := by
  simp [skipSpace, List.dropWhile, h]

theorem parseValue_encodeValue (v : FieldValue) (hv : valueOK v) :
    ∃ c body, encodeValue v = c :: body ∧ isSpace c = false ∧
      ∀ (d : Byte) (more : List Byte),
        parseValue (encodeValue v ++ d :: more) = .ok (v.toValue, d :: more) := by
  cases v with
  | str s =>
    refine ⟨0x22, appendStringLoop s.length s ++ [0x22], by simp [encodeValue, appendString],
      by decide, ?_⟩
    intro d more
    simp only [encodeValue, appendString_append, parseValue]
    rw [if_pos (by decide), parseString_appendStringLoop s hv]
    rfl
  | ptrBool b =>
    cases b with
    | none => exact ⟨0x6E, lit "ull", by decide, by decide, by intro d more; simp +decide [encodeValue, parseValue, lit, FieldValue.toValue]⟩
    | some b =>
      cases b with
      | true => exact ⟨0x74, lit "rue", by decide, by decide, by intro d more; simp +decide [encodeValue, parseValue, lit, FieldValue.toValue]⟩
      | false => exact ⟨0x66, lit "alse", by decide, by decide, by intro d more; simp +decide [encodeValue, parseValue, lit, FieldValue.toValue]⟩

theorem keptFields_cons (f : EncField) (fs : List EncField) :
    keptFields (f :: fs) =
      if (f.omitEmpty && isEmptyValue f.value) = true then keptFields fs
      else f :: keptFields fs := by
  unfold keptFields
  rw [List.filter_cons]
  by_cases h : (f.omitEmpty && isEmptyValue f.value) = true
  · rw [if_pos h, if_neg (by simp [h])]
  · rw [if_neg h, if_pos (by
      cases h1 : f.omitEmpty <;> cases h2 : isEmptyValue f.value <;> simp_all)]

/-- The text written for a field list parses back to the members of the kept fields. -/
theorem parseMembers_structFields (fs : List EncField)
    (hok : ∀ f ∈ fs, WellFormed f.name ∧ valueOK f.value) :
    ∀ next : Byte,
      (keptFields fs = [] → structFields next fs = (next, [])) ∧
      (keptFields fs ≠ [] → ∃ X, structFields next fs = (0x2C, next :: 0x22 :: X) ∧
        (keptFields fs).length ≤ X.length + 1 ∧
        ∀ fuel more, (keptFields fs).length ≤ fuel →
          parseMembers fuel (0x22 :: X ++ 0x7D :: more) =
            .ok ((keptFields fs).map EncField.member, more)) := by
  induction fs with
  | nil =>
    intro next
    exact ⟨fun _ => rfl, fun h => absurd rfl h⟩
  | cons f fs ih =>
    intro next
    have hokf := hok f (List.mem_cons_self _ _)
    have ih' := ih (fun g hg => hok g (List.mem_cons_of_mem _ hg))
    by_cases hom : (f.omitEmpty && isEmptyValue f.value) = true
    · have hk : keptFields (f :: fs) = keptFields fs := by rw [keptFields_cons, if_pos hom]
      have hs : structFields next (f :: fs) = structFields next fs := by
        rw [structFields, if_pos hom]
      rw [hk, hs]
      exact ih' next
    · have hk : keptFields (f :: fs) = f :: keptFields fs := by rw [keptFields_cons, if_neg hom]
      rw [hk]
      refine ⟨fun h => absurd h (List.cons_ne_nil _ _), fun _ => ?_⟩
      obtain ⟨c, vbody, hvc, hcsp, hpv⟩ := parseValue_encodeValue f.value hokf.2
      have hs : structFields next (f :: fs) = ((structFields 0x2C fs).1,
          [next] ++ appendString f.name ++ [0x3A] ++ encodeValue f.value ++
            (structFields 0x2C fs).2) := by
        rw [structFields, if_neg hom]
      by_cases hrest : keptFields fs = []
      · have hr := (ih' 0x2C).1 hrest
        refine ⟨appendStringLoop f.name.length f.name ++ [0x22] ++ [0x3A] ++
          encodeValue f.value, ?_, ?_, ?_⟩
        · rw [hs, hr]
          simp [appendString]
        · rw [hrest]
          simp
        · intro fuel more hfuel
          cases fuel with
          | zero => simp at hfuel
          | succ k =>
            have hpv' := hpv 0x7D more
            simp only [List.append_assoc, List.cons_append, List.nil_append]
            rw [parseMembers]
            rw [if_neg (by decide), parseString_appendStringLoop f.name hokf.1]
            simp only []
            rw [skipSpace_cons _ _ (by decide)]
            simp only []
            rw [if_neg (by decide), hvc, List.cons_append, skipSpace_cons _ _ hcsp,
              ← List.cons_append, ← hvc, hpv']
            simp only []
            rw [skipSpace_cons _ _ (by decide)]
            simp only []
            rw [if_pos (by decide), hrest]
            rfl
      · obtain ⟨X, hX, hlenX, hparse⟩ := (ih' 0x2C).2 hrest
        refine ⟨appendStringLoop f.name.length f.name ++ [0x22] ++ [0x3A] ++
          encodeValue f.value ++ 0x2C :: 0x22 :: X, ?_, ?_, ?_⟩
        · rw [hs, hX]
          simp [appendString]
        · simp only [List.length_cons, List.length_append]
          omega
        · intro fuel more hfuel
          cases fuel with
          | zero => simp at hfuel
          | succ k =>
            have hpv' := hpv 0x2C (0x22 :: X ++ 0x7D :: more)
            simp only [List.append_assoc, List.cons_append, List.nil_append] at hpv' ⊢
            rw [parseMembers]
            rw [if_neg (by decide), parseString_appendStringLoop f.name hokf.1]
            simp only []
            rw [skipSpace_cons _ _ (by decide)]
            simp only []
            rw [if_neg (by decide), hvc, List.cons_append, skipSpace_cons _ _ hcsp,
              ← List.cons_append, ← hvc, hpv']
            simp only []
            rw [skipSpace_cons _ _ (by decide)]
            simp only []
            rw [if_neg (by decide), if_pos (by decide), skipSpace_cons _ _ (by decide)]
            have hp := hparse k more (by simpa using hfuel)
            simp only [List.cons_append] at hp
            rw [hp]
            rfl

theorem parseDocument_structEncode (fs : List EncField)
    (hok : ∀ f ∈ fs, WellFormed f.name ∧ valueOK f.value) :
    parseDocument (structEncode fs) = .ok (some ((keptFields fs).map EncField.member)) := by
  have h := parseMembers_structFields fs hok 0x7B
  by_cases hk : keptFields fs = []
  · have hs := h.1 hk
    simp only [structEncode, hs, hk, if_true]
    rfl
  · obtain ⟨X, hX, hlen, hparse⟩ := h.2 hk
    have hp := hparse (0x22 :: (X ++ [0x7D])).length [] (by simp; omega)
    simp only [structEncode, hX]
    rw [if_neg (by decide)]
    simp only [List.cons_append] at hp ⊢
    rw [parseDocument, skipSpace_cons _ _ (by decide)]
    simp only []
    rw [if_pos (by decide), skipSpace_cons _ _ (by decide)]
    simp only []
    rw [if_neg (by decide), hp]
    rfl

end Json

namespace Base64

theorem enc_alphabet : ∀ n : Fin 64, isAlphabetChar (enc n.val) = true := by decide

theorem isAlphabetChar_enc (v : Nat) : isAlphabetChar (enc v) = true := by
  rw [enc_mod]
  exact enc_alphabet ⟨v % 64, Nat.mod_lt _ (by decide)⟩

/-- Shape of every output of `EncodeToString`. -/
theorem EncodeToString_shape (src : List Byte) :
    ∃ body pad, EncodeToString src = body ++ pad ∧
      (∀ c ∈ body, isAlphabetChar c = true) ∧
      (pad = [] ∨ pad = [padChar] ∨ pad = [padChar, padChar]) ∧
      (EncodeToString src).length % 4 = 0 := by
  induction src using EncodeToString.induct with
  | case1 b0 b1 b2 rest ih =>
    obtain ⟨body, pad, h1, h2, h3, h4⟩ := ih
    refine ⟨enc ((b0.val * 65536 + b1.val * 256 + b2.val) / 262144) ::
      enc ((b0.val * 65536 + b1.val * 256 + b2.val) / 4096) ::
      enc ((b0.val * 65536 + b1.val * 256 + b2.val) / 64) ::
      enc (b0.val * 65536 + b1.val * 256 + b2.val) :: body, pad, ?_, ?_, h3, ?_⟩
    · simp only [EncodeToString, h1, List.cons_append]
    · intro c hc
      simp only [List.mem_cons] at hc
      rcases hc with hc | hc | hc | hc | hc
      · rw [hc]; exact isAlphabetChar_enc _
      · rw [hc]; exact isAlphabetChar_enc _
      · rw [hc]; exact isAlphabetChar_enc _
      · rw [hc]; exact isAlphabetChar_enc _
      · exact h2 c hc
    · simp only [EncodeToString, List.length_cons]
      omega
  | case2 b0 b1 =>
    refine ⟨[enc ((b0.val * 65536 + b1.val * 256) / 262144),
      enc ((b0.val * 65536 + b1.val * 256) / 4096),
      enc ((b0.val * 65536 + b1.val * 256) / 64)], [padChar], rfl, ?_, Or.inr (Or.inl rfl), by simp [EncodeToString]⟩
    intro c hc
    simp only [List.mem_cons, List.mem_singleton, List.not_mem_nil, or_false] at hc
    rcases hc with hc | hc | hc <;> rw [hc] <;> exact isAlphabetChar_enc _
  | case3 b0 =>
    refine ⟨[enc (b0.val * 65536 / 262144), enc (b0.val * 65536 / 4096)],
      [padChar, padChar], rfl, ?_, Or.inr (Or.inr rfl), by simp [EncodeToString]⟩
    intro c hc
    simp only [List.mem_cons, List.mem_singleton, List.not_mem_nil, or_false] at hc
    rcases hc with hc | hc <;> rw [hc] <;> exact isAlphabetChar_enc _
  | case4 => exact ⟨[], [], rfl, by simp, Or.inl rfl, rfl⟩

end Base64

namespace Kubeconfig
open Metav1 Json

/-- C3. The string returned by `EncodeOwnerRef` is URL-safe: characters of the alphabet
`A`-`Z`, `a`-`z`, `0`-`9`, `-`, `_`, followed by at most two `=`; it contains neither `+` nor
`/` and its length is a multiple of 4. -/
theorem EncodeOwnerRef_url_safe (ownerRef : OwnerReference) (namespace_ : GoString) :
    ∃ token body pad, EncodeOwnerRef ownerRef namespace_ = .ok token ∧
      token = body ++ pad ∧
      (∀ c ∈ body, Base64.isAlphabetChar c = true) ∧
      (pad = [] ∨ pad = lit "=" ∨ pad = lit "==") ∧
      (0x2B : Byte) ∉ token ∧ (0x2F : Byte) ∉ token ∧
      token.length % 4 = 0 := by
  obtain ⟨body, pad, h1, h2, h3, h4⟩ := Base64.EncodeToString_shape
    (Json.structEncode (Field.all.map (fun f =>
      ⟨f.jsonName, f.omitEmpty, f.get { ownerRef with Namespace := namespace_ }⟩)))
  refine ⟨_, body, pad, rfl, h1, h2, h3, ?_, ?_, h4⟩
  · rw [h1]
    intro hm
    rcases List.mem_append.mp hm with hm | hm
    · exact absurd (h2 _ hm) (by decide)
    · rcases h3 with h3 | h3 | h3 <;> rw [h3] at hm <;> revert hm <;> decide
  · rw [h1]
    intro hm
    rcases List.mem_append.mp hm with hm | hm
    · exact absurd (h2 _ hm) (by decide)
    · rcases h3 with h3 | h3 | h3 <;> rw [h3] at hm <;> revert hm <;> decide

end Kubeconfig

namespace Kubeconfig
open Metav1 Json

theorem Marshal_eq_flatTokenJSON (ownerRef : OwnerReference) (namespace_ : GoString) :
    Marshal { ownerRef with Namespace := namespace_ } = .ok (flatTokenJSON ownerRef namespace_) := by
  rcases ownerRef with ⟨av, k, n, u, c, b⟩
  rcases c with _ | _ | _ <;> rcases b with _ | _ | _ <;>
    simp only [Marshal, structEncode, structFields, Field.all, Field.jsonName, Field.omitEmpty,
      Field.get, isEmptyValue, flatTokenJSON, optionalMember, encodeValue, boolText,
      List.map, List.append_assoc, List.cons_append, List.nil_append, List.append_nil,
      Bool.and_self, Bool.false_and, Bool.true_and, Bool.and_false, Bool.and_true,
      Bool.false_eq_true, if_false, if_true, Except.ok.injEq] <;>
    rfl

theorem EncodeOwnerRef_eq (ownerRef : OwnerReference) (namespace_ : GoString) :
    EncodeOwnerRef ownerRef namespace_ =
      .ok (Base64.EncodeToString (flatTokenJSON ownerRef namespace_)) := by
  simp only [EncodeOwnerRef, Marshal_eq_flatTokenJSON]

theorem wellFormed_jsonName (f : Field) : Utf8.WellFormed f.jsonName := by
  cases f <;> exact Utf8.wellFormed_of_validString _ (by decide)

theorem validStrings_wellFormed (ownerRef : OwnerReference) (namespace_ : GoString)
    (h : validStrings ownerRef namespace_ = true) :
    ∀ f : Field, valueOK (f.get { ownerRef with Namespace := namespace_ }) := by
  simp only [validStrings, Bool.and_eq_true] at h
  obtain ⟨⟨⟨⟨h1, h2⟩, h3⟩, h4⟩, h5⟩ := h
  intro f
  cases f <;> simp only [Field.get, valueOK] <;>
    first
    | exact Utf8.wellFormed_of_validString _ h1
    | exact Utf8.wellFormed_of_validString _ h2
    | exact Utf8.wellFormed_of_validString _ h3
    | exact Utf8.wellFormed_of_validString _ h4
    | exact Utf8.wellFormed_of_validString _ h5

theorem Unmarshal_Marshal (foldRune : Nat → Nat) (ownerRef : OwnerReference)
    (namespace_ : GoString) (h : validStrings ownerRef namespace_ = true) :
    Unmarshal foldRune (structEncode (Field.all.map (fun f =>
        ⟨f.jsonName, f.omitEmpty, f.get { ownerRef with Namespace := namespace_ }⟩))) =
      .ok { ownerRef with Namespace := namespace_ } := by
  have hok := validStrings_wellFormed ownerRef namespace_ h
  rw [Unmarshal, parseDocument_structEncode]
  · rcases ownerRef with ⟨av, k, n, u, c, b⟩
    rcases c with _ | _ | _ <;> rcases b with _ | _ | _ <;> rfl
  · intro f hf
    simp only [List.mem_map] at hf
    obtain ⟨g, _, rfl⟩ := hf
    exact ⟨wellFormed_jsonName g, hok g⟩

set_option maxRecDepth 100000 in
/-- C1, counterexample. A namespace that is the single byte `0xFF`, which is not valid
UTF-8, is encoded as the replacement character and decodes to the three bytes of U+FFFD:
the decoded namespace is not the one that was encoded. -/
theorem EncodeOwnerRef_roundtrip_counterexample :
    ∃ token, EncodeOwnerRef sampleOwnerRef [0xFF] = .ok token ∧
      decodeToken id token = some (.ok { sampleOwnerRef with Namespace := [0xEF, 0xBF, 0xBD] }) ∧
      decodeToken id token ≠ some (.ok { sampleOwnerRef with Namespace := [0xFF] }) := by
  have h : decodeToken id (Base64.EncodeToString (flatTokenJSON sampleOwnerRef [0xFF])) =
      some (.ok { sampleOwnerRef with Namespace := [0xEF, 0xBF, 0xBD] }) := by
    rw [decodeToken, Base64.DecodeString_EncodeToString]
    rfl
  refine ⟨_, EncodeOwnerRef_eq _ _, h, ?_⟩
  rw [h]
  intro hc
  exact absurd (congrArg NamespacedOwnerReference.Namespace (Except.ok.inj (Option.some.inj hc)))
    (by decide)

set_option maxRecDepth 100000 in
/-- C2, counterexample. The token of the sample owner reference in namespace `default`
decodes to one flat object whose members are `apiVersion`, `kind`, `name`, `uid`,
`controller` and `Namespace`: there is no member `ownerReference` and no member `namespace`,
and the text differs from the nested format of the specification. -/
theorem EncodeOwnerRef_wire_format_counterexample :
    ∃ token data ms, EncodeOwnerRef sampleOwnerRef (lit "default") = .ok token ∧
      Base64.DecodeString token = some data ∧
      data = lit ("\x7b\"apiVersion\":\"cache.example.com/v1alpha1\",\"kind\":\"Memcached\"," ++
        "\"name\":\"memcached-sample\",\"uid\":\"9c1a6e3f\",\"controller\":true," ++
        "\"Namespace\":\"default\"\x7d") ∧
      data ≠ specTokenJSON sampleOwnerRef (lit "default") ∧
      Json.parseDocument data = .ok (some ms) ∧
      ms.map Prod.fst = [lit "apiVersion", lit "kind", lit "name", lit "uid", lit "controller",
        lit "Namespace"] ∧
      lit "ownerReference" ∉ ms.map Prod.fst ∧ lit "namespace" ∉ ms.map Prod.fst := by
  refine ⟨_, _, [(lit "apiVersion", .str (lit "cache.example.com/v1alpha1")),
      (lit "kind", .str (lit "Memcached")), (lit "name", .str (lit "memcached-sample")),
      (lit "uid", .str (lit "9c1a6e3f")), (lit "controller", .bool true),
      (lit "Namespace", .str (lit "default"))],
    EncodeOwnerRef_eq _ _, Base64.DecodeString_EncodeToString _, ?_, ?_, ?_, ?_, ?_, ?_⟩
  · decide
  · decide
  · rfl
  · decide
  · decide
  · decide

/-- C2, amended. For every owner reference and namespace, the token returned by
`EncodeOwnerRef` is the base64url encoding of one flat JSON object whose members are
`apiVersion`, `kind`, `name` and `uid`, then `controller` and `blockOwnerDeletion` where the
flag is set, then `Namespace`, a string. -/
theorem EncodeOwnerRef_wire_format (ownerRef : OwnerReference) (namespace_ : GoString) :
    ∃ token, EncodeOwnerRef ownerRef namespace_ = .ok token ∧
      token = Base64.EncodeToString (flatTokenJSON ownerRef namespace_) ∧
      Base64.DecodeString token = some (flatTokenJSON ownerRef namespace_) :=
  ⟨_, EncodeOwnerRef_eq _ _, rfl, Base64.DecodeString_EncodeToString _⟩

/-- C1, amended. For every owner reference and namespace whose strings are valid UTF-8,
base64url-decoding the token returned by `EncodeOwnerRef` and JSON-decoding the result into
a `NamespacedOwnerReference` yields exactly the owner reference and namespace that were
encoded. -/
theorem EncodeOwnerRef_roundtrip (foldRune : Nat → Nat) (ownerRef : OwnerReference)
    (namespace_ : GoString) (h : validStrings ownerRef namespace_ = true) :
    ∃ token, EncodeOwnerRef ownerRef namespace_ = .ok token ∧
      decodeToken foldRune token = some (.ok { ownerRef with Namespace := namespace_ }) := by
  refine ⟨_, rfl, ?_⟩
  show decodeToken foldRune (Base64.EncodeToString _) = _
  rw [decodeToken, Base64.DecodeString_EncodeToString]
  simp only []
  rw [Unmarshal_Marshal foldRune ownerRef namespace_ h]

theorem EncodeOwnerRef_roundtrip_witness :
    validStrings sampleOwnerRef (lit "default") = true ∧
      ∃ token, EncodeOwnerRef sampleOwnerRef (lit "default") = .ok token ∧
        decodeToken id token =
          some (.ok { sampleOwnerRef with Namespace := lit "default" }) :=
  ⟨by decide, EncodeOwnerRef_roundtrip id sampleOwnerRef (lit "default") (by decide)⟩

end Kubeconfig

theorem noNL_nil : noNL [] := by simp [noNL]

theorem noNL_append {a b : GoString} : noNL (a ++ b) ↔ noNL a ∧ noNL b := by
  simp [noNL, List.mem_append, not_or]

theorem noNL_of_subset {a b : GoString} (h : ∀ x ∈ a, x ∈ b) (hb : noNL b) : noNL a :=
  fun hm => hb (h _ hm)

theorem noNL_flatMap (f : Byte → GoString) (s : GoString) (hf : ∀ c, c.val ≠ 0x0A → noNL (f c))
    (hs : noNL s) : noNL (s.flatMap f) := by
  intro hm
  rw [List.mem_flatMap] at hm
  obtain ⟨c, hc, hmem⟩ := hm
  have hcn : c.val ≠ 0x0A := by
    intro h
    apply hs
    have : c = 0x0A := Fin.ext h
    rw [← this]
    exact hc
  exact hf c hcn hmem

theorem noNL_flatMap_all (f : Byte → GoString) (s : GoString) (hf : ∀ c, noNL (f c)) :
    noNL (s.flatMap f) := by
  intro hm
  rw [List.mem_flatMap] at hm
  obtain ⟨c, _, hmem⟩ := hm
  exact hf c hmem

namespace Url

set_option maxRecDepth 100000 in
theorem escapeByte_noNL : ∀ (mode : Encoding) (c : Byte), (0x0A : Byte) ∉ escapeByte mode c := by
  intro mode
  cases mode <;> decide

theorem noNL_escape (s : GoString) (mode : Encoding) : noNL (escape s mode) :=
  noNL_flatMap_all _ _ (fun c => escapeByte_noNL mode c)

set_option maxRecDepth 100000 in
theorem validEncoded_byte : ∀ (mode : Encoding),
    ¬ (((0x0A : Byte) ∈ lit "!$&'()*+,;=:@[]%" || !shouldEscape 0x0A mode) = true) := by
  intro mode
  cases mode <;> decide

theorem noNL_of_validEncoded (s : GoString) (mode : Encoding) (h : validEncoded s mode = true) :
    noNL s := by
  intro hm
  have := List.all_eq_true.mp h _ hm
  exact validEncoded_byte mode this

theorem noNL_EscapedPath (u : URL) : noNL u.EscapedPath := by
  unfold URL.EscapedPath
  split_ifs with h1 h2
  · exact noNL_of_validEncoded _ _ h1.2.1
  · decide
  · exact noNL_escape _ _

theorem noNL_EscapedFragment (u : URL) : noNL u.EscapedFragment := by
  unfold URL.EscapedFragment
  split_ifs with h1
  · exact noNL_of_validEncoded _ _ h1.2.1
  · exact noNL_escape _ _

theorem getSchemeLoop_subset (rawURL : GoString) :
    ∀ (l : GoString) (i : Nat) (a b : GoString), getSchemeLoop rawURL i l = some (a, b) →
      (∀ x ∈ a, x ∈ rawURL) ∧ (∀ x ∈ b, x ∈ rawURL) := by
  intro l
  induction l with
  | nil =>
    intro i a b h
    simp only [getSchemeLoop, Option.some.injEq, Prod.mk.injEq] at h
    obtain ⟨rfl, rfl⟩ := h
    exact ⟨fun x hx => absurd hx (List.not_mem_nil _), fun x hx => hx⟩
  | cons c rest ih =>
    intro i a b h
    rw [getSchemeLoop] at h
    split_ifs at h with h1 h2 h3 h4 h5
    · exact ih _ _ _ h
    · simp only [Option.some.injEq, Prod.mk.injEq] at h
      obtain ⟨rfl, rfl⟩ := h
      exact ⟨fun x hx => absurd hx (List.not_mem_nil _), fun x hx => hx⟩
    · exact ih _ _ _ h
    · simp only [Option.some.injEq, Prod.mk.injEq] at h
      obtain ⟨rfl, rfl⟩ := h
      exact ⟨fun x hx => List.mem_of_mem_take hx, fun x hx => List.mem_of_mem_drop hx⟩
    · simp only [Option.some.injEq, Prod.mk.injEq] at h
      obtain ⟨rfl, rfl⟩ := h
      exact ⟨fun x hx => absurd hx (List.not_mem_nil _), fun x hx => hx⟩

theorem noNL_map_lowerByte (s : GoString) (h : noNL s) : noNL (s.map Strings.lowerByte) := by
  intro hm
  rw [List.mem_map] at hm
  obtain ⟨c, hc, hl⟩ := hm
  apply h
  have : c = 0x0A := by
    unfold Strings.lowerByte at hl
    split_ifs at hl with h1
    · exfalso
      have := congrArg Fin.val hl
      have hc := c.isLt
      change (c.val + 32) % 256 = 10 at this
      omega
    · exact hl
  rw [← this]
  exact hc

theorem cut_subset (s : GoString) (sep : Byte) :
    (∀ x ∈ (cut s sep).1, x ∈ s) ∧ (∀ x ∈ (cut s sep).2.1, x ∈ s) := by
  unfold cut
  split_ifs
  · exact ⟨fun x hx => (List.takeWhile_sublist _).subset hx,
      fun x hx => (List.dropWhile_sublist _).subset (List.mem_of_mem_drop hx)⟩
  · exact ⟨fun x hx => hx, fun x hx => absurd hx (List.not_mem_nil _)⟩

theorem splitSchemeQuery_noNL (raw scheme rest rq : GoString) (fq : Bool) (h : noNL raw)
    (hs : splitSchemeQuery raw = some (scheme, rest, fq, rq)) :
    noNL scheme ∧ noNL rest ∧ noNL rq := by
  unfold splitSchemeQuery at hs
  cases hg : getScheme raw with
  | none => rw [hg] at hs; simp at hs
  | some p =>
    obtain ⟨sch, rst⟩ := p
    rw [hg] at hs
    obtain ⟨h1, h2⟩ := getSchemeLoop_subset raw raw 0 sch rst hg
    have hsch : noNL sch := noNL_of_subset h1 h
    have hrst : noNL rst := noNL_of_subset h2 h
    simp only [] at hs
    split_ifs at hs with hc
    · simp only [Option.some.injEq, Prod.mk.injEq] at hs
      obtain ⟨rfl, rfl, _, rfl⟩ := hs
      exact ⟨noNL_map_lowerByte _ hsch,
        noNL_of_subset (fun x hx => (List.dropLast_sublist _).subset hx) hrst, noNL_nil⟩
    · simp only [Option.some.injEq, Prod.mk.injEq] at hs
      obtain ⟨rfl, rfl, _, rfl⟩ := hs
      exact ⟨noNL_map_lowerByte _ hsch, noNL_of_subset (cut_subset rst 0x3F).1 hrst,
        noNL_of_subset (cut_subset rst 0x3F).2 hrst⟩

theorem noNL_of_not_CTL (s : GoString) (h : stringContainsCTLByte s = false) : noNL s := by
  intro hm
  have : stringContainsCTLByte s = true := by
    unfold stringContainsCTLByte
    rw [List.any_eq_true]
    exact ⟨0x0A, hm, by decide⟩
  rw [h] at this
  exact absurd this (by simp)

theorem setPath_fields (u v : URL) (p : GoString) (h : URL.setPath u p = some v) :
    v.Scheme = u.Scheme ∧ v.Opaque = u.Opaque ∧ v.RawQuery = u.RawQuery := by
  unfold URL.setPath at h
  split at h
  · simp at h
  · simp only [Option.some.injEq] at h
    subst h
    exact ⟨rfl, rfl, rfl⟩

theorem setFragment_fields (u v : URL) (p : GoString) (h : URL.setFragment u p = some v) :
    v.Scheme = u.Scheme ∧ v.Opaque = u.Opaque ∧ v.RawQuery = u.RawQuery := by
  unfold URL.setFragment at h
  split at h
  · simp at h
  · simp only [Option.some.injEq] at h
    subst h
    exact ⟨rfl, rfl, rfl⟩

theorem parse_noNL (raw : GoString) (u : URL) (h : parse raw = some u) :
    noNL u.Scheme ∧ noNL u.Opaque ∧ noNL u.RawQuery := by
  unfold parse at h
  split_ifs at h with hctl hstar
  · simp only [Option.some.injEq] at h
    subst h
    exact ⟨noNL_nil, noNL_nil, noNL_nil⟩
  · have hraw : noNL raw := noNL_of_not_CTL raw (by simpa using hctl)
    cases hs : splitSchemeQuery raw with
    | none => rw [hs] at h; simp at h
    | some q =>
      obtain ⟨scheme, rest, fq, rq⟩ := q
      rw [hs] at h
      obtain ⟨n1, n2, n3⟩ := splitSchemeQuery_noNL raw scheme rest rq fq hraw hs
      simp only [] at h
      split_ifs at h with c1 c2 c3 c4
      · simp only [Option.some.injEq] at h
        subst h
        exact ⟨n1, n2, n3⟩
      · cases ha : parseAuthority (List.takeWhile (fun c => c.val ≠ 0x2F) (List.drop 2 rest)) with
        | none => rw [ha] at h; simp at h
        | some q =>
          rw [ha] at h
          simp only [] at h
          obtain ⟨e1, e2, e3⟩ := setPath_fields _ _ _ h
          rw [e1, e2, e3]
          exact ⟨n1, noNL_nil, n3⟩
      · obtain ⟨e1, e2, e3⟩ := setPath_fields _ _ _ h
        rw [e1, e2, e3]
        exact ⟨n1, noNL_nil, n3⟩
      · obtain ⟨e1, e2, e3⟩ := setPath_fields _ _ _ h
        rw [e1, e2, e3]
        exact ⟨n1, noNL_nil, n3⟩

theorem Parse_noNL (raw : GoString) (u : URL) (h : Parse raw = some u) :
    noNL u.Scheme ∧ noNL u.Opaque ∧ noNL u.RawQuery := by
  unfold Parse at h
  cases hp : parse (cut raw 0x23).1 with
  | none => rw [hp] at h; simp at h
  | some v =>
    rw [hp] at h
    simp only [] at h
    have hv := parse_noNL _ _ hp
    split_ifs at h
    · simp only [Option.some.injEq] at h
      subst h
      exact hv
    · obtain ⟨e1, e2, e3⟩ := setFragment_fields _ _ _ h
      rw [e1, e2, e3]
      exact hv

end Url

namespace HtmlTemplate

set_option maxRecDepth 100000 in
theorem htmlReplacement_noNL : ∀ c : Byte, (0x0A : Byte) ∉ (htmlReplacement c).getD [] := by
  decide

theorem noNL_htmlEscaper (s : GoString) (h : noNL s) : noNL (htmlEscaper s) := by
  apply noNL_flatMap _ _ _ h
  intro c hc
  cases hr : htmlReplacement c with
  | none =>
    simp only [Option.getD_none]
    intro hm
    simp only [List.mem_singleton] at hm
    exact hc (congrArg Fin.val hm).symm
  | some r =>
    have := htmlReplacement_noNL c
    rw [hr] at this
    exact this

theorem htmlEscaper_id (s : GoString) (h : ∀ c ∈ s, htmlReplacement c = none) :
    htmlEscaper s = s := by
  induction s with
  | nil => rfl
  | cons c cs ih =>
    simp only [htmlEscaper, List.flatMap_cons, h c (List.mem_cons_self _ _), Option.getD_none]
    have := ih (fun x hx => h x (List.mem_cons_of_mem _ hx))
    simp only [htmlEscaper] at this
    rw [this]
    rfl

end HtmlTemplate

namespace Url

theorem escape_id (s : GoString) (mode : Encoding)
    (h : ∀ c ∈ s, escapeByte mode c = [c]) : escape s mode = s := by
  induction s with
  | nil => rfl
  | cons c cs ih =>
    simp only [escape, List.flatMap_cons, h c (List.mem_cons_self _ _)]
    have := ih (fun x hx => h x (List.mem_cons_of_mem _ hx))
    simp only [escape] at this
    rw [this]
    rfl

theorem noNL_ite (c : Prop) [Decidable c] {a b : GoString} (ha : noNL a) (hb : noNL b) :
    noNL (if c then a else b) := by
  split_ifs
  · exact ha
  · exact hb

theorem noNL_append_of {a b : GoString} (ha : noNL a) (hb : noNL b) : noNL (a ++ b) :=
  noNL_append.mpr ⟨ha, hb⟩

theorem noNL_Userinfo_String (ui : Userinfo) : noNL ui.String := by
  unfold Userinfo.String
  exact noNL_append_of (noNL_escape _ _)
    (noNL_ite _ (noNL_append_of (by decide) (noNL_escape _ _)) noNL_nil)

theorem noNL_authorityString (u : URL) : noNL u.authorityString := by
  unfold URL.authorityString
  have hui : noNL (match u.User with
      | some ui => ui.String ++ lit "@"
      | none => []) := by
    cases u.User with
    | none => exact noNL_nil
    | some ui => exact noNL_append_of (noNL_Userinfo_String ui) (by decide)
  exact noNL_ite _ (noNL_ite _ noNL_nil (noNL_append_of (noNL_append_of
    (noNL_ite _ (by decide) noNL_nil) hui) (noNL_ite _ (noNL_escape _ _) noNL_nil))) noNL_nil

/-- No line break in what `String` writes for a URL whose scheme, opaque part and query
have none. -/
theorem noNL_String (u : URL) (h1 : noNL u.Scheme) (h2 : noNL u.Opaque) (h3 : noNL u.RawQuery) :
    noNL u.String := by
  have hb1 : noNL (if u.Scheme ≠ [] then u.Scheme ++ lit ":" else []) :=
    noNL_ite _ (noNL_append_of h1 (by decide)) noNL_nil
  have hauth := noNL_authorityString u
  have hpath := noNL_EscapedPath u
  have hfrag := noNL_EscapedFragment u
  have hslash : noNL (lit "/") := by decide
  have hdot : noNL (lit "./") := by decide
  have hq : noNL (lit "?") := by decide
  have hh : noNL (lit "#") := by decide
  unfold URL.String
  simp only []
  repeat' first
    | assumption
    | exact noNL_nil
    | apply noNL_ite
    | apply noNL_append_of

end Url

namespace Kubeconfig
open Metav1 HtmlTemplate

set_option maxRecDepth 100000 in
theorem tokenByte_facts : ∀ c : Byte, (Base64.isAlphabetChar c = true ∨ c = Base64.padChar) →
    htmlReplacement c = none ∧ Url.escapeByte .encodeUserPassword c = [c] ∧ c ≠ 0x0A := by
  decide

theorem token_bytes (src : List Byte) :
    ∀ c ∈ Base64.EncodeToString src, Base64.isAlphabetChar c = true ∨ c = Base64.padChar := by
  obtain ⟨body, pad, h1, h2, h3, _⟩ := Base64.EncodeToString_shape src
  intro c hc
  rw [h1] at hc
  rcases List.mem_append.mp hc with hc | hc
  · exact Or.inl (h2 c hc)
  · rcases h3 with h3 | h3 | h3 <;> rw [h3] at hc <;> simp at hc
    · exact Or.inr hc
    · exact Or.inr hc

theorem token_htmlEscaper (src : List Byte) :
    htmlEscaper (Base64.EncodeToString src) = Base64.EncodeToString src :=
  htmlEscaper_id _ (fun c hc => (tokenByte_facts c (token_bytes src c hc)).1)

theorem token_escape (src : List Byte) :
    Url.escape (Base64.EncodeToString src) .encodeUserPassword = Base64.EncodeToString src :=
  Url.escape_id _ _ (fun c hc => (tokenByte_facts c (token_bytes src c hc)).2.1)

theorem token_noNL (src : List Byte) : noNL (Base64.EncodeToString src) :=
  fun hm => (tokenByte_facts _ (token_bytes src _ hm)).2.2 rfl

theorem splitLines_noNL (l : GoString) (h : noNL l) : splitLines l = [l] := by
  induction l with
  | nil => rfl
  | cons c cs ih =>
    have hc : ¬ c.val = 0x0A := by
      intro hc
      apply h
      have : c = 0x0A := Fin.ext hc
      rw [this]
      exact List.mem_cons_self _ _
    have hcs : noNL cs := fun hm => h (List.mem_cons_of_mem _ hm)
    rw [splitLines, if_neg hc, ih hcs]

theorem splitLines_append (l rest : GoString) (h : noNL l) :
    splitLines (l ++ 0x0A :: rest) = l :: splitLines rest := by
  induction l with
  | nil =>
    simp only [List.nil_append]
    rw [splitLines, if_pos (by decide)]
  | cons c cs ih =>
    have hc : ¬ c.val = 0x0A := by
      intro hc
      apply h
      have : c = 0x0A := Fin.ext hc
      rw [this]
      exact List.mem_cons_self _ _
    have hcs : noNL cs := fun hm => h (List.mem_cons_of_mem _ hm)
    rw [List.cons_append, splitLines, if_neg hc, ih hcs]

theorem splitLines_joinLines : ∀ (ls : List GoString), ls ≠ [] → (∀ l ∈ ls, noNL l) →
    splitLines (joinLines ls) = ls := by
  intro ls
  induction ls with
  | nil => intro h; exact absurd rfl h
  | cons l ls ih =>
    intro _ hall
    cases ls with
    | nil =>
      simp only [joinLines]
      exact splitLines_noNL l (hall l (List.mem_cons_self _ _))
    | cons l2 ls2 =>
      rw [joinLines, splitLines_append l _ (hall l (List.mem_cons_self _ _)),
        ih (List.cons_ne_nil _ _) (fun x hx => hall x (List.mem_cons_of_mem _ hx))]
      intro hcontra
      exact absurd hcontra (List.cons_ne_nil _ _)

set_option maxRecDepth 100000 in
/-- The rendered template is the kubeconfig lines joined, with the three values escaped. -/
theorem Execute_kubeConfigTemplate (v : values) :
    Execute v.field kubeConfigTemplate =
      some (joinLines (kubeconfigLines (htmlEscaper v.ProxyURL) (htmlEscaper v.Namespace)
        (htmlEscaper v.Username))) := by
  have h1 : v.field (lit "ProxyURL") = some v.ProxyURL := by
    simp +decide [values.field]
  have h2 : v.field (lit "Namespace") = some v.Namespace := by
    simp +decide [values.field]
  have h3 : v.field (lit "Username") = some v.Username := by
    simp +decide [values.field]
  simp only [kubeConfigTemplate, Execute, h1, h2, h3, kubeconfigLines, joinLines,
    List.append_assoc, List.cons_append, List.nil_append, List.append_nil, Option.some.injEq]
  rfl

theorem kubeconfigLines_noNL (server namespace_ username : GoString) (h1 : noNL server)
    (h2 : noNL namespace_) (h3 : noNL username) :
    ∀ l ∈ kubeconfigLines server namespace_ username, noNL l := by
  intro l hl
  simp only [kubeconfigLines, List.mem_cons, List.mem_singleton, List.not_mem_nil,
    or_false] at hl
  have hp : noNL (lit "/proxy-server") := by decide
  rcases hl with rfl | rfl | rfl | rfl | rfl | rfl | rfl | rfl | rfl | rfl | rfl | rfl | rfl |
    rfl | rfl | rfl | rfl | rfl | rfl | rfl | rfl
  all_goals first
    | decide
    | exact Url.noNL_append_of (by decide) h1
    | exact Url.noNL_append_of (by decide) h3
    | exact Url.noNL_append_of (Url.noNL_append_of (by decide) h2) hp

set_option maxRecDepth 100000 in
/-- What the rendered kubeconfig declares, for values without a line break. -/
theorem declared_kubeconfigLines (server namespace_ username : GoString) (h1 : noNL server)
    (h2 : noNL namespace_) (h3 : noNL username) :
    declared (joinLines (kubeconfigLines server namespace_ username)) =
      some { clusters := 1, insecureSkipTLSVerify := [lit "true"], server := [server],
             users := 1, username := [username], password := [lit "unused"] } := by
  unfold declared
  rw [splitLines_joinLines _ (by simp [kubeconfigLines])
    (kubeconfigLines_noNL server namespace_ username h1 h2 h3)]
  rfl

end Kubeconfig

namespace Url

theorem authorityString_of_user (v : URL) (ui : Userinfo) (hu : v.User = some ui) :
    v.authorityString =
      lit "//" ++ ui.String ++ lit "@" ++
        (if v.Host ≠ [] then escape v.Host .encodeHost else []) := by
  unfold URL.authorityString
  simp [hu]

/-- What `String` writes for a URL that is not opaque and has user information. -/
theorem String_of_user (v : URL) (ui : Userinfo) (hu : v.User = some ui) (hop : v.Opaque = []) :
    v.String =
      (if v.Scheme ≠ [] then v.Scheme ++ lit ":" else []) ++ lit "//" ++ ui.String ++ lit "@" ++
        (if v.Host ≠ [] then escape v.Host .encodeHost else []) ++ v.pathQueryFragment := by
  unfold URL.String URL.pathQueryFragment
  rw [authorityString_of_user v ui hu]
  generalize v.EscapedPath = p
  generalize v.EscapedFragment = fr
  generalize (if v.Scheme ≠ [] then v.Scheme ++ lit ":" else []) = sch
  generalize (if v.Host ≠ [] then escape v.Host .encodeHost else []) = hst
  simp only [hop, ne_eq, not_true_eq_false, if_false]
  have hlen : ¬ ((sch ++ (lit "//" ++ ui.String ++ lit "@" ++ hst)).length = 0) := by
    simp [lit]
  have hlen2 : ¬ ((sch ++ (lit "//" ++ ui.String ++ lit "@" ++ hst) ++ lit "/").length = 0) := by
    simp [lit]
  by_cases h1 : ¬ p = [] ∧ ¬ p.head? = some 0x2F ∧ ¬ v.Host = []
  · simp only [h1, not_false_eq_true, and_self, if_true, hlen2, false_and, if_false]
    by_cases h2 : v.ForceQuery = true ∨ ¬ v.RawQuery = [] <;>
      by_cases h3 : ¬ v.Fragment = [] <;>
      simp only [h2, h3, if_true, if_false, not_false_eq_true, List.append_assoc,
        List.append_nil]
  · simp only [h1, if_false, hlen, false_and]
    by_cases h2 : v.ForceQuery = true ∨ ¬ v.RawQuery = [] <;>
      by_cases h3 : ¬ v.Fragment = [] <;>
      simp only [h2, h3, if_true, if_false, not_false_eq_true, List.append_assoc,
        List.append_nil, List.nil_append]

/-- What `String` writes for a URL that is not opaque once its user information is a user
name that needs no escaping. -/
theorem String_withUser (u : URL) (token : GoString)
    (htok : escape token .encodeUserPassword = token) (hop : u.Opaque = []) :
    ({ u with User := some (User token) } : URL).String =
      (if u.Scheme ≠ [] then u.Scheme ++ lit ":" else []) ++ lit "//" ++ token ++ lit "@" ++
        (if u.Host ≠ [] then escape u.Host .encodeHost else []) ++ u.pathQueryFragment := by
  have h := String_of_user ({ u with User := some (User token) } : URL) (User token) rfl hop
  have ht : (User token).String = token := by
    simp [User, Userinfo.String, htok]
  rw [ht] at h
  exact h

end Url

namespace Kubeconfig
open Metav1 HtmlTemplate

/-- The text `Create` writes for a proxy URL that parses. -/
theorem Create_eq (ownerRef : OwnerReference) (proxyURL namespace_ : GoString) (u : Url.URL)
    (hparse : Url.Parse proxyURL = some u) :
    Create ownerRef proxyURL namespace_ =
      .ok (joinLines (kubeconfigLines
        (htmlEscaper ({ u with User := some (Url.User
          (Base64.EncodeToString (flatTokenJSON ownerRef namespace_))) } : Url.URL).String)
        (htmlEscaper namespace_)
        (Base64.EncodeToString (flatTokenJSON ownerRef namespace_)))) := by
  unfold Create
  rw [hparse]
  simp only [EncodeOwnerRef_eq, Execute_kubeConfigTemplate, token_htmlEscaper]

theorem noNL_serverValue (u : Url.URL) (raw token : GoString) (hparse : Url.Parse raw = some u) :
    noNL (htmlEscaper ({ u with User := some (Url.User token) } : Url.URL).String) := by
  obtain ⟨h1, h2, h3⟩ := Url.Parse_noNL raw u hparse
  exact noNL_htmlEscaper _ (Url.noNL_String _ h1 h2 h3)

set_option maxRecDepth 100000 in
/-- C4, counterexample. A namespace with line breaks that spells out a `clusters` section of
its own is copied into the kubeconfig, which then declares two clusters, neither with
`insecure-skip-tls-verify`. -/
theorem Create_declares_counterexample :
    ∃ text d, Create sampleOwnerRef (lit "http://localhost:8888") injectedNamespace = .ok text ∧
      declared text = some d ∧ d.clusters = 2 ∧ d.insecureSkipTLSVerify = [] ∧
      d.server = [lit "http://a", lit "http://b"] := by
  have hp : Url.Parse (lit "http://localhost:8888") = some sampleProxyURL := by decide
  refine ⟨_, Declared.mk 2 [] [lit "http://a", lit "http://b"] 1
      [Base64.EncodeToString (flatTokenJSON sampleOwnerRef injectedNamespace)]
      [lit "unused"], Create_eq _ _ _ _ hp, ?_, rfl, rfl, rfl⟩
  decide

/-- C4, amended. For every owner reference, every parseable proxy URL and every namespace
without a line break, the kubeconfig text that `Create` writes declares exactly one cluster,
with `insecure-skip-tls-verify` set to `true`, and exactly one user, whose username is the
string `EncodeOwnerRef(ownerRef, namespace)` unchanged and whose password is the literal
`unused`. -/
theorem Create_declares (ownerRef : OwnerReference) (proxyURL namespace_ : GoString)
    (u : Url.URL) (hparse : Url.Parse proxyURL = some u) (hns : noNL namespace_) :
    ∃ text token d, Create ownerRef proxyURL namespace_ = .ok text ∧
      EncodeOwnerRef ownerRef namespace_ = .ok token ∧
      declared text = some d ∧
      d.clusters = 1 ∧ d.insecureSkipTLSVerify = [lit "true"] ∧
      d.users = 1 ∧ d.username = [token] ∧ d.password = [lit "unused"] := by
  refine ⟨_, _, _, Create_eq ownerRef proxyURL namespace_ u hparse, EncodeOwnerRef_eq _ _,
    declared_kubeconfigLines _ _ _ (noNL_serverValue u proxyURL _ hparse)
      (noNL_htmlEscaper _ hns) (token_noNL _), rfl, rfl, rfl, rfl, rfl⟩

set_option maxRecDepth 100000 in
theorem Create_declares_witness :
    Url.Parse (lit "http://localhost:8888") = some sampleProxyURL ∧ noNL (lit "default") ∧
    ∃ text token d, Create sampleOwnerRef (lit "http://localhost:8888") (lit "default") = .ok text ∧
      EncodeOwnerRef sampleOwnerRef (lit "default") = .ok token ∧
      declared text = some d ∧
      d.clusters = 1 ∧ d.insecureSkipTLSVerify = [lit "true"] ∧
      d.users = 1 ∧ d.username = [token] ∧ d.password = [lit "unused"] :=
  ⟨by decide, by decide,
    Create_declares sampleOwnerRef (lit "http://localhost:8888") (lit "default") sampleProxyURL
      (by decide) (by decide)⟩

set_option maxRecDepth 100000 in
/-- C5, counterexample. The proxy URL `localhost:8888` parses to an opaque URL (scheme
`localhost`); `String` leaves the user information of an opaque URL out, so the `server`
value is `localhost:8888` and holds no user name. And for `http://localhost:8888/a+b` the
path of the `server` value is changed by the HTML escaping of the template to
`/a&#43;b`. -/
theorem Create_server_counterexample :
    (∃ text d, Create sampleOwnerRef (lit "localhost:8888") (lit "default") = .ok text ∧
      declared text = some d ∧ d.username = [sampleToken] ∧
      d.server = [lit "localhost:8888"] ∧ (0x40 : Byte) ∉ lit "localhost:8888") ∧
    (∃ text d, Create sampleOwnerRef (lit "http://localhost:8888/a+b") (lit "default") = .ok text ∧
      declared text = some d ∧ d.username = [sampleToken] ∧
      d.server = [lit "http://" ++ sampleToken ++ lit "@localhost:8888/a&#43;b"]) := by
  have hp1 : Url.Parse (lit "localhost:8888") =
      some { Url.URL.zero with Scheme := lit "localhost", Opaque := lit "8888" } := by decide
  have hp2 : Url.Parse (lit "http://localhost:8888/a+b") =
      some { sampleProxyURL with Path := lit "/a+b" } := by decide
  refine ⟨⟨_, Declared.mk 1 [lit "true"] [lit "localhost:8888"] 1 [sampleToken] [lit "unused"],
      Create_eq _ _ _ _ hp1, ?_, rfl, rfl, by decide⟩,
    ⟨_, Declared.mk 1 [lit "true"]
      [lit "http://" ++ sampleToken ++ lit "@localhost:8888/a&#43;b"] 1 [sampleToken]
      [lit "unused"], Create_eq _ _ _ _ hp2, ?_, rfl, rfl⟩⟩
  · decide
  · decide

/-- C5, amended. For every owner reference, every namespace without a line break and every
proxy URL that parses to a URL that is not opaque and whose text, with the owner token as
user information, holds none of the characters the template escapes, the cluster `server`
value in the kubeconfig written by `Create` is that text: the scheme, `//`, the encoded
owner token (the same string as the `username` field), `@`, the host with its port, and the
path, query and fragment of the proxy URL. -/
theorem Create_server (ownerRef : OwnerReference) (proxyURL namespace_ token : GoString)
    (u : Url.URL) (hparse : Url.Parse proxyURL = some u)
    (htoken : EncodeOwnerRef ownerRef namespace_ = .ok token) (hns : noNL namespace_)
    (hop : u.Opaque = [])
    (hhtml : ∀ c ∈ ({ u with User := some (Url.User token) } : Url.URL).String,
      htmlReplacement c = none) :
    ∃ text d, Create ownerRef proxyURL namespace_ = .ok text ∧
      declared text = some d ∧ d.username = [token] ∧
      d.server = [({ u with User := some (Url.User token) } : Url.URL).String] ∧
      ({ u with User := some (Url.User token) } : Url.URL).String =
        (if u.Scheme ≠ [] then u.Scheme ++ lit ":" else []) ++ lit "//" ++ token ++ lit "@" ++
          (if u.Host ≠ [] then Url.escape u.Host .encodeHost else []) ++
          u.pathQueryFragment := by
  have ht : token = Base64.EncodeToString (flatTokenJSON ownerRef namespace_) := by
    rw [EncodeOwnerRef_eq] at htoken
    exact (Except.ok.inj htoken).symm
  subst ht
  refine ⟨_, _, Create_eq ownerRef proxyURL namespace_ u hparse,
    declared_kubeconfigLines _ _ _ (noNL_serverValue u proxyURL _ hparse)
      (noNL_htmlEscaper _ hns) (token_noNL _), rfl, ?_, ?_⟩
  · simp only [htmlEscaper_id _ hhtml]
  · exact Url.String_withUser u _ (token_escape _) hop

set_option maxRecDepth 100000 in
theorem Create_server_witness :
    Url.Parse (lit "http://localhost:8888") = some sampleProxyURL ∧
    EncodeOwnerRef sampleOwnerRef (lit "default") = .ok sampleToken ∧
    noNL (lit "default") ∧ sampleProxyURL.Opaque = [] ∧
    (∀ c ∈ ({ sampleProxyURL with User := some (Url.User sampleToken) } : Url.URL).String,
      htmlReplacement c = none) ∧
    ∃ text d, Create sampleOwnerRef (lit "http://localhost:8888") (lit "default") = .ok text ∧
      declared text = some d ∧ d.username = [sampleToken] ∧
      d.server = [({ sampleProxyURL with User := some (Url.User sampleToken) } : Url.URL).String] ∧
      ({ sampleProxyURL with User := some (Url.User sampleToken) } : Url.URL).String =
        (if sampleProxyURL.Scheme ≠ [] then sampleProxyURL.Scheme ++ lit ":" else []) ++
          lit "//" ++ sampleToken ++ lit "@" ++
          (if sampleProxyURL.Host ≠ [] then Url.escape sampleProxyURL.Host .encodeHost else []) ++
          sampleProxyURL.pathQueryFragment :=
  ⟨by decide, by rw [EncodeOwnerRef_eq]; exact congrArg _ (by decide), by decide, rfl, by decide,
    Create_server sampleOwnerRef (lit "http://localhost:8888") (lit "default") sampleToken
      sampleProxyURL (by decide) (by rw [EncodeOwnerRef_eq]; exact congrArg _ (by decide))
      (by decide) rfl (by decide)⟩

end Kubeconfig

namespace Handler
open Metav1 Schema

theorem GetControllerOfNoCopy_eq_find (refs : List OwnerReference) :
    GetControllerOfNoCopy refs = refs.find? (fun r => r.Controller = some true) := by
  induction refs with
  | nil => rfl
  | cons r rs ih =>
    simp only [GetControllerOfNoCopy, List.find?_cons]
    by_cases h : r.Controller = some true
    · simp [h]
    · simp [h, ih]

theorem GetControllerOf_eq_find (obj : Object) :
    GetControllerOf obj = obj.OwnerReferences.find? (fun r => r.Controller = some true) := by
  simp only [GetControllerOf, GetControllerOfNoCopy_eq_find]
  cases h : obj.OwnerReferences.find? (fun r => r.Controller = some true) with
  | none => rfl
  | some r =>
    rcases r with ⟨av, k, n, u, c, b⟩
    cases b <;> simp

/-- C7. `getOwnersReferences` returns no references for a nil object; without the
controller filter it returns all owner references of the object in their order; with the
filter it returns only the first owner reference whose Controller flag is true, and none
when no reference has the flag set. -/
theorem getOwnersReferences_spec (e : enqueueRequestForOwner) (obj : Object) :
    getOwnersReferences e none = [] ∧
    getOwnersReferences { e with isController := false } (some obj) = obj.OwnerReferences ∧
    getOwnersReferences { e with isController := true } (some obj) =
      (obj.OwnerReferences.find? (fun r => r.Controller = some true)).toList ∧
    ((obj.OwnerReferences.all (fun r => r.Controller != some true)) = true →
      getOwnersReferences { e with isController := true } (some obj) = []) := by
  refine ⟨rfl, rfl, ?_, ?_⟩
  · simp only [getOwnersReferences, GetControllerOf_eq_find]
    cases obj.OwnerReferences.find? (fun r => r.Controller = some true) <;> rfl
  · intro h
    simp only [getOwnersReferences, GetControllerOf_eq_find]
    have : obj.OwnerReferences.find? (fun r => r.Controller = some true) = none := by
      rw [List.find?_eq_none]
      intro x hx
      have := List.all_eq_true.mp h x hx
      simpa using this
    rw [this]
    rfl

theorem getOwnersReferences_spec_witness :
    getOwnersReferences sampleHandler (some sampleObject) = [Kubeconfig.sampleOwnerRef] ∧
    getOwnersReferences { sampleHandler with isController := false } (some sampleObject) =
      sampleObject.OwnerReferences := by
  have h := getOwnersReferences_spec sampleHandler sampleObject
  refine ⟨?_, h.2.1⟩
  have h3 := h.2.2.1
  exact h3.trans (by decide)

theorem mem_store (result : RequestSet) (request req : Request) :
    req ∈ result.store request ↔ req ∈ result ∨ req = request := by
  unfold RequestSet.store
  by_cases h : request ∈ result
  · rw [if_pos h]
    constructor
    · exact Or.inl
    · rintro (h1 | h1)
      · exact h1
      · rw [h1]; exact h
  · rw [if_neg h]
    simp

/-- Without an early return the loop stores the request of every matching reference, in
order, and nothing else. -/
theorem ownerLoop_eq_foldl (e : enqueueRequestForOwner) (object : Option Object) :
    ∀ (refs : List OwnerReference) (result : RequestSet),
      (∀ ref ∈ refs, resolvable e ref = true) →
      ownerLoop e object refs result =
        (refs.filter (matchesOwnerType e)).foldl
          (fun acc ref => acc.store (requestFor e object ref)) result := by
  intro refs
  induction refs with
  | nil => intro result _; rfl
  | cons ref refs ih =>
    intro result h
    have hres := h ref (List.mem_cons_self _ _)
    simp only [resolvable, Bool.and_eq_true, Option.isSome_iff_exists] at hres
    obtain ⟨⟨gv, hgv⟩, m, hmap⟩ := hres
    simp only [refVersion, hgv] at hmap
    have ih' := fun r => ih r (fun x hx => h x (List.mem_cons_of_mem _ hx))
    rw [ownerLoop, hgv]
    simp only []
    by_cases hmatch : ref.Kind = e.groupKind.Kind ∧ gv.Group = e.groupKind.Group
    · have hmt : matchesOwnerType e ref = true := by
        simp [matchesOwnerType, refGroup, hgv, hmatch.1, hmatch.2]
      rw [if_pos hmatch, hmap]
      simp only []
      rw [ih', List.filter_cons, if_pos hmt, List.foldl_cons]
      simp only [requestFor, refVersion, hgv, hmap]
    · have hmt : matchesOwnerType e ref = false := by
        simp only [matchesOwnerType, refGroup, hgv, Option.map_some', Option.some.injEq,
          Bool.and_eq_false_iff, decide_eq_false_iff_not]
        by_cases hk : ref.Kind = e.groupKind.Kind
        · exact Or.inr (fun hg => hmatch ⟨hk, hg⟩)
        · exact Or.inl hk
      rw [if_neg hmatch, ih', List.filter_cons, if_neg (by simp [hmt])]

theorem mem_foldl_store (f : OwnerReference → Request) (refs : List OwnerReference) :
    ∀ (result : RequestSet) (req : Request),
      req ∈ refs.foldl (fun acc ref => acc.store (f ref)) result ↔
        req ∈ result ∨ ∃ ref ∈ refs, req = f ref := by
  induction refs with
  | nil => intro result req; simp
  | cons r rs ih =>
    intro result req
    rw [List.foldl_cons, ih, mem_store]
    constructor
    · rintro ((h | h) | ⟨x, hx, h⟩)
      · exact Or.inl h
      · exact Or.inr ⟨r, List.mem_cons_self _ _, h⟩
      · exact Or.inr ⟨x, List.mem_cons_of_mem _ hx, h⟩
    · rintro (h | ⟨x, hx, h⟩)
      · exact Or.inl (Or.inl h)
      · rcases List.mem_cons.mp hx with hx | hx
        · exact Or.inl (Or.inr (hx ▸ h))
        · exact Or.inr ⟨x, hx, h⟩

/-- C8. For an object whose considered owner references all have a parseable APIVersion
and a resolvable REST mapping, `getOwnerReconcileRequest` stores a
request for a reference exactly when the reference's Kind equals the owner type's Kind and
the group parsed from its APIVersion equals the owner type's Group: the result is the
requests of the matching references added in order, a request is in the result exactly when
it was there before or belongs to a matching reference, and two references with the same
Kind and the same APIVersion group are matched alike whatever their version and UID. -/
theorem getOwnerReconcileRequest_matches (e : enqueueRequestForOwner) (object : Option Object)
    (result : RequestSet)
    (h : ∀ ref ∈ getOwnersReferences e object, resolvable e ref = true) :
    getOwnerReconcileRequest e object result =
        ((getOwnersReferences e object).filter (matchesOwnerType e)).foldl
          (fun acc ref => acc.store (requestFor e object ref)) result ∧
    (∀ req, req ∈ getOwnerReconcileRequest e object result ↔
      req ∈ result ∨ ∃ ref ∈ getOwnersReferences e object,
        (ref.Kind = e.groupKind.Kind ∧ refGroup ref = some e.groupKind.Group) ∧
          req = requestFor e object ref) ∧
    (∀ r1 r2 : OwnerReference, r1.Kind = r2.Kind → refGroup r1 = refGroup r2 →
      matchesOwnerType e r1 = matchesOwnerType e r2) := by
  have heq := ownerLoop_eq_foldl e object (getOwnersReferences e object) result h
  refine ⟨heq, ?_, ?_⟩
  · intro req
    rw [getOwnerReconcileRequest, heq, mem_foldl_store]
    constructor
    · rintro (h1 | ⟨ref, href, hreq⟩)
      · exact Or.inl h1
      · rw [List.mem_filter] at href
        refine Or.inr ⟨ref, href.1, ?_, hreq⟩
        simpa [matchesOwnerType] using href.2
    · rintro (h1 | ⟨ref, href, hm, hreq⟩)
      · exact Or.inl h1
      · refine Or.inr ⟨ref, ?_, hreq⟩
        rw [List.mem_filter]
        exact ⟨href, by simpa [matchesOwnerType] using hm⟩
  · intro r1 r2 hk hg
    simp only [matchesOwnerType, hk, hg]

theorem getOwnerReconcileRequest_matches_witness :
    (∀ ref ∈ getOwnersReferences { sampleHandler with isController := false } (some sampleObject),
      resolvable { sampleHandler with isController := false } ref = true) ∧
    getOwnerReconcileRequest { sampleHandler with isController := false } (some sampleObject) [] =
      [{ Namespace := lit "default", Name := lit "memcached-sample" }] :=
  ⟨by decide, ((getOwnerReconcileRequest_matches { sampleHandler with isController := false }
    (some sampleObject) [] (by decide)).1).trans (by decide)⟩

theorem ownerLoop_request (e : enqueueRequestForOwner) (object : Option Object) :
    ∀ (refs : List OwnerReference) (result : RequestSet) (req : Request),
      req ∈ ownerLoop e object refs result → req ∉ result →
      ∃ ref ∈ refs, ∃ gv mapping, ParseGroupVersion ref.APIVersion = some gv ∧
        e.mapper e.groupKind [gv.Version] = some mapping ∧
        ref.Kind = e.groupKind.Kind ∧ gv.Group = e.groupKind.Group ∧
        req.Name = ref.Name ∧
        req.Namespace =
          if mapping.ScopeName ≠ RESTScopeNameRoot then GetNamespace object else [] := by
  intro refs
  induction refs with
  | nil =>
    intro result req h hn
    exact absurd h hn
  | cons ref refs ih =>
    intro result req h hn
    rw [ownerLoop] at h
    cases hgv : ParseGroupVersion ref.APIVersion with
    | none =>
      rw [hgv] at h
      exact absurd h hn
    | some gv =>
      rw [hgv] at h
      simp only [] at h
      by_cases hmatch : ref.Kind = e.groupKind.Kind ∧ gv.Group = e.groupKind.Group
      · rw [if_pos hmatch] at h
        cases hmap : e.mapper e.groupKind [gv.Version] with
        | none =>
          rw [hmap] at h
          exact absurd h hn
        | some mapping =>
          rw [hmap] at h
          simp only [] at h
          by_cases hreq : req = { Name := ref.Name, Namespace :=
              if mapping.ScopeName ≠ RESTScopeNameRoot then GetNamespace object else [] }
          · refine ⟨ref, List.mem_cons_self _ _, gv, mapping, hgv, hmap, hmatch.1, hmatch.2, ?_, ?_⟩
            · rw [hreq]
            · rw [hreq]
          · have hn' : req ∉ RequestSet.store result { Name := ref.Name, Namespace :=
                if mapping.ScopeName ≠ RESTScopeNameRoot then GetNamespace object else [] } := by
              rw [mem_store]
              rintro (h1 | h1)
              · exact hn h1
              · exact hreq h1
            obtain ⟨r, hr, rest⟩ := ih _ req h hn'
            exact ⟨r, List.mem_cons_of_mem _ hr, rest⟩
      · rw [if_neg hmatch] at h
        obtain ⟨r, hr, rest⟩ := ih _ req h hn
        exact ⟨r, List.mem_cons_of_mem _ hr, rest⟩

/-- C9. Every request that `getOwnerReconcileRequest` adds belongs to a considered owner
reference that matches the owner type: its name is that reference's Name, and its namespace
is the namespace of the event object when the REST mapping of the owner kind is
namespace-scoped (any scope other than root) and is empty when the mapping has root
scope. -/
theorem getOwnerReconcileRequest_request (e : enqueueRequestForOwner) (object : Option Object)
    (result : RequestSet) (req : Request)
    (hreq : req ∈ getOwnerReconcileRequest e object result) (hnew : req ∉ result) :
    ∃ ref ∈ getOwnersReferences e object, ∃ gv mapping,
      ParseGroupVersion ref.APIVersion = some gv ∧
      e.mapper e.groupKind [gv.Version] = some mapping ∧
      ref.Kind = e.groupKind.Kind ∧ gv.Group = e.groupKind.Group ∧
      req.Name = ref.Name ∧
      (mapping.ScopeName = RESTScopeNameNamespace → req.Namespace = GetNamespace object) ∧
      (mapping.ScopeName ≠ RESTScopeNameRoot → req.Namespace = GetNamespace object) ∧
      (mapping.ScopeName = RESTScopeNameRoot → req.Namespace = []) := by
  obtain ⟨ref, href, gv, mapping, hgv, hmap, hk, hg, hname, hns⟩ :=
    ownerLoop_request e object _ result req hreq hnew
  refine ⟨ref, href, gv, mapping, hgv, hmap, hk, hg, hname, ?_, ?_, ?_⟩
  · intro hs
    have : mapping.ScopeName ≠ RESTScopeNameRoot := by
      rw [hs]
      decide
    rw [hns, if_pos this]
  · intro hs
    rw [hns, if_pos hs]
  · intro hs
    rw [hns, if_neg (by simpa using hs)]

theorem getOwnerReconcileRequest_request_witness :
    ({ Namespace := lit "default", Name := lit "memcached-sample" } : Request) ∈
        getOwnerReconcileRequest sampleHandler (some sampleObject) [] ∧
    ({ Namespace := lit "default", Name := lit "memcached-sample" } : Request) ∉
        ([] : RequestSet) ∧
    ∃ ref ∈ getOwnersReferences sampleHandler (some sampleObject), ∃ gv mapping,
      ParseGroupVersion ref.APIVersion = some gv ∧
      sampleHandler.mapper sampleHandler.groupKind [gv.Version] = some mapping ∧
      ref.Kind = sampleHandler.groupKind.Kind ∧ gv.Group = sampleHandler.groupKind.Group ∧
      lit "memcached-sample" = ref.Name ∧
      (mapping.ScopeName = RESTScopeNameNamespace → lit "default" = GetNamespace (some sampleObject)) ∧
      (mapping.ScopeName ≠ RESTScopeNameRoot → lit "default" = GetNamespace (some sampleObject)) ∧
      (mapping.ScopeName = RESTScopeNameRoot → lit "default" = []) :=
  ⟨by decide, by decide, getOwnerReconcileRequest_request sampleHandler (some sampleObject) []
    { Namespace := lit "default", Name := lit "memcached-sample" } (by decide) (by decide)⟩

end Handler

namespace Strings

theorem map_lowerByte_of_casing : ∀ (word s : GoString),
    (word.all (fun c => decide (c.val < 0x80) && !(decide (0x41 ≤ c.val) && decide (c.val ≤ 0x5A)))) = true →
    s.length = word.length →
    ((s.zip word).all (fun p => p.1 = p.2 ||
      (decide (0x61 ≤ p.2.val) && decide (p.2.val ≤ 0x7A) && decide (p.1.val + 0x20 = p.2.val)))) = true →
    s.map lowerByte = word ∧ (s.all (fun c => decide (c.val < 0x80))) = true := by
  intro word
  induction word with
  | nil =>
    intro s _ hl _
    have : s = [] := List.length_eq_zero.mp hl
    subst this
    exact ⟨rfl, rfl⟩
  | cons w ws ih =>
    intro s hw hl hz
    cases s with
    | nil => simp at hl
    | cons a as =>
      simp only [List.all_cons, Bool.and_eq_true, List.zip_cons_cons, List.length_cons,
        Nat.add_right_cancel_iff] at hw hl hz
      obtain ⟨hmap, hall⟩ := ih as hw.2 hl hz.2
      have ha := a.isLt
      have hwv := w.isLt
      have hw1 := hw.1
      have hz1 := hz.1
      simp only [Bool.or_eq_true, Bool.and_eq_true, decide_eq_true_eq, Bool.not_eq_true',
        Bool.and_eq_false_iff, decide_eq_false_iff_not] at hw1 hz1
      have hlow : lowerByte a = w := by
        unfold lowerByte
        rcases hz1 with h | h
        · subst h
          rw [if_neg (by omega)]
        · rw [if_pos (by omega)]
          apply Fin.ext
          show (a.val + 0x20) % 256 = w.val
          omega
      have hasc : a.val < 0x80 := by
        rcases hz1 with h | h
        · subst h; exact hw1.1
        · omega
      refine ⟨?_, ?_⟩
      · rw [List.map_cons, hlow, hmap]
      · simp only [List.all_cons, hall, Bool.and_true, decide_eq_true_eq]
        exact hasc

theorem map_lowerByte_id : ∀ (s : GoString),
    (s.any (fun c => decide (0x41 ≤ c.val) && decide (c.val ≤ 0x5A))) = false →
    s.map lowerByte = s := by
  intro s
  induction s with
  | nil => intro _; rfl
  | cons a as ih =>
    intro h
    simp only [List.any_cons, Bool.or_eq_false_iff, Bool.and_eq_false_iff,
      decide_eq_false_iff_not] at h
    rw [List.map_cons, ih h.2]
    unfold lowerByte
    rw [if_neg (by omega)]

/-- Every casing of a lower-case ASCII word lower-cases to the word. -/
theorem ToLower_of_casing (mapLower : GoString → GoString) (word s : GoString)
    (hw : (word.all (fun c => decide (c.val < 0x80) &&
      !(decide (0x41 ≤ c.val) && decide (c.val ≤ 0x5A)))) = true)
    (h : isCasingOf word s = true) : ToLower mapLower s = word := by
  simp only [isCasingOf, Bool.and_eq_true, decide_eq_true_eq] at h
  obtain ⟨hmap, hall⟩ := map_lowerByte_of_casing word s hw h.1 h.2
  simp only [ToLower, hall, if_true]
  by_cases hu : (s.any (fun c => decide (0x41 ≤ c.val) && decide (c.val ≤ 0x5A))) = true
  · rw [if_neg (by simp [hu])]
    exact hmap
  · have hu' : (s.any (fun c => decide (0x41 ≤ c.val) && decide (c.val ≤ 0x5A))) = false := by
      simpa using hu
    rw [if_pos (by simp [hu'])]
    rw [← hmap]
    exact (map_lowerByte_id s hu').symm

end Strings

namespace Run
open Schema

/-- C6. `getAnsibleEventsToLog` maps the flag value case-insensitively: the result is
`Everything` exactly when the lower-cased value is `everything`, `Nothing` exactly when it
is `nothing`, and `Tasks`, the default, for every other value; every casing of `everything`
gives `Everything`, every casing of `nothing` gives `Nothing`, and the empty string gives
`Tasks`. -/
theorem getAnsibleEventsToLog_spec (mapLower : GoString → GoString) (f : Flags) :
    (getAnsibleEventsToLog mapLower f = LogLevel.Everything ↔
      Strings.ToLower mapLower f.AnsibleLogEvents = lit "everything") ∧
    (getAnsibleEventsToLog mapLower f = LogLevel.Nothing ↔
      Strings.ToLower mapLower f.AnsibleLogEvents = lit "nothing") ∧
    (getAnsibleEventsToLog mapLower f = LogLevel.Tasks ↔
      (Strings.ToLower mapLower f.AnsibleLogEvents ≠ lit "everything" ∧
        Strings.ToLower mapLower f.AnsibleLogEvents ≠ lit "nothing")) ∧
    (Strings.isCasingOf (lit "everything") f.AnsibleLogEvents = true →
      getAnsibleEventsToLog mapLower f = LogLevel.Everything) ∧
    (Strings.isCasingOf (lit "nothing") f.AnsibleLogEvents = true →
      getAnsibleEventsToLog mapLower f = LogLevel.Nothing) ∧
    (f.AnsibleLogEvents = [] → getAnsibleEventsToLog mapLower f = LogLevel.Tasks) := by
  have hiff : (getAnsibleEventsToLog mapLower f = LogLevel.Everything ↔
      Strings.ToLower mapLower f.AnsibleLogEvents = lit "everything") ∧
    (getAnsibleEventsToLog mapLower f = LogLevel.Nothing ↔
      Strings.ToLower mapLower f.AnsibleLogEvents = lit "nothing") ∧
    (getAnsibleEventsToLog mapLower f = LogLevel.Tasks ↔
      (Strings.ToLower mapLower f.AnsibleLogEvents ≠ lit "everything" ∧
        Strings.ToLower mapLower f.AnsibleLogEvents ≠ lit "nothing")) := by
    unfold getAnsibleEventsToLog
    by_cases h1 : Strings.ToLower mapLower f.AnsibleLogEvents = lit "everything"
    · rw [if_pos h1]
      have h2 : lit "everything" ≠ lit "nothing" := by decide
      simp [h1, h2]
    · rw [if_neg h1]
      by_cases h2 : Strings.ToLower mapLower f.AnsibleLogEvents = lit "nothing"
      · rw [if_pos h2]
        have h3 : lit "nothing" ≠ lit "everything" := by decide
        simp [h2, h3]
      · rw [if_neg h2]
        simp [h1, h2]
  refine ⟨hiff.1, hiff.2.1, hiff.2.2, ?_, ?_, ?_⟩
  · intro hc
    exact hiff.1.mpr (Strings.ToLower_of_casing mapLower _ _ (by decide) hc)
  · intro hc
    exact hiff.2.1.mpr (Strings.ToLower_of_casing mapLower _ _ (by decide) hc)
  · intro he
    apply hiff.2.2.mpr
    rw [he]
    have h0 : Strings.ToLower mapLower [] = [] := rfl
    rw [h0]
    exact ⟨by decide, by decide⟩

theorem getAnsibleEventsToLog_spec_witness :
    Strings.isCasingOf (lit "everything") (lit "EveryThing") = true ∧
    getAnsibleEventsToLog id { sampleFlags with AnsibleLogEvents := lit "EveryThing" } =
      LogLevel.Everything ∧
    Strings.isCasingOf (lit "nothing") (lit "NOTHING") = true ∧
    getAnsibleEventsToLog id { sampleFlags with AnsibleLogEvents := lit "NOTHING" } =
      LogLevel.Nothing ∧
    getAnsibleEventsToLog id { sampleFlags with AnsibleLogEvents := lit "verbose" } =
      LogLevel.Tasks :=
  ⟨by decide,
   (getAnsibleEventsToLog_spec id { sampleFlags with AnsibleLogEvents := lit "EveryThing" }).2.2.2.1
     (by decide),
   by decide,
   (getAnsibleEventsToLog_spec id { sampleFlags with AnsibleLogEvents := lit "NOTHING" }).2.2.2.2.1
     (by decide),
   (getAnsibleEventsToLog_spec id { sampleFlags with AnsibleLogEvents := lit "verbose" }).2.2.1.mpr
     ⟨by decide, by decide⟩⟩

/-- Invariant of the watch loop: what it hands to `controller.Add`. -/
theorem watchLoop_added {ρ κ σ : Type} (mapLower : GoString → GoString) (f : Flags)
    (deps : Deps ρ κ σ) :
    ∀ (ws : List (Watch σ)) (st : LoopState ρ κ σ),
      (∀ p ∈ (watchLoop mapLower f deps ws st).1.added, p ∈ st.added ∨
        (p.1 ∈ ws ∧ p.2.GVK = p.1.GroupVersionKind ∧
          p.2.ReconcilePeriod =
            if p.1.ReconcilePeriod ≠ 0 then p.1.ReconcilePeriod else f.ReconcilePeriod)) ∧
      ((watchLoop mapLower f deps ws st).2 = none →
        (watchLoop mapLower f deps ws st).1.added.map Prod.fst =
          st.added.map Prod.fst ++ ws) := by
  intro ws
  induction ws with
  | nil =>
    intro st
    exact ⟨fun p hp => Or.inl hp, fun _ => by simp [watchLoop]⟩
  | cons w ws ih =>
    intro st
    rw [watchLoop]
    simp only []
    cases hr : deps.newRunner w f.AnsibleArgs with
    | none =>
      simp only []
      exact ⟨fun p hp => Or.inl hp, fun h => by simp at h⟩
    | some runner =>
      simp only []
      split
      · refine ⟨?_, fun h => by simp at h⟩
        intro p hp
        simp only [List.mem_append, List.mem_singleton] at hp
        rcases hp with hp | hp
        · exact Or.inl hp
        · subst hp
          exact Or.inr ⟨List.mem_cons_self _ _, rfl, rfl⟩
      · rename_i ctr hctr
        obtain ⟨h1, h2⟩ := ih
          { added := st.added ++ [(w, _)], cMap := st.cMap.Store w.GroupVersionKind _ _ }
        refine ⟨?_, ?_⟩
        · intro p hp
          rcases h1 p hp with hp1 | ⟨hp1, hp2⟩
          · simp only [List.mem_append, List.mem_singleton] at hp1
            rcases hp1 with hp1 | hp1
            · exact Or.inl hp1
            · subst hp1
              exact Or.inr ⟨List.mem_cons_self _ _, rfl, rfl⟩
          · exact Or.inr ⟨List.mem_cons_of_mem _ hp1, hp2⟩
        · intro hnone
          rw [h2 hnone]
          simp

/-- C10. For every loaded watch, the reconcile period handed to the watch's controller is
the watch's own ReconcilePeriod when it is non-zero, and the `--reconcile-period` flag value
when the watch's period is zero; a loop that does not exit hands options to
`controller.Add` for every loaded watch, in order. -/
theorem watchLoop_reconcilePeriod {ρ κ σ : Type} (mapLower : GoString → GoString) (f : Flags)
    (deps : Deps ρ κ σ) (ws : List (Watch σ)) :
    (∀ p ∈ (watchLoop mapLower f deps ws LoopState.init).1.added,
      p.1 ∈ ws ∧ p.2.GVK = p.1.GroupVersionKind ∧
      (p.1.ReconcilePeriod ≠ 0 → p.2.ReconcilePeriod = p.1.ReconcilePeriod) ∧
      (p.1.ReconcilePeriod = 0 → p.2.ReconcilePeriod = f.ReconcilePeriod)) ∧
    ((watchLoop mapLower f deps ws LoopState.init).2 = none →
      (watchLoop mapLower f deps ws LoopState.init).1.added.map Prod.fst = ws) := by
  obtain ⟨h1, h2⟩ := watchLoop_added mapLower f deps ws LoopState.init
  refine ⟨?_, ?_⟩
  · intro p hp
    rcases h1 p hp with hp1 | ⟨hp1, hp2, hp3⟩
    · simp [LoopState.init] at hp1
    · refine ⟨hp1, hp2, ?_, ?_⟩
      · intro hne
        rw [hp3, if_pos hne]
      · intro he
        rw [hp3, if_neg (by simpa using he)]
  · intro hnone
    have := h2 hnone
    simpa [LoopState.init] using this

theorem watchLoop_reconcilePeriod_witness :
    (watchLoop id sampleFlags sampleDeps sampleWatches LoopState.init).2 = none ∧
    ((watchLoop id sampleFlags sampleDeps sampleWatches LoopState.init).1.added.map
      (fun p => p.2.ReconcilePeriod)) = [5000000000, 10000000000] ∧
    (watchLoop id sampleFlags sampleDeps sampleWatches LoopState.init).1.added.map Prod.fst =
      sampleWatches :=
  ⟨by decide, by decide,
   (watchLoop_reconcilePeriod id sampleFlags sampleDeps sampleWatches).2 (by decide)⟩

end Run

namespace Run

/-- C11. On a command that defines both metrics flags, the argument check returns the error
`--metrics-secure flag is required when --metrics-require-rbac is present` if and only if
the text of `metrics-require-rbac` is `true` and the text of `metrics-secure` is `false`;
for every other pair of texts it returns the nil error. It never panics there. -/
theorem Args_spec (cmd : Command) (args : List GoString) (requireRbac secure : GoString)
    (hr : cmd (lit "metrics-require-rbac") = some requireRbac)
    (hs : cmd (lit "metrics-secure") = some secure) :
    (Args cmd args = .ok (some metricsSecureRequired) ↔
      (requireRbac = lit "true" ∧ secure = lit "false")) ∧
    (¬ (requireRbac = lit "true" ∧ secure = lit "false") → Args cmd args = .ok none) ∧
    (∀ err, Args cmd args = .ok (some err) → err = metricsSecureRequired) ∧
    (∀ p, Args cmd args ≠ .error p) := by
  unfold Args
  rw [hr]
  simp only []
  by_cases h1 : requireRbac = lit "true"
  · rw [if_pos h1, hs]
    simp only []
    by_cases h2 : secure = lit "false"
    · rw [if_pos h2]
      simp [h1, h2]
    · rw [if_neg h2]
      simp [h1, h2]
  · rw [if_neg h1]
    simp [h1]

theorem Args_spec_witness :
    sampleCommand (lit "true") (lit "false") (lit "metrics-require-rbac") = some (lit "true") ∧
    sampleCommand (lit "true") (lit "false") (lit "metrics-secure") = some (lit "false") ∧
    Args (sampleCommand (lit "true") (lit "false")) [] = .ok (some metricsSecureRequired) ∧
    Args (sampleCommand (lit "true") (lit "true")) [] = .ok none ∧
    Args (sampleCommand (lit "false") (lit "false")) [] = .ok none ∧
    Args (sampleCommand (lit "false") (lit "true")) [] = .ok none :=
  ⟨by decide, by decide,
   (Args_spec (sampleCommand (lit "true") (lit "false")) [] (lit "true") (lit "false")
      (by decide) (by decide)).1.mpr ⟨rfl, rfl⟩,
   (Args_spec (sampleCommand (lit "true") (lit "true")) [] (lit "true") (lit "true")
      (by decide) (by decide)).2.1 (by decide),
   (Args_spec (sampleCommand (lit "false") (lit "false")) [] (lit "false") (lit "false")
      (by decide) (by decide)).2.1 (by decide),
   (Args_spec (sampleCommand (lit "false") (lit "true")) [] (lit "false") (lit "true")
      (by decide) (by decide)).2.1 (by decide)⟩

end Run

namespace Run
open Schema

theorem head?_filter_eq_find? {α : Type} (p : α → Bool) :
    ∀ l : List α, (l.filter p).head? = l.find? p := by
  intro l
  induction l with
  | nil => rfl
  | cons a as ih =>
    by_cases h : p a = true
    · simp [List.filter_cons, List.find?_cons, h]
    · simp only [Bool.not_eq_true] at h
      simp [List.filter_cons, List.find?_cons, h, ih]

theorem Store_filter_key {κ : Type} (cMap : ControllerMap κ) (key : GroupVersionKind)
    (value : Contents κ) (blacklist : List GroupVersionKind) :
    (cMap.Store key value blacklist).filter (fun p => p.1 = key) =
      [(key, { value with Blacklist := blacklist })] := by
  unfold ControllerMap.Store
  rw [List.filter_append, List.filter_filter]
  have h : (cMap.filter (fun p => (decide (p.1 = key) && decide (p.1 ≠ key)))) = [] := by
    apply List.filter_eq_nil_iff.mpr
    intro p _
    simp
  rw [h]
  simp

theorem Store_filter_other {κ : Type} (cMap : ControllerMap κ) (key k : GroupVersionKind)
    (value : Contents κ) (blacklist : List GroupVersionKind) (hk : key ≠ k) :
    (cMap.Store key value blacklist).filter (fun p => p.1 = k) =
      cMap.filter (fun p => p.1 = k) := by
  unfold ControllerMap.Store
  rw [List.filter_append, List.filter_filter]
  have h1 : ([(key, { value with Blacklist := blacklist })].filter
      (fun p => decide (p.1 = k))) = [] := by
    simp [hk]
  rw [h1, List.append_nil]
  apply List.filter_congr
  intro p _
  by_cases hp : p.1 = k
  · simp [hp, Ne.symm hk]
  · simp [hp]

theorem Get_of_filter {κ : Type} (cMap : ControllerMap κ) (key : GroupVersionKind)
    (entry : Contents κ) (h : cMap.filter (fun p => p.1 = key) = [(key, entry)]) :
    cMap.Get key = some entry := by
  unfold ControllerMap.Get
  rw [← head?_filter_eq_find?, h]
  rfl

/-- One pass of the watch loop. -/
theorem watchLoop_cons {ρ κ σ : Type} (mapLower : GoString → GoString) (f : Flags)
    (deps : Deps ρ κ σ) (w : Watch σ) (ws : List (Watch σ)) (st : LoopState ρ κ σ) :
    watchLoop mapLower f deps (w :: ws) st =
      match deps.newRunner w f.AnsibleArgs with
      | none => (st, some 1)
      | some runner =>
        match deps.addController (optionsFor mapLower f deps w runner) with
        | none =>
          ({ st with added := st.added ++ [(w, optionsFor mapLower f deps w runner)] }, some 1)
        | some ctr =>
          watchLoop mapLower f deps ws
            { added := st.added ++ [(w, optionsFor mapLower f deps w runner)],
              cMap := st.cMap.Store w.GroupVersionKind (entryFor w ctr) w.Blacklist } := by
  rw [watchLoop]
  rfl

theorem watchLoop_append {ρ κ σ : Type} (mapLower : GoString → GoString) (f : Flags)
    (deps : Deps ρ κ σ) (post : List (Watch σ)) :
    ∀ (pre : List (Watch σ)) (st : LoopState ρ κ σ),
      (watchLoop mapLower f deps pre st).2 = none →
      watchLoop mapLower f deps (pre ++ post) st =
        watchLoop mapLower f deps post (watchLoop mapLower f deps pre st).1 := by
  intro pre
  induction pre with
  | nil => intro st _; rfl
  | cons w ws ih =>
    intro st h
    rw [List.cons_append]
    rw [watchLoop_cons] at h ⊢
    cases hr : deps.newRunner w f.AnsibleArgs with
    | none => rw [hr] at h; simp at h
    | some runner =>
      rw [hr] at h
      simp only [] at h ⊢
      cases hc : deps.addController (optionsFor mapLower f deps w runner) with
      | none => rw [hc] at h; simp at h
      | some ctr =>
        rw [hc] at h
        simp only [] at h ⊢
        have e : watchLoop mapLower f deps (w :: ws) st =
            watchLoop mapLower f deps ws
              { added := st.added ++ [(w, optionsFor mapLower f deps w runner)],
                cMap := st.cMap.Store w.GroupVersionKind (entryFor w ctr) w.Blacklist } := by
          rw [watchLoop_cons, hr]
          simp only [hc]
        rw [e]
        exact ih _ h

/-- A loop that exits in a prefix of the watches exits on the whole list. -/
theorem watchLoop_prefix_none {ρ κ σ : Type} (mapLower : GoString → GoString) (f : Flags)
    (deps : Deps ρ κ σ) (post : List (Watch σ)) :
    ∀ (pre : List (Watch σ)) (st : LoopState ρ κ σ),
      (watchLoop mapLower f deps (pre ++ post) st).2 = none →
      (watchLoop mapLower f deps pre st).2 = none := by
  intro pre
  induction pre with
  | nil => intro st _; rfl
  | cons w ws ih =>
    intro st h
    rw [List.cons_append] at h
    rw [watchLoop_cons] at h ⊢
    cases hr : deps.newRunner w f.AnsibleArgs with
    | none => rw [hr] at h; simp at h
    | some runner =>
      rw [hr] at h
      simp only [] at h ⊢
      cases hc : deps.addController (optionsFor mapLower f deps w runner) with
      | none => rw [hc] at h; simp at h
      | some ctr =>
        rw [hc] at h
        simp only [] at h ⊢
        exact ih _ h

/-- The loop leaves the entries of the kinds of no watch it visits as they are. -/
theorem watchLoop_filter_other {ρ κ σ : Type} (mapLower : GoString → GoString) (f : Flags)
    (deps : Deps ρ κ σ) (k : GroupVersionKind) :
    ∀ (ws : List (Watch σ)) (st : LoopState ρ κ σ),
      (∀ w ∈ ws, w.GroupVersionKind ≠ k) →
      (watchLoop mapLower f deps ws st).1.cMap.filter (fun p => p.1 = k) =
        st.cMap.filter (fun p => p.1 = k) := by
  intro ws
  induction ws with
  | nil => intro st _; rfl
  | cons w ws ih =>
    intro st h
    rw [watchLoop_cons]
    cases hr : deps.newRunner w f.AnsibleArgs with
    | none => rfl
    | some runner =>
      simp only []
      cases hc : deps.addController (optionsFor mapLower f deps w runner) with
      | none => rfl
      | some ctr =>
        simp only []
        rw [ih _ (fun w1 hw1 => h w1 (List.mem_cons_of_mem _ hw1))]
        exact Store_filter_other _ _ _ _ _ (h w (List.mem_cons_self _ _))

/-- The last pass of a loop that does not exit. -/
theorem watchLoop_last {ρ κ σ : Type} (mapLower : GoString → GoString) (f : Flags)
    (deps : Deps ρ κ σ) (w : Watch σ) (st : LoopState ρ κ σ)
    (h : (watchLoop mapLower f deps [w] st).2 = none) :
    ∃ runner ctr, deps.newRunner w f.AnsibleArgs = some runner ∧
      deps.addController (optionsFor mapLower f deps w runner) = some ctr ∧
      (watchLoop mapLower f deps [w] st).1 =
        { added := st.added ++ [(w, optionsFor mapLower f deps w runner)],
          cMap := st.cMap.Store w.GroupVersionKind (entryFor w ctr) w.Blacklist } := by
  rw [watchLoop_cons] at h ⊢
  cases hr : deps.newRunner w f.AnsibleArgs with
  | none => rw [hr] at h; simp at h
  | some runner =>
    rw [hr] at h
    simp only [] at h ⊢
    cases hc : deps.addController (optionsFor mapLower f deps w runner) with
    | none => rw [hc] at h; simp at h
    | some ctr =>
      exact ⟨runner, ctr, rfl, hc, rfl⟩

/-- C12. For every watch that the loop of `run` reaches without exiting, the pass for the
watch adds a controller for it and stores exactly one controller-map entry under the
watch's GroupVersionKind: the entry carries that controller, the watch's
WatchDependentResources and WatchClusterScopedResources flags, an owner watch map and an
annotation watch map that are each a new empty map, and the watch's blacklist as its
ignore-list. If the loop goes through the remaining watches without exiting and none of
them has the same kind, this is the one entry of the kind when the loop ends. -/
theorem watchLoop_stores {ρ κ σ : Type} (mapLower : GoString → GoString) (f : Flags)
    (deps : Deps ρ κ σ) (pre : List (Watch σ)) (w : Watch σ) (post : List (Watch σ))
    (h : (watchLoop mapLower f deps (pre ++ [w]) LoopState.init).2 = none) :
    ∃ runner ctr,
      deps.newRunner w f.AnsibleArgs = some runner ∧
      deps.addController (optionsFor mapLower f deps w runner) = some ctr ∧
      (watchLoop mapLower f deps (pre ++ [w]) LoopState.init).1.cMap.filter
          (fun p => p.1 = w.GroupVersionKind) = [(w.GroupVersionKind, entryFor w ctr)] ∧
      (watchLoop mapLower f deps (pre ++ [w]) LoopState.init).1.cMap.Get w.GroupVersionKind =
        some (entryFor w ctr) ∧
      ((watchLoop mapLower f deps (pre ++ w :: post) LoopState.init).2 = none →
        (∀ w1 ∈ post, w1.GroupVersionKind ≠ w.GroupVersionKind) →
        (watchLoop mapLower f deps (pre ++ w :: post) LoopState.init).1.cMap.filter
            (fun p => p.1 = w.GroupVersionKind) = [(w.GroupVersionKind, entryFor w ctr)] ∧
        (watchLoop mapLower f deps (pre ++ w :: post) LoopState.init).1.cMap.Get
            w.GroupVersionKind = some (entryFor w ctr)) := by
  have hpre := watchLoop_prefix_none mapLower f deps [w] pre LoopState.init h
  have happ := watchLoop_append mapLower f deps [w] pre LoopState.init hpre
  rw [happ] at h
  obtain ⟨runner, ctr, hr, hc, hst⟩ := watchLoop_last mapLower f deps w _ h
  have hfilter : (watchLoop mapLower f deps (pre ++ [w]) LoopState.init).1.cMap.filter
      (fun p => p.1 = w.GroupVersionKind) = [(w.GroupVersionKind, entryFor w ctr)] := by
    rw [happ, hst]
    exact Store_filter_key _ _ _ _
  refine ⟨runner, ctr, hr, hc, hfilter, Get_of_filter _ _ _ hfilter, ?_⟩
  intro _ hpost
  have hsplit : pre ++ w :: post = (pre ++ [w]) ++ post := by simp
  have hfinal : (watchLoop mapLower f deps (pre ++ w :: post) LoopState.init).1.cMap.filter
      (fun p => p.1 = w.GroupVersionKind) = [(w.GroupVersionKind, entryFor w ctr)] := by
    rw [hsplit, watchLoop_append mapLower f deps post (pre ++ [w]) LoopState.init
      (by rw [happ]; exact h)]
    rw [watchLoop_filter_other mapLower f deps w.GroupVersionKind post _ hpost]
    exact hfilter
  exact ⟨hfinal, Get_of_filter _ _ _ hfinal⟩

theorem watchLoop_stores_witness :
    (watchLoop id sampleFlags sampleDeps (sampleWatches ++ [sampleWatch]) LoopState.init).2 =
      none ∧
    ∃ runner ctr,
      sampleDeps.newRunner sampleWatch sampleFlags.AnsibleArgs = some runner ∧
      sampleDeps.addController (optionsFor id sampleFlags sampleDeps sampleWatch runner) =
        some ctr ∧
      (watchLoop id sampleFlags sampleDeps (sampleWatches ++ [sampleWatch])
          LoopState.init).1.cMap.filter (fun p => p.1 = sampleWatch.GroupVersionKind) =
        [(sampleWatch.GroupVersionKind, entryFor sampleWatch ctr)] ∧
      (watchLoop id sampleFlags sampleDeps (sampleWatches ++ [sampleWatch])
          LoopState.init).1.cMap.Get sampleWatch.GroupVersionKind =
        some (entryFor sampleWatch ctr) ∧
      ((watchLoop id sampleFlags sampleDeps (sampleWatches ++ sampleWatch :: [])
          LoopState.init).2 = none →
        (∀ w1 ∈ ([] : List (Watch Unit)),
          w1.GroupVersionKind ≠ sampleWatch.GroupVersionKind) →
        (watchLoop id sampleFlags sampleDeps (sampleWatches ++ sampleWatch :: [])
            LoopState.init).1.cMap.filter (fun p => p.1 = sampleWatch.GroupVersionKind) =
          [(sampleWatch.GroupVersionKind, entryFor sampleWatch ctr)] ∧
        (watchLoop id sampleFlags sampleDeps (sampleWatches ++ sampleWatch :: [])
            LoopState.init).1.cMap.Get sampleWatch.GroupVersionKind =
          some (entryFor sampleWatch ctr)) :=
  ⟨by decide,
   watchLoop_stores id sampleFlags sampleDeps sampleWatches sampleWatch [] (by decide)⟩

end Run

namespace Run
open Schema

theorem registered_register (wm : WatchMap) (d : GroupVersionKind) :
    WatchMap.registered (WatchMap.register wm d) d = true := by
  unfold WatchMap.registered WatchMap.register
  rw [List.find?_append]
  have h : (wm.filter (fun p => p.1 ≠ d)).find? (fun p => p.1 = d) = none := by
    apply List.find?_eq_none.mpr
    intro p hp
    have := (List.mem_filter.mp hp).2
    simpa using this
  rw [h]
  simp

theorem watchMap_setWatchMap {κ : Type} (entry : Contents κ) (v : Bool) (wm : WatchMap) :
    (entry.setWatchMap v wm).watchMap v = wm := by
  cases v <;> rfl

theorem Blacklist_setWatchMap {κ : Type} (entry : Contents κ) (v : Bool) (wm : WatchMap) :
    (entry.setWatchMap v wm).Blacklist = entry.Blacklist := by
  cases v <;> rfl

/-- Reading the map after the entries of a kind have been replaced. -/
theorem Get_map_replace {κ : Type} (kind : GroupVersionKind) (marked : Contents κ)
    (k : GroupVersionKind) :
    ∀ cMap : ControllerMap κ,
      ControllerMap.Get (cMap.map (fun p => if p.1 = kind then (p.1, marked) else p)) k =
        (cMap.Get k).map (fun e => if k = kind then marked else e) := by
  intro cMap
  induction cMap with
  | nil => rfl
  | cons p ps ih =>
    unfold ControllerMap.Get at ih ⊢
    rw [List.map_cons, List.find?_cons, List.find?_cons]
    by_cases hk : p.1 = kind
    · rw [if_pos hk]
      by_cases hpk : p.1 = k
      · have hkk : k = kind := hpk ▸ hk
        simp [hpk, hkk]
      · simp only [hpk, decide_False]
        exact ih
    · rw [if_neg hk]
      by_cases hpk : p.1 = k
      · have hkk : ¬ k = kind := hpk ▸ hk
        simp [hpk, hkk]
      · simp only [hpk, decide_False]
        exact ih

/-- The answer and the effect of `MarkWatched` on a kind that has an entry. -/
theorem MarkWatched_of_entry {κ : Type} (cMap : ControllerMap κ)
    (kind d : GroupVersionKind) (v : Bool) (entry : Contents κ)
    (h : cMap.Get kind = some entry) :
    cMap.MarkWatched kind d v =
      if WatchMap.registered (entry.watchMap v) d then (cMap, true)
      else
        (cMap.map (fun p => if p.1 = kind then
          (p.1, entry.setWatchMap v (WatchMap.register (entry.watchMap v) d)) else p), false) := by
  unfold ControllerMap.MarkWatched
  rw [h]

theorem MarkWatched_twice {κ : Type} (cMap : ControllerMap κ) (kind d : GroupVersionKind)
    (v : Bool) :
    (cMap.MarkWatched kind d v).1.MarkWatched kind d v =
      ((cMap.MarkWatched kind d v).1, true) := by
  cases hg : cMap.Get kind with
  | none =>
    have h1 : cMap.MarkWatched kind d v = (cMap, true) := by
      unfold ControllerMap.MarkWatched
      rw [hg]
    rw [h1]
    exact h1
  | some entry =>
    rw [MarkWatched_of_entry cMap kind d v entry hg]
    by_cases hreg : WatchMap.registered (entry.watchMap v) d = true
    · rw [if_pos hreg]
      simp only []
      rw [MarkWatched_of_entry cMap kind d v entry hg, if_pos hreg]
    · rw [if_neg hreg]
      simp only []
      have hg2 := Get_map_replace kind
        (entry.setWatchMap v (WatchMap.register (entry.watchMap v) d)) kind cMap
      rw [hg] at hg2
      simp only [Option.map_some', if_true] at hg2
      rw [MarkWatched_of_entry _ kind d v _ hg2]
      rw [watchMap_setWatchMap, registered_register]
      simp

/-- Calls repeated on a map in which the dependent kind is already marked: the map stays
and no watch is registered. -/
theorem markAndRegister_iterate_marked {κ : Type} (kind d : GroupVersionKind) (v : Bool) :
    ∀ (n : Nat) (st : ProxyState κ),
      st.cMap.MarkWatched kind d v = (st.cMap, true) →
      ((fun s => markAndRegister s kind d v)^[n] st).cMap = st.cMap ∧
      ((fun s => markAndRegister s kind d v)^[n] st).calls =
        st.calls ++ List.replicate n (Call.MarkWatched kind d v) := by
  intro n
  induction n with
  | zero => intro st _; simp
  | succ n ih =>
    intro st h
    rw [Function.iterate_succ_apply]
    have h1 : markAndRegister st kind d v =
        { cMap := st.cMap, calls := st.calls ++ [Call.MarkWatched kind d v] } := by
      unfold markAndRegister
      simp [h]
    rw [h1]
    obtain ⟨ih1, ih2⟩ := ih { cMap := st.cMap, calls := st.calls ++ [Call.MarkWatched kind d v] } h
    refine ⟨ih1, ?_⟩
    rw [ih2, List.replicate_succ]
    simp

/-- C14. `MarkWatched` is idempotent: for every controller map, kind, dependent kind and
channel, a second call with the same arguments returns `true` and leaves the controller map
as the first call left it; and any number of calls with the same arguments, each followed by
a `RegisterDynamicWatch` call if it answers "not already watched", makes at most one
`RegisterDynamicWatch` call for these arguments, while the map stays as the first call left
it. -/
theorem MarkWatched_idempotent {κ : Type} (st : ProxyState κ) (kind d : GroupVersionKind)
    (v : Bool) (n : Nat) :
    (st.cMap.MarkWatched kind d v).1.MarkWatched kind d v =
      ((st.cMap.MarkWatched kind d v).1, true) ∧
    ((fun s => markAndRegister s kind d v)^[n] st).calls.count
        (Call.RegisterDynamicWatch kind d v) ≤
      st.calls.count (Call.RegisterDynamicWatch kind d v) + 1 ∧
    ((fun s => markAndRegister s kind d v)^[n + 1] st).cMap =
      (st.cMap.MarkWatched kind d v).1 := by
  have htwice := MarkWatched_twice st.cMap kind d v
  have hone : (markAndRegister st kind d v).cMap = (st.cMap.MarkWatched kind d v).1 := rfl
  have hcount1 : (markAndRegister st kind d v).calls.count
      (Call.RegisterDynamicWatch kind d v) ≤
      st.calls.count (Call.RegisterDynamicWatch kind d v) + 1 := by
    unfold markAndRegister
    simp only [List.count_append]
    split_ifs <;> simp [List.count_cons]
  have hrest : ∀ m, ((fun s => markAndRegister s kind d v)^[m + 1] st).cMap =
        (st.cMap.MarkWatched kind d v).1 ∧
      ((fun s => markAndRegister s kind d v)^[m + 1] st).calls.count
        (Call.RegisterDynamicWatch kind d v) ≤
      st.calls.count (Call.RegisterDynamicWatch kind d v) + 1 := by
    intro m
    rw [Function.iterate_succ_apply]
    obtain ⟨h1, h2⟩ := markAndRegister_iterate_marked kind d v m (markAndRegister st kind d v)
      (by rw [hone]; exact htwice)
    refine ⟨by rw [h1, hone], ?_⟩
    rw [h2, List.count_append]
    have : (List.replicate m (Call.MarkWatched kind d v)).count
        (Call.RegisterDynamicWatch kind d v) = 0 := by
      rw [List.count_replicate]
      simp
    omega
  refine ⟨htwice, ?_, (hrest n).1⟩
  cases n with
  | zero => simp
  | succ m => exact (hrest m).2

/-- `MarkWatched` changes no ignore-list and removes no entry. -/
theorem MarkWatched_Blacklist {κ : Type} (cMap : ControllerMap κ)
    (kind d k : GroupVersionKind) (v : Bool) :
    ((cMap.MarkWatched kind d v).1.Get k).map (fun e => e.Blacklist) =
      (cMap.Get k).map (fun e => e.Blacklist) := by
  cases hg : cMap.Get kind with
  | none =>
    have h1 : cMap.MarkWatched kind d v = (cMap, true) := by
      unfold ControllerMap.MarkWatched
      rw [hg]
    rw [h1]
  | some entry =>
    rw [MarkWatched_of_entry cMap kind d v entry hg]
    by_cases hreg : WatchMap.registered (entry.watchMap v) d = true
    · rw [if_pos hreg]
    · rw [if_neg hreg]
      simp only []
      rw [Get_map_replace]
      by_cases hk : k = kind
      · subst hk
        rw [hg]
        simp [Blacklist_setWatchMap]
      · simp [hk]

/-- One observation: the calls it adds are for its own owner kind and dependent kind, and
it adds none when the dependent kind is in the ignore-list of the owner's entry. -/
theorem observe_calls {κ : Type} (st : ProxyState κ) (kind d : GroupVersionKind) (v : Bool) :
    ∃ new, (observe st kind d v).calls = st.calls ++ new ∧
      (∀ c ∈ new, c = Call.MarkWatched kind d v ∨ c = Call.RegisterDynamicWatch kind d v) ∧
      (∀ entry, st.cMap.Get kind = some entry → d ∈ entry.Blacklist → new = []) ∧
      (∀ k, ((observe st kind d v).cMap.Get k).map (fun e => e.Blacklist) =
        (st.cMap.Get k).map (fun e => e.Blacklist)) := by
  unfold observe
  cases hg : st.cMap.Get kind with
  | none =>
    exact ⟨[], by simp, by simp, by simp, fun _ => rfl⟩
  | some entry =>
    simp only []
    by_cases hb : d ∈ entry.Blacklist
    · rw [if_pos hb]
      exact ⟨[], by simp, by simp, by simp, fun _ => rfl⟩
    · rw [if_neg hb]
      by_cases hreg : WatchMap.registered (entry.watchMap v) d = true
      · rw [if_pos hreg]
        exact ⟨[], by simp, by simp, by simp, fun _ => rfl⟩
      · rw [if_neg hreg]
        refine ⟨[Call.MarkWatched kind d v] ++
          (if (st.cMap.MarkWatched kind d v).2 then []
            else [Call.RegisterDynamicWatch kind d v]), ?_, ?_, ?_, ?_⟩
        · unfold markAndRegister
          simp
        · intro c hc
          simp only [List.mem_append, List.mem_singleton] at hc
          rcases hc with hc | hc
          · exact Or.inl hc
          · split_ifs at hc
            · simp at hc
            · simp only [List.mem_singleton] at hc
              exact Or.inr hc
        · intro e he hmem
          have : e = entry := Option.some.inj he.symm ▸ rfl
          subst this
          exact absurd hmem hb
        · intro k
          exact MarkWatched_Blacklist st.cMap kind d k v

/-- C15. A dependent kind that is in the ignore-list of a controller-map entry is never
registered as a dynamic watch of that entry: whatever sequence of objects the proxy
observes, of that kind or of others, for that owner or for others and on either channel,
the calls it makes contain no `MarkWatched` call and no `RegisterDynamicWatch` call for the
owner kind and the ignored kind, and the kind stays in the ignore-list of the entry. -/
theorem observeAll_ignored {κ : Type} (obs : List Observation) :
    ∀ (st : ProxyState κ) (kind d : GroupVersionKind) (entry : Contents κ),
      st.cMap.Get kind = some entry → d ∈ entry.Blacklist →
      ∃ new, (observeAll st obs).calls = st.calls ++ new ∧
        (∀ v, Call.MarkWatched kind d v ∉ new ∧ Call.RegisterDynamicWatch kind d v ∉ new) ∧
        ∃ entry1, (observeAll st obs).cMap.Get kind = some entry1 ∧ d ∈ entry1.Blacklist := by
  induction obs with
  | nil =>
    intro st kind d entry hg hmem
    exact ⟨[], by simp [observeAll], by simp, entry, hg, hmem⟩
  | cons o os ih =>
    intro st kind d entry hg hmem
    obtain ⟨new1, hc1, hnew1, hign1, hbl1⟩ :=
      observe_calls st o.kind o.dependentKind o.viaAnnotation
    have hb := hbl1 kind
    rw [hg] at hb
    cases hg1 : (observe st o.kind o.dependentKind o.viaAnnotation).cMap.Get kind with
    | none => rw [hg1] at hb; simp at hb
    | some entry1 =>
      rw [hg1] at hb
      simp only [Option.map_some', Option.some.injEq] at hb
      have hmem1 : d ∈ entry1.Blacklist := by rw [hb]; exact hmem
      obtain ⟨new2, hc2, hnew2, hrest⟩ := ih _ kind d entry1 hg1 hmem1
      refine ⟨new1 ++ new2, ?_, ?_, hrest⟩
      · show (observeAll (observe st o.kind o.dependentKind o.viaAnnotation) os).calls = _
        rw [hc2, hc1, List.append_assoc]
      · intro v
        have hno : ∀ c ∈ new1, c ≠ Call.MarkWatched kind d v ∧
            c ≠ Call.RegisterDynamicWatch kind d v := by
          intro c hc
          by_cases hsame : o.kind = kind ∧ o.dependentKind = d
          · have hnil : new1 = [] := by
              apply hign1 entry
              · rw [hsame.1]; exact hg
              · rw [hsame.2]; exact hmem
            rw [hnil] at hc
            simp at hc
          · rcases hnew1 c hc with h | h
            · subst h
              refine ⟨?_, by simp⟩
              intro heq
              injection heq with h1 h2 _
              exact hsame ⟨h1, h2⟩
            · subst h
              refine ⟨by simp, ?_⟩
              intro heq
              injection heq with h1 h2 _
              exact hsame ⟨h1, h2⟩
        refine ⟨?_, ?_⟩
        · intro hin
          rcases List.mem_append.mp hin with h | h
          · exact (hno _ h).1 rfl
          · exact (hnew2 v).1 h
        · intro hin
          rcases List.mem_append.mp hin with h | h
          · exact (hno _ h).2 rfl
          · exact (hnew2 v).2 h

theorem observeAll_ignored_witness :
    sampleProxy.cMap.Get kindMemcached = some (entryFor sampleWatch ()) ∧
    kindSecret ∈ (entryFor sampleWatch ()).Blacklist ∧
    (observeAll sampleProxy sampleObservations).calls =
      [Call.MarkWatched kindMemcached kindConfigMap false,
       Call.RegisterDynamicWatch kindMemcached kindConfigMap false] ∧
    ∃ new, (observeAll sampleProxy sampleObservations).calls = sampleProxy.calls ++ new ∧
      (∀ v, Call.MarkWatched kindMemcached kindSecret v ∉ new ∧
        Call.RegisterDynamicWatch kindMemcached kindSecret v ∉ new) ∧
      ∃ entry1, (observeAll sampleProxy sampleObservations).cMap.Get kindMemcached =
        some entry1 ∧ kindSecret ∈ entry1.Blacklist :=
  ⟨rfl, by decide, by decide,
   observeAll_ignored sampleObservations sampleProxy kindMemcached kindSecret
     (entryFor sampleWatch ()) rfl (by decide)⟩

end Run

namespace Runner

/-- Once a run is "failed" it stays so, whatever events follow. -/
theorem foldl_aggregateEvent_failed (events : List TaskEvent) :
    ∀ s : RunStatus, s.failed = true → (events.foldl aggregateEvent s).failed = true := by
  induction events with
  | nil => intro s h; exact h
  | cons e es ih =>
    intro s h
    rw [List.foldl_cons]
    apply ih
    simp [aggregateEvent, h]

/-- C16. For every sequence of task events of one run that contains a failed task, with any
events before and after it, the aggregated status is "failed"; the outcome of the run is
Failed when the automation process has exited, and it is never Successful nor a requeue of
a successful run, however the process ended and whatever the tasks after the failure
report. -/
theorem reconcileOutcome_failed (pre post : List TaskEvent) (e : TaskEvent)
    (reconcilePeriod : Int) (he : e.outcome = TaskOutcome.failed) :
    (aggregate (pre ++ e :: post)).failed = true ∧
    reconcileOutcome .exited (pre ++ e :: post) reconcilePeriod = .Failed ∧
    (∀ ending, reconcileOutcome ending (pre ++ e :: post) reconcilePeriod ≠ .Successful ∧
      ∀ after, reconcileOutcome ending (pre ++ e :: post) reconcilePeriod ≠ .Requeue after) := by
  have hagg : (aggregate (pre ++ e :: post)).failed = true := by
    unfold aggregate
    rw [List.foldl_append, List.foldl_cons]
    apply foldl_aggregateEvent_failed
    simp [aggregateEvent, he]
  refine ⟨hagg, ?_, ?_⟩
  · simp [reconcileOutcome, hagg]
  · intro ending
    cases ending <;> simp [reconcileOutcome, hagg]

theorem reconcileOutcome_failed_witness :
    (⟨0, lit "create secret", .failed, (lit "default", lit "memcached-sample"), []⟩ :
      TaskEvent).outcome = TaskOutcome.failed ∧
    reconcileOutcome .exited sampleEvents 0 = .Failed ∧
    (aggregate sampleEvents).tasks.lookup (lit "create secret") = some .ok :=
  ⟨rfl,
   (reconcileOutcome_failed
      [⟨0, lit "create configmap", .changed, (lit "default", lit "memcached-sample"), []⟩]
      [⟨0, lit "create service", .ok, (lit "default", lit "memcached-sample"), []⟩,
       ⟨0, lit "create secret", .ok, (lit "default", lit "memcached-sample"), []⟩]
      ⟨0, lit "create secret", .failed, (lit "default", lit "memcached-sample"), []⟩
      0 rfl).2.1,
   by decide⟩

end Runner

namespace Handler
open Schema

theorem parseOwnerTypeGroupKind_ok {ε : Type} (e : enqueueRequestForOwner) (scheme : Scheme ε)
    (k : GroupVersionKind) (h : scheme e.ownerType = .ok [k]) :
    parseOwnerTypeGroupKind e scheme =
      .ok { e with groupKind := { Group := k.Group, Kind := k.Kind } } := by
  unfold parseOwnerTypeGroupKind
  rw [h]
  simp

theorem parseOwnerTypeGroupKind_notOne {ε : Type} (e : enqueueRequestForOwner)
    (scheme : Scheme ε) (kinds : List GroupVersionKind) (h : scheme e.ownerType = .ok kinds)
    (hl : kinds.length ≠ 1) :
    parseOwnerTypeGroupKind e scheme = .error (.notOneKind kinds) := by
  unfold parseOwnerTypeGroupKind
  rw [h]
  simp only []
  rw [dif_pos hl]

theorem parseOwnerTypeGroupKind_err {ε : Type} (e : enqueueRequestForOwner)
    (scheme : Scheme ε) (err : ε) (h : scheme e.ownerType = .error err) :
    parseOwnerTypeGroupKind e scheme = .error (.objectKinds err) := by
  unfold parseOwnerTypeGroupKind
  rw [h]

/-- C17. `parseOwnerTypeGroupKind` returns an error when the scheme cannot resolve the owner
type (the scheme's error) or resolves it to a number of kinds other than exactly one, and
otherwise caches the Group and Kind of that single kind, leaving the other fields as they
are; `EnqueueRequestForOwnerWithLogging` panics exactly when `parseOwnerTypeGroupKind`
returns an error on the new handler, with that error, and otherwise returns the parsed
handler with every supplied option applied, in the order given. -/
theorem EnqueueRequestForOwnerWithLogging_spec {ε : Type} (scheme : Scheme ε)
    (mapper : RESTMapper) (ownerType : Option RuntimeObject) (opts : List OwnerOption)
    (e : enqueueRequestForOwner) :
    (∀ err, scheme e.ownerType = .error err →
      parseOwnerTypeGroupKind e scheme = .error (.objectKinds err)) ∧
    (∀ kinds, scheme e.ownerType = .ok kinds → kinds.length ≠ 1 →
      parseOwnerTypeGroupKind e scheme = .error (.notOneKind kinds)) ∧
    (∀ k, scheme e.ownerType = .ok [k] →
      parseOwnerTypeGroupKind e scheme =
        .ok { e with groupKind := { Group := k.Group, Kind := k.Kind } }) ∧
    (∀ err, EnqueueRequestForOwnerWithLogging scheme mapper ownerType opts = .error err ↔
      parseOwnerTypeGroupKind
        { ownerType := ownerType, mapper := mapper, isController := false,
          groupKind := { Group := [], Kind := [] } } scheme = .error err) ∧
    (∀ k, scheme ownerType = .ok [k] →
      EnqueueRequestForOwnerWithLogging scheme mapper ownerType opts =
        .ok (opts.foldl (fun e opt => opt e)
          { ownerType := ownerType, mapper := mapper, isController := false,
            groupKind := { Group := k.Group, Kind := k.Kind } })) := by
  refine ⟨fun err h => parseOwnerTypeGroupKind_err e scheme err h,
    fun kinds h hl => parseOwnerTypeGroupKind_notOne e scheme kinds h hl,
    fun k h => parseOwnerTypeGroupKind_ok e scheme k h, ?_, ?_⟩
  · intro err
    unfold EnqueueRequestForOwnerWithLogging
    simp only []
    cases hp : parseOwnerTypeGroupKind
        { ownerType := ownerType, mapper := mapper, isController := false,
          groupKind := { Group := [], Kind := [] } } scheme with
    | error err1 => simp
    | ok e1 => simp
  · intro k hk
    unfold EnqueueRequestForOwnerWithLogging
    simp only []
    rw [parseOwnerTypeGroupKind_ok _ scheme k hk]

theorem EnqueueRequestForOwnerWithLogging_spec_witness :
    sampleScheme sampleHandler.ownerType =
      .ok [⟨lit "cache.example.com", lit "v1alpha1", lit "Memcached"⟩] ∧
    EnqueueRequestForOwnerWithLogging sampleScheme sampleHandler.mapper
        sampleHandler.ownerType [OnlyControllerOwner] =
      .ok ([OnlyControllerOwner].foldl (fun e opt => opt e)
        { ownerType := sampleHandler.ownerType, mapper := sampleHandler.mapper,
          isController := false,
          groupKind := { Group := lit "cache.example.com", Kind := lit "Memcached" } }) ∧
    ((EnqueueRequestForOwnerWithLogging sampleScheme sampleHandler.mapper
        sampleHandler.ownerType [OnlyControllerOwner]).toOption.map
          (fun e => (e.isController, e.groupKind))) =
      some (true, { Group := lit "cache.example.com", Kind := lit "Memcached" }) ∧
    EnqueueRequestForOwnerWithLogging sampleScheme sampleHandler.mapper
        (some { goType := lit "*metav1.ListOptions", kind := ⟨[], [], []⟩ }) [] =
      .error (.notOneKind
        [⟨[], lit "v1", lit "ListOptions"⟩, ⟨lit "apps", lit "v1", lit "ListOptions"⟩]) :=
  ⟨rfl,
   (EnqueueRequestForOwnerWithLogging_spec sampleScheme sampleHandler.mapper
      sampleHandler.ownerType [OnlyControllerOwner] sampleHandler).2.2.2.2
        ⟨lit "cache.example.com", lit "v1alpha1", lit "Memcached"⟩ rfl,
   by decide,
   ((EnqueueRequestForOwnerWithLogging_spec sampleScheme sampleHandler.mapper
      (some { goType := lit "*metav1.ListOptions", kind := ⟨[], [], []⟩ }) []
      sampleHandler).2.2.2.1 _).mpr
     ((EnqueueRequestForOwnerWithLogging_spec sampleScheme sampleHandler.mapper
      (some { goType := lit "*metav1.ListOptions", kind := ⟨[], [], []⟩ }) []
      { ownerType := some { goType := lit "*metav1.ListOptions", kind := ⟨[], [], []⟩ },
        mapper := sampleHandler.mapper, isController := false,
        groupKind := { Group := [], Kind := [] } }).2.1 _ rfl (by decide))⟩

end Handler

namespace E2e

theorem ReadFile_WriteFile (fs fs1 : FS) (name data old : GoString) (perm : Nat)
    (hr : ReadFile fs name = .ok old) (hw : WriteFile fs name data perm = (none, fs1)) :
    ReadFile fs1 name = .ok data ∧ (∀ n, n ≠ name → fs1.file n = fs.file n) ∧
      fs1.creatable = fs.creatable := by
  unfold ReadFile at hr
  unfold WriteFile at hw
  cases hf : fs.file name with
  | none => rw [hf] at hr; simp at hr
  | some f =>
    rw [hf] at hr hw
    simp only [] at hr hw
    by_cases hread : f.readable = true
    · by_cases hwr : f.writable = true
      · rw [if_pos hwr] at hw
        have h1 := (Prod.mk.inj hw).2
        subst h1
        refine ⟨?_, ?_, rfl⟩
        · unfold ReadFile
          simp [hread]
        · intro n hn
          simp [hn]
      · rw [if_neg hwr] at hw
        simp at hw
    · rw [if_neg hread] at hr
      simp at hr

/-- C18. After a successful `AllowProjectBeMultiGroup` call the PROJECT file of the sample
consists of the line `multigroup: true`, a newline, and then the previous content of the
file byte for byte, and no other file has changed; when the PROJECT file cannot be read the
call returns the error of the read and leaves the file system as it is. -/
theorem AllowProjectBeMultiGroup_spec (Join : List GoString → GoString) (sample : Sample)
    (fs : FS) :
    (∀ fs1, AllowProjectBeMultiGroup Join sample fs = (none, fs1) →
      ∃ old, ReadFile fs (Join [sample.Dir, lit "PROJECT"]) = .ok old ∧
        ReadFile fs1 (Join [sample.Dir, lit "PROJECT"]) =
          .ok (lit "multigroup: true" ++ [0x0A] ++ old) ∧
        (∀ n, n ≠ Join [sample.Dir, lit "PROJECT"] → fs1.file n = fs.file n)) ∧
    (∀ err, ReadFile fs (Join [sample.Dir, lit "PROJECT"]) = .error err →
      AllowProjectBeMultiGroup Join sample fs = (some err, fs)) := by
  refine ⟨?_, ?_⟩
  · intro fs1 h
    unfold AllowProjectBeMultiGroup at h
    cases hr : ReadFile fs (Join [sample.Dir, lit "PROJECT"]) with
    | error err => rw [hr] at h; simp at h
    | ok old =>
      rw [hr] at h
      simp only [] at h
      cases hw : WriteFile fs (Join [sample.Dir, lit "PROJECT"]) (multiGroup ++ old) 0o644 with
      | mk e fs2 =>
        rw [hw] at h
        cases e with
        | some err => simp at h
        | none =>
          simp only [Prod.mk.injEq, true_and] at h
          subst h
          obtain ⟨h1, h2, _⟩ := ReadFile_WriteFile fs fs2 _ _ old _ hr hw
          exact ⟨old, rfl, h1, h2⟩
  · intro err h
    unfold AllowProjectBeMultiGroup
    rw [h]

theorem AllowProjectBeMultiGroup_spec_witness :
    (AllowProjectBeMultiGroup sampleJoin ⟨lit "/tmp/memcached"⟩ sampleFS).1 = none ∧
    ReadFile (AllowProjectBeMultiGroup sampleJoin ⟨lit "/tmp/memcached"⟩ sampleFS).2
        (lit "/tmp/memcached/PROJECT") =
      .ok (lit "multigroup: true\ndomain: example.com\nlayout:\n- ansible\n") ∧
    (∃ old, ReadFile sampleFS (sampleJoin [lit "/tmp/memcached", lit "PROJECT"]) = .ok old ∧
      ReadFile (AllowProjectBeMultiGroup sampleJoin ⟨lit "/tmp/memcached"⟩ sampleFS).2
          (sampleJoin [lit "/tmp/memcached", lit "PROJECT"]) =
        .ok (lit "multigroup: true" ++ [0x0A] ++ old) ∧
      (∀ n, n ≠ sampleJoin [lit "/tmp/memcached", lit "PROJECT"] →
        (AllowProjectBeMultiGroup sampleJoin ⟨lit "/tmp/memcached"⟩ sampleFS).2.file n =
          sampleFS.file n)) ∧
    ReadFile sampleFS (sampleJoin [lit "/tmp/redis", lit "PROJECT"]) = .error .notExist ∧
    (AllowProjectBeMultiGroup sampleJoin ⟨lit "/tmp/redis"⟩ sampleFS).1 = some .notExist :=
  ⟨by decide, rfl,
   (AllowProjectBeMultiGroup_spec sampleJoin ⟨lit "/tmp/memcached"⟩ sampleFS).1 _ rfl,
   rfl,
   congrArg Prod.fst
     ((AllowProjectBeMultiGroup_spec sampleJoin ⟨lit "/tmp/redis"⟩ sampleFS).2 _ rfl)⟩

end E2e
